import Mathlib

set_option maxHeartbeats 1000000
set_option maxRecDepth 4000

/-!
Verification development for the populse_db schema/value layer
(python/populse_db/database.py).

We shallow-embed the Python value domain, the value codec
(python_to_column, column_to_python, list_to_column, column_to_list and
the list-item converters), the column-name derivation (MD5 hashing),
the schema catalog and document operations of the Database class, and
filter_documents.

Python builtins (repr, ast.literal_eval), the dateutil ISO parser and
the SQL backend are external collaborators of the repository; they are
modelled here as executable printer/parser pairs and as an executable
row-filter semantics at the level the specification describes.  The
repository files database_model.py and filter.py are not among the
sources; the field-type constants and the filter compiler are modelled
from the specification, as marked in their doc comments.
-/

/-! ## The Python value domain -/

/-- Decimal model of a Python float as rendered by repr: an optional
sign, an integer part and a list of fractional digits.  Python
guarantees that repr of a float is an exact decimal form that
literal_eval maps back to the same float, which this model reflects. -/
structure PyFloat where
  neg : Bool
  ip : Nat
  fr : List Nat
deriving DecidableEq, Repr

/-- Model of datetime.date. -/
structure PDate where
  year : Nat
  month : Nat
  day : Nat
deriving DecidableEq, Repr

/-- Model of datetime.time. -/
structure PTime where
  hour : Nat
  minute : Nat
  second : Nat
  microsecond : Nat
deriving DecidableEq, Repr

/-- Model of datetime.datetime. -/
structure PDatetime where
  date : PDate
  time : PTime
deriving DecidableEq, Repr

/-- A scalar Python value (the values that can sit in one database
column, and the elements of list values). -/
inductive PyScalar where
  | none
  | bool (b : Bool)
  | int (n : Int)
  | float (f : PyFloat)
  | str (s : String)
  | date (d : PDate)
  | time (t : PTime)
  | datetime (dt : PDatetime)
deriving DecidableEq, Repr

/-- A Python value as passed to the value API: a scalar or a list of
scalars. -/
inductive PyValue where
  | scalar (s : PyScalar)
  | list (xs : List PyScalar)
deriving DecidableEq, Repr

/-- The exact runtime type tag, as Python type() returns it (bool is
not int under type() equality). -/
inductive PyType where
  | tNone
  | tBool
  | tInt
  | tFloat
  | tStr
  | tDate
  | tTime
  | tDatetime
  | tList
deriving DecidableEq, Repr

/-- Model of type(value). -/
def pyTypeOf : PyValue → PyType
  | .scalar .none => .tNone
  | .scalar (.bool _) => .tBool
  | .scalar (.int _) => .tInt
  | .scalar (.float _) => .tFloat
  | .scalar (.str _) => .tStr
  | .scalar (.date _) => .tDate
  | .scalar (.time _) => .tTime
  | .scalar (.datetime _) => .tDatetime
  | .list _ => .tList

/-! ## Decimal digit rendering and reading

These model the digit runs inside Python repr output and inside
ISO-8601 date/time strings. -/

/-- The character of a decimal digit. -/
def digitChar (d : Nat) : Char := Char.ofNat (48 + d)

/-- The value of a decimal digit character. -/
def charVal (c : Char) : Nat := c.toNat - 48

/-- The decimal rendering of a natural number ("0" for zero, no
leading zeros otherwise). -/
def natToChars (n : Nat) : List Char :=
  if n = 0 then ['0'] else ((Nat.digits 10 n).reverse.map digitChar)

/-- The value of a run of decimal digit characters (leading zeros
allowed). -/
def charsToNat (ds : List Char) : Nat :=
  Nat.ofDigits 10 ((ds.map charVal).reverse)

theorem charVal_digitChar : ∀ d, d < 10 → charVal (digitChar d) = d := by decide

theorem isDigit_digitChar : ∀ d, d < 10 → (digitChar d).isDigit = true := by decide

theorem natToChars_ne_nil (n : Nat) : natToChars n ≠ [] := by
  unfold natToChars
  split
  · simp
  · next h =>
    simp only [ne_eq, List.map_eq_nil_iff, List.reverse_eq_nil_iff]
    exact Nat.digits_ne_nil_iff_ne_zero.2 h

theorem natToChars_all_digits (n : Nat) : ∀ c ∈ natToChars n, c.isDigit = true := by
  intro c hc
  unfold natToChars at hc
  split at hc
  · simp only [List.mem_singleton] at hc
    subst hc; decide
  · simp only [List.mem_map, List.mem_reverse] at hc
    obtain ⟨d, hd, rfl⟩ := hc
    exact isDigit_digitChar d (Nat.digits_lt_base (by norm_num) hd)

theorem ofDigits_replicate_zero (k : Nat) :
    Nat.ofDigits 10 (List.replicate k (0 : Nat)) = 0 := by
  induction k with
  | zero => simp [Nat.ofDigits]
  | succ k ih => rw [List.replicate_succ, Nat.ofDigits_cons, ih]

theorem charsToNat_replicate_zero (k : Nat) (ds : List Char) :
    charsToNat (List.replicate k '0' ++ ds) = charsToNat ds := by
  unfold charsToNat
  rw [List.map_append, List.reverse_append]
  have hz : (List.replicate k '0').map charVal = List.replicate k 0 := by
    rw [List.map_replicate]; rfl
  rw [hz, List.reverse_replicate, Nat.ofDigits_append, ofDigits_replicate_zero]
  simp

theorem charsToNat_natToChars (n : Nat) : charsToNat (natToChars n) = n := by
  unfold natToChars
  split
  · next h => subst h; rfl
  · unfold charsToNat
    simp only [List.map_reverse, List.reverse_reverse, List.map_map]
    have : (Nat.digits 10 n).map (charVal ∘ digitChar) = (Nat.digits 10 n).map id := by
      apply List.map_congr_left
      intro d hd
      exact charVal_digitChar d (Nat.digits_lt_base (by norm_num) hd)
    rw [this, List.map_id, Nat.ofDigits_digits]

theorem takeWhile_append_all {p : Char → Bool} {l r : List Char}
    (h : ∀ c ∈ l, p c = true) : (l ++ r).takeWhile p = l ++ r.takeWhile p := by
  induction l with
  | nil => simp
  | cons c l ih =>
    have hc := h c (List.mem_cons_self c l)
    have ih2 := ih fun x hx => h x (List.mem_cons_of_mem _ hx)
    simp [List.takeWhile_cons, hc, ih2]

theorem dropWhile_append_all {p : Char → Bool} {l r : List Char}
    (h : ∀ c ∈ l, p c = true) : (l ++ r).dropWhile p = r.dropWhile p := by
  induction l with
  | nil => simp
  | cons c l ih =>
    have hc := h c (List.mem_cons_self c l)
    have ih2 := ih fun x hx => h x (List.mem_cons_of_mem _ hx)
    simp [List.dropWhile_cons, hc, ih2]

theorem takeWhile_head_false {p : Char → Bool} {r : List Char}
    (h : ∀ c, r.head? = some c → p c = false) : r.takeWhile p = [] := by
  cases r with
  | nil => rfl
  | cons c r => simp [List.takeWhile_cons, h c rfl]

theorem dropWhile_head_false {p : Char → Bool} {r : List Char}
    (h : ∀ c, r.head? = some c → p c = false) : r.dropWhile p = r := by
  cases r with
  | nil => rfl
  | cons c r => simp [List.dropWhile_cons, h c rfl]

/-! ## Model of Python repr and ast.literal_eval

The repository stores list values with `repr(list_value)` and reads
them back with `ast.literal_eval(value)` (database.py,
list_to_column / column_to_list).  Both are Python builtins, external
to the repository; we model them as an executable printer/parser pair
on the literal forms that actually occur (None, bool, int, float,
single-quoted strings, and lists of these).  Date, time and datetime
objects repr as constructor calls that ast.literal_eval rejects, which
the model reflects by printing a non-literal form the parser refuses. -/

/-- Decimal digit test (equivalent to Python str.isdigit on ASCII). -/
def isDigitC (c : Char) : Bool := 48 ≤ c.toNat && c.toNat ≤ 57

theorem isDigitC_digitChar : ∀ d, d < 10 → isDigitC (digitChar d) = true := by decide

theorem natToChars_all_isDigitC (n : Nat) : ∀ c ∈ natToChars n, isDigitC c = true := by
  intro c hc
  unfold natToChars at hc
  split at hc
  · simp only [List.mem_singleton] at hc
    subst hc; decide
  · simp only [List.mem_map, List.mem_reverse] at hc
    obtain ⟨d, hd, rfl⟩ := hc
    exact isDigitC_digitChar d (Nat.digits_lt_base (by norm_num) hd)

theorem map_charVal_digitChar (fr : List Nat) (h : ∀ d ∈ fr, d < 10) :
    (fr.map digitChar).map charVal = fr := by
  rw [List.map_map]
  have : fr.map (charVal ∘ digitChar) = fr.map id := by
    apply List.map_congr_left
    intro d hd
    exact charVal_digitChar d (h d hd)
  rw [this, List.map_id]

/-- Escaping of one character inside a single-quoted string literal. -/
def escChar (c : Char) : List Char :=
  if c = '\\' ∨ c = '\'' then ['\\', c] else [c]

/-- Escaping of a character run inside a single-quoted string literal. -/
def escChars : List Char → List Char
  | [] => []
  | c :: r => escChar c ++ escChars r

/-- Printed form of one scalar inside a Python list literal, as repr
renders it (dates/times render as constructor calls, which are not
literals). -/
def printScalar : PyScalar → List Char
  | .none => ['N', 'o', 'n', 'e']
  | .bool true => ['T', 'r', 'u', 'e']
  | .bool false => ['F', 'a', 'l', 's', 'e']
  | .int n => (if n < 0 then ['-'] else []) ++ natToChars n.natAbs
  | .float f =>
      (if f.neg then ['-'] else []) ++ natToChars f.ip ++ '.' :: f.fr.map digitChar
  | .str s => '\'' :: (escChars s.toList ++ ['\''])
  | .date d =>
      ('d' :: 'a' :: 't' :: 'e' :: '(' :: natToChars d.year) ++ [')']
  | .time t =>
      ('t' :: 'i' :: 'm' :: 'e' :: '(' :: natToChars t.hour) ++ [')']
  | .datetime dt =>
      ('d' :: 'a' :: 't' :: 'e' :: 't' :: '(' :: natToChars dt.date.year) ++ [')']

/-- Printed form of the comma-separated items of a list literal. -/
def printItems : List PyScalar → List Char
  | [] => []
  | [x] => printScalar x
  | x :: xs => printScalar x ++ ',' :: ' ' :: printItems xs

/-- Model of repr on a Python list value. -/
def reprPyList (xs : List PyScalar) : String :=
  ⟨'[' :: (printItems xs ++ [']'])⟩

/-- Parse an integer or float literal after an optional sign. -/
def parseNum (neg : Bool) (r : List Char) : Option (PyScalar × List Char) :=
  if (r.takeWhile isDigitC).isEmpty then none
  else
    match r.dropWhile isDigitC with
    | [] =>
      some (.int (if neg then -(charsToNat (r.takeWhile isDigitC) : Int)
                  else (charsToNat (r.takeWhile isDigitC) : Int)), [])
    | c :: r2 =>
      if c = '.' then
        some (.float ⟨neg, charsToNat (r.takeWhile isDigitC),
                      (r2.takeWhile isDigitC).map charVal⟩,
              r2.dropWhile isDigitC)
      else
        some (.int (if neg then -(charsToNat (r.takeWhile isDigitC) : Int)
                    else (charsToNat (r.takeWhile isDigitC) : Int)), c :: r2)

/-- Parse the body of a single-quoted string literal, after the
opening quote. -/
def parseStrBody : List Char → Option (List Char × List Char)
  | [] => none
  | c :: r =>
    if c = '\\' then
      match r with
      | [] => none
      | c2 :: r2 => (parseStrBody r2).map fun p => (c2 :: p.1, p.2)
    else if c = '\'' then some ([], r)
    else (parseStrBody r).map fun p => (c :: p.1, p.2)

/-- Parse one scalar literal. -/
def parseScalar (input : List Char) : Option (PyScalar × List Char) :=
  if ['N', 'o', 'n', 'e'].isPrefixOf input then some (.none, input.drop 4)
  else if ['T', 'r', 'u', 'e'].isPrefixOf input then some (.bool true, input.drop 4)
  else if ['F', 'a', 'l', 's', 'e'].isPrefixOf input then some (.bool false, input.drop 5)
  else
    match input with
    | [] => none
    | c :: r =>
      if c = '\'' then (parseStrBody r).map fun p => (.str ⟨p.1⟩, p.2)
      else if c = '-' then parseNum true r
      else parseNum false (c :: r)

/-- Parse the comma-separated items of a list literal up to and
including the closing bracket. -/
def parseItems : Nat → List Char → Option (List PyScalar × List Char)
  | 0, _ => none
  | fuel + 1, input =>
    match parseScalar input with
    | Option.none => none
    | some (x, r) =>
      match r with
      | [] => none
      | c :: r2 =>
        if c = ']' then some ([x], r2)
        else if c = ',' then
          match r2 with
          | [] => none
          | c2 :: r3 =>
            if c2 = ' ' then
              match parseItems fuel r3 with
              | Option.none => none
              | some (xs, r4) => some (x :: xs, r4)
            else none
        else none

/-- Model of ast.literal_eval on the list literals that repr emits. -/
def literalEvalList (s : String) : Option (List PyScalar) :=
  match s.toList with
  | '[' :: rest =>
    if rest = [']'] then some []
    else
      match parseItems rest.length rest with
      | some (xs, r) => if r = [] then some xs else none
      | Option.none => none
  | _ => none

/-- The scalar kinds that repr renders as parseable literals. -/
def Printable : PyScalar → Prop
  | .date _ => False
  | .time _ => False
  | .datetime _ => False
  | _ => True

instance : DecidablePred Printable := fun x => by
  cases x <;> simp [Printable] <;> infer_instance

/-- Structural bounds that every value constructible in Python
satisfies (fractional digits of a float repr are decimal digits;
microseconds are below one million). -/
def ValidScalar : PyScalar → Prop
  | .float f => ∀ d ∈ f.fr, d < 10
  | .time t => t.microsecond < 1000000
  | .datetime dt => dt.time.microsecond < 1000000
  | _ => True

instance : DecidablePred ValidScalar := fun x => by
  cases x <;> simp [ValidScalar] <;> infer_instance

/-! ## Round trip of the literal printer/parser -/

/-- Sign application for a parsed integer literal. -/
def intOfSign (neg : Bool) (v : Nat) : Int := if neg then -(v : Int) else (v : Int)

theorem not_pfx_of_head_beq_false {a b : Char} {l r : List Char}
    (h : (a == b) = false) : (a :: l).isPrefixOf (b :: r) = false := by
  simp only [List.isPrefixOf, h, Bool.false_and]

theorem isPrefixOf_append_self (l r : List Char) : l.isPrefixOf (l ++ r) = true := by
  induction l with
  | nil => rw [List.nil_append]; cases r <;> rfl
  | cons c l ih =>
    show (c == c && l.isPrefixOf (l ++ r)) = true
    rw [ih, beq_self_eq_true]
    rfl

theorem beq_lit_digit_false {a d : Char} (ha : 58 ≤ a.toNat) (hd : isDigitC d = true) :
    (a == d) = false := by
  rw [beq_eq_false_iff_ne]
  intro h
  subst h
  simp only [isDigitC, Bool.and_eq_true, decide_eq_true_eq] at hd
  omega

theorem digit_ne_low {a d : Char} (ha : a.toNat < 48) (hd : isDigitC d = true) :
    d ≠ a := by
  intro h
  subst h
  simp only [isDigitC, Bool.and_eq_true, decide_eq_true_eq] at hd
  omega

theorem kw_not_pfx_digit {a : Char} {l : List Char} {d : Char} {r : List Char}
    (ha : 58 ≤ a.toNat) (hd : isDigitC d = true) :
    (a :: l).isPrefixOf (d :: r) = false :=
  not_pfx_of_head_beq_false (beq_lit_digit_false ha hd)

/-- Heads that may legally follow a printed item inside a list
literal. -/
def SepHeadOk (rest : List Char) : Prop :=
  ∀ c, rest.head? = some c → (c = ',' ∨ c = ']')

theorem sep_head_facts {c : Char} (h : c = ',' ∨ c = ']') :
    isDigitC c = false ∧ c ≠ '.' := by
  rcases h with rfl | rfl
  · exact ⟨by decide, by decide⟩
  · exact ⟨by decide, by decide⟩

theorem parseNum_int_print (n : Nat) (rest : List Char)
    (hrest : ∀ c, rest.head? = some c → isDigitC c = false ∧ c ≠ '.') (neg : Bool) :
    parseNum neg (natToChars n ++ rest) = some (.int (intOfSign neg n), rest) := by
  obtain ⟨d, ds, hcons⟩ := List.exists_cons_of_ne_nil (natToChars_ne_nil n)
  have hall := natToChars_all_isDigitC n
  have htake : ((natToChars n ++ rest).takeWhile isDigitC) = natToChars n := by
    rw [takeWhile_append_all hall, takeWhile_head_false (fun c hc => (hrest c hc).1)]
    simp
  have hdrop : ((natToChars n ++ rest).dropWhile isDigitC) = rest := by
    rw [dropWhile_append_all hall]
    exact dropWhile_head_false fun c hc => (hrest c hc).1
  unfold parseNum
  rw [htake, hdrop, charsToNat_natToChars, hcons]
  simp only [List.isEmpty_cons, Bool.false_eq_true, if_false]
  cases rest with
  | nil => simp [intOfSign]
  | cons c r2 =>
    have := hrest c rfl
    simp [intOfSign, this.2]

theorem parseNum_float_print (ipn : Nat) (fr : List Nat) (hfr : ∀ d ∈ fr, d < 10)
    (rest : List Char) (hrest : ∀ c, rest.head? = some c → isDigitC c = false)
    (neg : Bool) :
    parseNum neg (natToChars ipn ++ '.' :: (fr.map digitChar ++ rest)) =
      some (.float ⟨neg, ipn, fr⟩, rest) := by
  obtain ⟨d, ds, hcons⟩ := List.exists_cons_of_ne_nil (natToChars_ne_nil ipn)
  have hall := natToChars_all_isDigitC ipn
  have hfrd : ∀ c ∈ fr.map digitChar, isDigitC c = true := by
    intro c hc
    simp only [List.mem_map] at hc
    obtain ⟨d2, hd2, rfl⟩ := hc
    exact isDigitC_digitChar d2 (hfr d2 hd2)
  have htake : ((natToChars ipn ++ '.' :: (fr.map digitChar ++ rest)).takeWhile isDigitC)
      = natToChars ipn := by
    rw [takeWhile_append_all hall, takeWhile_head_false]
    · simp
    · intro c hc
      simp only [List.head?_cons, Option.some.injEq] at hc
      subst hc; decide
  have hdrop : ((natToChars ipn ++ '.' :: (fr.map digitChar ++ rest)).dropWhile isDigitC)
      = '.' :: (fr.map digitChar ++ rest) := by
    rw [dropWhile_append_all hall]
    apply dropWhile_head_false
    intro c hc
    simp only [List.head?_cons, Option.some.injEq] at hc
    subst hc; decide
  have htake2 : ((fr.map digitChar ++ rest).takeWhile isDigitC) = fr.map digitChar := by
    rw [takeWhile_append_all hfrd, takeWhile_head_false hrest]
    simp
  have hdrop2 : ((fr.map digitChar ++ rest).dropWhile isDigitC) = rest := by
    rw [dropWhile_append_all hfrd]
    exact dropWhile_head_false hrest
  have hne : (natToChars ipn).isEmpty = false := by rw [hcons]; rfl
  unfold parseNum
  rw [htake, hdrop]
  simp only [hne, Bool.false_eq_true, if_false]
  simp only [htake2, hdrop2, charsToNat_natToChars, map_charVal_digitChar fr hfr]
  simp

theorem parseStrBody_esc (s : List Char) (rest : List Char) :
    parseStrBody (escChars s ++ '\'' :: rest) = some (s, rest) := by
  induction s with
  | nil =>
    show parseStrBody ('\'' :: rest) = some ([], rest)
    unfold parseStrBody
    rw [if_neg (by decide), if_pos rfl]
  | cons c s ih =>
    show parseStrBody (escChar c ++ escChars s ++ '\'' :: rest) = some (c :: s, rest)
    unfold escChar
    by_cases hc : c = '\\' ∨ c = '\''
    · rw [if_pos hc]
      show parseStrBody ('\\' :: c :: (escChars s ++ '\'' :: rest)) = some (c :: s, rest)
      unfold parseStrBody
      rw [if_pos rfl]
      show (parseStrBody (escChars s ++ '\'' :: rest)).map (fun p => (c :: p.1, p.2))
          = some (c :: s, rest)
      rw [ih]
      rfl
    · rw [if_neg hc]
      push_neg at hc
      show parseStrBody (c :: (escChars s ++ '\'' :: rest)) = some (c :: s, rest)
      unfold parseStrBody
      rw [if_neg hc.1, if_neg hc.2]
      show (parseStrBody (escChars s ++ '\'' :: rest)).map (fun p => (c :: p.1, p.2))
          = some (c :: s, rest)
      rw [ih]
      rfl

theorem not_pfx_true {a b : Char} {l r : List Char} (h : (a == b) = false) :
    ¬((a :: l).isPrefixOf (b :: r) = true) := by
  rw [not_pfx_of_head_beq_false h]
  simp

theorem not_pfx_digit_true {a : Char} {l : List Char} {d : Char} {r : List Char}
    (ha : 58 ≤ a.toNat) (hd : isDigitC d = true) :
    ¬((a :: l).isPrefixOf (d :: r) = true) := by
  rw [kw_not_pfx_digit ha hd]
  simp

theorem string_mk_toList (s : String) : (⟨s.toList⟩ : String) = s := by
  cases s
  rfl

theorem parseScalar_cons_eval (c : Char) (r : List Char)
    (h1 : ¬(['N', 'o', 'n', 'e'].isPrefixOf (c :: r) = true))
    (h2 : ¬(['T', 'r', 'u', 'e'].isPrefixOf (c :: r) = true))
    (h3 : ¬(['F', 'a', 'l', 's', 'e'].isPrefixOf (c :: r) = true)) :
    parseScalar (c :: r) =
      (if c = '\'' then (parseStrBody r).map fun p => (.str ⟨p.1⟩, p.2)
       else if c = '-' then parseNum true r
       else parseNum false (c :: r)) := by
  unfold parseScalar
  rw [if_neg h1, if_neg h2, if_neg h3]

theorem printScalar_ne_nil (x : PyScalar) : printScalar x ≠ [] := by
  cases x with
  | none => simp [printScalar]
  | bool b => cases b <;> simp [printScalar]
  | int n =>
    intro h
    simp only [printScalar] at h
    exact natToChars_ne_nil _ (List.append_eq_nil.mp h).2
  | float f =>
    intro h
    simp only [printScalar] at h
    have h2 := (List.append_eq_nil.mp h).2
    simp at h2
  | str s => simp [printScalar]
  | date d => simp [printScalar]
  | time t => simp [printScalar]
  | datetime dt => simp [printScalar]

theorem printItems_ne_nil (x : PyScalar) (xs : List PyScalar) :
    printItems (x :: xs) ≠ [] := by
  cases xs with
  | nil => exact printScalar_ne_nil x
  | cons y ys =>
    show printScalar x ++ ',' :: ' ' :: printItems (y :: ys) ≠ []
    intro h
    exact printScalar_ne_nil x (List.append_eq_nil.mp h).1

theorem printItems_length_ge (xs : List PyScalar) :
    xs.length ≤ (printItems xs).length := by
  induction xs with
  | nil => simp [printItems]
  | cons x xs ih =>
    cases xs with
    | nil =>
      show 1 ≤ (printScalar x).length
      exact List.length_pos.2 (printScalar_ne_nil x)
    | cons y ys =>
      show (y :: ys).length + 1 ≤ (printScalar x ++ ',' :: ' ' :: printItems (y :: ys)).length
      rw [List.length_append]
      have h1 : 1 ≤ (printScalar x).length := List.length_pos.2 (printScalar_ne_nil x)
      have h2 := ih
      simp only [List.length_cons] at h2 ⊢
      omega

theorem parseScalar_print (x : PyScalar) (hx : Printable x) (hv : ValidScalar x)
    (rest : List Char) (hrest : SepHeadOk rest) :
    parseScalar (printScalar x ++ rest) = some (x, rest) := by
  have hrest2 : ∀ c, rest.head? = some c → isDigitC c = false ∧ c ≠ '.' :=
    fun c hc => sep_head_facts (hrest c hc)
  cases x with
  | none =>
    show parseScalar (['N', 'o', 'n', 'e'] ++ rest) = some (.none, rest)
    unfold parseScalar
    rw [if_pos (isPrefixOf_append_self _ _)]
    simp [List.drop_succ_cons]
  | bool b =>
    cases b with
    | true =>
      show parseScalar ('T' :: (['r', 'u', 'e'] ++ rest)) = some (.bool true, rest)
      unfold parseScalar
      rw [if_neg (not_pfx_true (by decide)),
          if_pos (by exact isPrefixOf_append_self ['T', 'r', 'u', 'e'] rest)]
      simp [List.drop_succ_cons]
    | false =>
      show parseScalar ('F' :: (['a', 'l', 's', 'e'] ++ rest)) = some (.bool false, rest)
      unfold parseScalar
      rw [if_neg (not_pfx_true (by decide)), if_neg (not_pfx_true (by decide)),
          if_pos (by exact isPrefixOf_append_self ['F', 'a', 'l', 's', 'e'] rest)]
      simp [List.drop_succ_cons]
  | int n =>
    obtain ⟨d, ds, hcons⟩ := List.exists_cons_of_ne_nil (natToChars_ne_nil n.natAbs)
    have hd : isDigitC d = true := by
      have := natToChars_all_isDigitC n.natAbs
      rw [hcons] at this
      exact this d (by simp)
    have hval : intOfSign (decide (n < 0)) n.natAbs = n := by
      simp only [intOfSign]
      split <;> rename_i hsplit <;> simp at hsplit <;> omega
    by_cases hn : n < 0
    · have hshape : printScalar (.int n) ++ rest = '-' :: (natToChars n.natAbs ++ rest) := by
        simp [printScalar, hn]
      rw [hshape]
      rw [parseScalar_cons_eval _ _ (not_pfx_true (by decide)) (not_pfx_true (by decide))
          (not_pfx_true (by decide))]
      rw [if_neg (by decide), if_pos rfl, parseNum_int_print n.natAbs rest hrest2 true]
      rw [show intOfSign true n.natAbs = n by simpa [hn] using hval]
    · have hshape : printScalar (.int n) ++ rest = natToChars n.natAbs ++ rest := by
        simp [printScalar, hn]
      rw [hshape, hcons, List.cons_append]
      rw [parseScalar_cons_eval _ _ (not_pfx_digit_true (by decide) hd)
          (not_pfx_digit_true (by decide) hd) (not_pfx_digit_true (by decide) hd)]
      rw [if_neg (digit_ne_low (by decide) hd), if_neg (digit_ne_low (by decide) hd)]
      rw [← List.cons_append, ← hcons, parseNum_int_print n.natAbs rest hrest2 false]
      rw [show intOfSign false n.natAbs = n by simpa [hn] using hval]
  | float f =>
    obtain ⟨fneg, fip, ffr⟩ := f
    have hfr : ∀ d ∈ ffr, d < 10 := hv
    have hr1 : ∀ c, rest.head? = some c → isDigitC c = false := fun c hc => (hrest2 c hc).1
    obtain ⟨d, ds, hcons⟩ := List.exists_cons_of_ne_nil (natToChars_ne_nil fip)
    have hd : isDigitC d = true := by
      have := natToChars_all_isDigitC fip
      rw [hcons] at this
      exact this d (by simp)
    cases fneg with
    | true =>
      have hshape : printScalar (.float ⟨true, fip, ffr⟩) ++ rest =
          '-' :: (natToChars fip ++ '.' :: (ffr.map digitChar ++ rest)) := by
        simp [printScalar]
      rw [hshape]
      rw [parseScalar_cons_eval _ _ (not_pfx_true (by decide)) (not_pfx_true (by decide))
          (not_pfx_true (by decide))]
      rw [if_neg (by decide), if_pos rfl, parseNum_float_print fip ffr hfr rest hr1 true]
    | false =>
      have hshape : printScalar (.float ⟨false, fip, ffr⟩) ++ rest =
          natToChars fip ++ '.' :: (ffr.map digitChar ++ rest) := by
        simp [printScalar]
      rw [hshape, hcons, List.cons_append]
      rw [parseScalar_cons_eval _ _ (not_pfx_digit_true (by decide) hd)
          (not_pfx_digit_true (by decide) hd) (not_pfx_digit_true (by decide) hd)]
      rw [if_neg (digit_ne_low (by decide) hd), if_neg (digit_ne_low (by decide) hd)]
      rw [← List.cons_append, ← hcons, parseNum_float_print fip ffr hfr rest hr1 false]
  | str s =>
    have hshape : printScalar (.str s) ++ rest =
        '\'' :: (escChars s.toList ++ '\'' :: rest) := by
      simp [printScalar]
    rw [hshape]
    rw [parseScalar_cons_eval _ _ (not_pfx_true (by decide)) (not_pfx_true (by decide))
        (not_pfx_true (by decide))]
    rw [if_pos rfl, parseStrBody_esc]
    simp [string_mk_toList]
  | date d => exact hx.elim
  | time t => exact hx.elim
  | datetime dt => exact hx.elim

theorem parseItems_print (xs : List PyScalar) (hne : xs ≠ [])
    (hall : ∀ x ∈ xs, Printable x ∧ ValidScalar x) :
    ∀ fuel rest, xs.length ≤ fuel →
      parseItems fuel (printItems xs ++ ']' :: rest) = some (xs, rest) := by
  induction xs with
  | nil => exact absurd rfl hne
  | cons x xs ih =>
    intro fuel rest hfuel
    obtain ⟨f, rfl⟩ : ∃ f, fuel = f + 1 := by
      refine ⟨fuel - 1, ?_⟩
      simp only [List.length_cons] at hfuel
      omega
    cases xs with
    | nil =>
      show parseItems (f + 1) (printScalar x ++ ']' :: rest) = some ([x], rest)
      unfold parseItems
      rw [parseScalar_print x (hall x (by simp)).1 (hall x (by simp)).2 (']' :: rest)
          (by intro c hc; simp only [List.head?_cons, Option.some.injEq] at hc
              exact Or.inr hc.symm)]
      simp
    | cons y ys =>
      have ih2 : parseItems f (printItems (y :: ys) ++ ']' :: rest) = some (y :: ys, rest) := by
        apply ih (by simp) (fun z hz => hall z (List.mem_cons_of_mem x hz))
        simp only [List.length_cons] at hfuel ⊢
        omega
      show parseItems (f + 1)
          ((printScalar x ++ ',' :: ' ' :: printItems (y :: ys)) ++ ']' :: rest) =
        some (x :: y :: ys, rest)
      rw [List.append_assoc, List.cons_append, List.cons_append]
      unfold parseItems
      rw [parseScalar_print x (hall x (by simp)).1 (hall x (by simp)).2
          (',' :: ' ' :: (printItems (y :: ys) ++ ']' :: rest))
          (by intro c hc; simp only [List.head?_cons, Option.some.injEq] at hc
              exact Or.inl hc.symm)]
      simp [ih2]

theorem literalEval_reprPyList (xs : List PyScalar)
    (hall : ∀ x ∈ xs, Printable x ∧ ValidScalar x) :
    literalEvalList (reprPyList xs) = some xs := by
  cases xs with
  | nil => rfl
  | cons x xs =>
    have hne : printItems (x :: xs) ≠ [] := printItems_ne_nil x xs
    have hcond : ¬(printItems (x :: xs) ++ [']'] = [']']) := by
      intro h
      have hlen := congrArg List.length h
      simp only [List.length_append, List.length_cons, List.length_nil] at hlen
      exact hne (List.eq_nil_of_length_eq_zero (by omega))
    have hfuel : (x :: xs).length ≤ (printItems (x :: xs) ++ [']']).length := by
      rw [List.length_append]
      have := printItems_length_ge (x :: xs)
      simp only [List.length_cons, List.length_nil] at this ⊢
      omega
    have hparse := parseItems_print (x :: xs) (by simp) hall
        ((printItems (x :: xs) ++ [']']).length) [] hfuel
    show (if (printItems (x :: xs) ++ [']']) = [']'] then some []
         else
           match parseItems ((printItems (x :: xs) ++ [']']).length)
               (printItems (x :: xs) ++ [']']) with
           | some (ys, r) => if r = [] then some ys else none
           | Option.none => none) = some (x :: xs)
    rw [if_neg hcond]
    have : printItems (x :: xs) ++ ']' :: ([] : List Char) = printItems (x :: xs) ++ [']'] := rfl
    rw [this] at hparse
    rw [hparse]
    rfl

/-! ## Model of isoformat and of the dateutil ISO parser

database.py converts the elements of date/time/datetime lists with
x.isoformat() before storing, and back with dateutil.parser.parse
(projected through .date() / .time()) after loading.  Both are
external to the repository and are modelled here on the ISO-8601
strings that isoformat emits. -/

/-- Zero left padding to a given width. -/
def natPad (w n : Nat) : List Char :=
  List.replicate (w - (natToChars n).length) '0' ++ natToChars n

/-- Characters of date.isoformat(). -/
def isoDateChars (d : PDate) : List Char :=
  natPad 4 d.year ++ '-' :: (natPad 2 d.month ++ '-' :: natPad 2 d.day)

/-- Fractional-seconds suffix of time.isoformat() (absent when the
microsecond field is zero). -/
def isoTimeTail (us : Nat) : List Char :=
  if us = 0 then [] else '.' :: natPad 6 us

/-- Characters of time.isoformat(). -/
def isoTimeChars (t : PTime) : List Char :=
  natPad 2 t.hour ++
    ':' :: (natPad 2 t.minute ++ ':' :: (natPad 2 t.second ++ isoTimeTail t.microsecond))

/-- Characters of datetime.isoformat(sep="T"). -/
def isoDatetimeChars (dt : PDatetime) : List Char :=
  isoDateChars dt.date ++ 'T' :: isoTimeChars dt.time

theorem natPad_all_isDigitC (w n : Nat) : ∀ c ∈ natPad w n, isDigitC c = true := by
  intro c hc
  unfold natPad at hc
  rw [List.mem_append] at hc
  rcases hc with hc | hc
  · rw [List.eq_of_mem_replicate hc]; decide
  · exact natToChars_all_isDigitC n c hc

theorem natPad_ne_nil (w n : Nat) : natPad w n ≠ [] := by
  unfold natPad
  intro h
  exact natToChars_ne_nil n (List.append_eq_nil.mp h).2

theorem charsToNat_natPad (w n : Nat) : charsToNat (natPad w n) = n := by
  unfold natPad
  rw [charsToNat_replicate_zero, charsToNat_natToChars]

theorem natToChars_length_le (w n : Nat) (hw : 0 < w) (hn : n < 10 ^ w) :
    (natToChars n).length ≤ w := by
  unfold natToChars
  split
  · simpa using hw
  · next h =>
    rw [List.length_map, List.length_reverse]
    rw [Nat.digits_len 10 n (by norm_num) h]
    have := Nat.log_lt_of_lt_pow h hn
    omega

theorem natPad_length (w n : Nat) (hw : 0 < w) (hn : n < 10 ^ w) :
    (natPad w n).length = w := by
  unfold natPad
  rw [List.length_append, List.length_replicate]
  have := natToChars_length_le w n hw hn
  omega

/-- Maximal-munch parse of a digit run. -/
def parseFixedNat (input : List Char) : Option (Nat × List Char) :=
  if (input.takeWhile isDigitC).isEmpty then none
  else some (charsToNat (input.takeWhile isDigitC), input.dropWhile isDigitC)

/-- Consume one expected character. -/
def expectChar (c : Char) : List Char → Option (List Char)
  | [] => none
  | x :: r => if x = c then some r else none

theorem parseFixedNat_pad (w n : Nat) (rest : List Char)
    (hrest : ∀ c, rest.head? = some c → isDigitC c = false) :
    parseFixedNat (natPad w n ++ rest) = some (n, rest) := by
  obtain ⟨d, ds, hcons⟩ := List.exists_cons_of_ne_nil (natPad_ne_nil w n)
  have htake : ((natPad w n ++ rest).takeWhile isDigitC) = natPad w n := by
    rw [takeWhile_append_all (natPad_all_isDigitC w n), takeWhile_head_false hrest]
    simp
  have hdrop : ((natPad w n ++ rest).dropWhile isDigitC) = rest := by
    rw [dropWhile_append_all (natPad_all_isDigitC w n)]
    exact dropWhile_head_false hrest
  unfold parseFixedNat
  rw [htake, hdrop, charsToNat_natPad, hcons]
  simp

/-- Model of the ISO date part parser inside dateutil. -/
def parseDatePart (input : List Char) : Option (PDate × List Char) :=
  match parseFixedNat input with
  | Option.none => none
  | some (y, r1) =>
    match expectChar '-' r1 with
    | Option.none => none
    | some r2 =>
      match parseFixedNat r2 with
      | Option.none => none
      | some (m, r3) =>
        match expectChar '-' r3 with
        | Option.none => none
        | some r4 =>
          match parseFixedNat r4 with
          | Option.none => none
          | some (d, r5) => some (⟨y, m, d⟩, r5)

/-- Model of the ISO time part parser inside dateutil (a fractional
part of k digits stands for a fraction of a second, padded or
truncated to microseconds). -/
def parseTimePart (input : List Char) : Option (PTime × List Char) :=
  match parseFixedNat input with
  | Option.none => none
  | some (h, r1) =>
    match expectChar ':' r1 with
    | Option.none => none
    | some r2 =>
      match parseFixedNat r2 with
      | Option.none => none
      | some (m, r3) =>
        match expectChar ':' r3 with
        | Option.none => none
        | some r4 =>
          match parseFixedNat r4 with
          | Option.none => none
          | some (s, r5) =>
            match r5 with
            | [] => some (⟨h, m, s, 0⟩, [])
            | c :: r6 =>
              if c = '.' then
                if (r6.takeWhile isDigitC).isEmpty then none
                else
                  some (⟨h, m, s,
                        charsToNat (r6.takeWhile isDigitC) *
                          10 ^ (6 - (r6.takeWhile isDigitC).length)⟩,
                    r6.dropWhile isDigitC)
              else some (⟨h, m, s, 0⟩, c :: r6)

/-- The default date that dateutil substitutes when parsing a bare
time (it uses the current day; any fixed day serves the model, since
the repository immediately projects it away with .time()). -/
def defaultDate : PDate := ⟨1970, 1, 1⟩

/-- Model of dateutil.parser.parse on the ISO-8601 forms emitted by
isoformat. -/
def parseIsoDatetime (s : String) : Option PDatetime :=
  match parseDatePart s.toList with
  | some (d, rest) =>
    match rest with
    | [] => some ⟨d, ⟨0, 0, 0, 0⟩⟩
    | c :: r2 =>
      if c = 'T' then
        match parseTimePart r2 with
        | some (t, r3) => if r3 = [] then some ⟨d, t⟩ else none
        | Option.none => none
      else none
  | Option.none =>
    match parseTimePart s.toList with
    | some (t, r) => if r = [] then some ⟨defaultDate, t⟩ else none
    | Option.none => none

theorem head_cons_not_digit {c0 : Char} (h : isDigitC c0 = false) (l : List Char) :
    ∀ c, (c0 :: l).head? = some c → isDigitC c = false := by
  intro c hc
  simp only [List.head?_cons, Option.some.injEq] at hc
  subst hc
  exact h

theorem expectChar_cons_self (c : Char) (r : List Char) :
    expectChar c (c :: r) = some r := by
  simp [expectChar]

theorem expectChar_cons_ne {x c : Char} (h : ¬(x = c)) (r : List Char) :
    expectChar c (x :: r) = none := by
  simp [expectChar, h]

theorem parseDatePart_iso (d : PDate) (rest : List Char)
    (hrest : ∀ c, rest.head? = some c → isDigitC c = false) :
    parseDatePart (isoDateChars d ++ rest) = some (d, rest) := by
  obtain ⟨y, m, dd⟩ := d
  have e1 := parseFixedNat_pad 4 y ('-' :: (natPad 2 m ++ '-' :: (natPad 2 dd ++ rest)))
    (head_cons_not_digit (by decide) _)
  have e2 := parseFixedNat_pad 2 m ('-' :: (natPad 2 dd ++ rest))
    (head_cons_not_digit (by decide) _)
  have e3 := parseFixedNat_pad 2 dd rest hrest
  simp only [isoDateChars, List.append_assoc, List.cons_append]
  unfold parseDatePart
  simp only [e1, e2, e3, expectChar_cons_self]

theorem parseTimePart_iso (t : PTime) (hus : t.microsecond < 1000000) (rest : List Char)
    (hrest : ∀ c, rest.head? = some c → isDigitC c = false ∧ c ≠ '.') :
    parseTimePart (isoTimeChars t ++ rest) = some (t, rest) := by
  obtain ⟨h, m, s, us⟩ := t
  have hus2 : us < 1000000 := hus
  by_cases hz : us = 0
  · subst hz
    have ht : isoTimeTail 0 = [] := rfl
    simp only [isoTimeChars, ht, List.append_nil, List.append_assoc, List.cons_append]
    have e1 := parseFixedNat_pad 2 h (':' :: (natPad 2 m ++ ':' :: (natPad 2 s ++ rest)))
      (head_cons_not_digit (by decide) _)
    have e2 := parseFixedNat_pad 2 m (':' :: (natPad 2 s ++ rest))
      (head_cons_not_digit (by decide) _)
    have e3 := parseFixedNat_pad 2 s rest (fun c hc => (hrest c hc).1)
    unfold parseTimePart
    simp only [e1, e2, e3, expectChar_cons_self]
    cases rest with
    | nil => rfl
    | cons c r6 =>
      have hc := hrest c rfl
      simp [hc.2]
  · have ht : isoTimeTail us = '.' :: natPad 6 us := if_neg hz
    simp only [isoTimeChars, ht, List.append_assoc, List.cons_append]
    have e1 := parseFixedNat_pad 2 h
      (':' :: (natPad 2 m ++ ':' :: (natPad 2 s ++ '.' :: (natPad 6 us ++ rest))))
      (head_cons_not_digit (by decide) _)
    have e2 := parseFixedNat_pad 2 m (':' :: (natPad 2 s ++ '.' :: (natPad 6 us ++ rest)))
      (head_cons_not_digit (by decide) _)
    have e3 := parseFixedNat_pad 2 s ('.' :: (natPad 6 us ++ rest))
      (head_cons_not_digit (by decide) _)
    have htake : ((natPad 6 us ++ rest).takeWhile isDigitC) = natPad 6 us := by
      rw [takeWhile_append_all (natPad_all_isDigitC 6 us),
          takeWhile_head_false (fun c hc => (hrest c hc).1)]
      simp
    have hdrop : ((natPad 6 us ++ rest).dropWhile isDigitC) = rest := by
      rw [dropWhile_append_all (natPad_all_isDigitC 6 us)]
      exact dropWhile_head_false (fun c hc => (hrest c hc).1)
    have hlen : (natPad 6 us).length = 6 := natPad_length 6 us (by norm_num) (by omega)
    obtain ⟨c0, l0, hcons⟩ := List.exists_cons_of_ne_nil (natPad_ne_nil 6 us)
    have hemp : (natPad 6 us).isEmpty = false := by rw [hcons]; rfl
    unfold parseTimePart
    simp only [e1, e2, e3, expectChar_cons_self, if_pos rfl, htake, hdrop,
      charsToNat_natPad, hlen, hemp]
    simp

theorem parseDatePart_timeChars_none (t : PTime) :
    parseDatePart (isoTimeChars t) = none := by
  obtain ⟨h, m, s, us⟩ := t
  simp only [isoTimeChars, List.append_assoc, List.cons_append]
  have e1 := parseFixedNat_pad 2 h
    (':' :: (natPad 2 m ++ ':' :: (natPad 2 s ++ isoTimeTail us)))
    (head_cons_not_digit (by decide) _)
  unfold parseDatePart
  simp only [e1, expectChar_cons_ne (show ¬(':' = '-') by decide)]

theorem parseIso_isoDate (d : PDate) :
    parseIsoDatetime ⟨isoDateChars d⟩ = some ⟨d, ⟨0, 0, 0, 0⟩⟩ := by
  have e := parseDatePart_iso d [] (by intro c hc; simp at hc)
  rw [List.append_nil] at e
  unfold parseIsoDatetime
  have htl : (⟨isoDateChars d⟩ : String).toList = isoDateChars d := rfl
  rw [htl]
  simp only [e]

theorem parseIso_isoTime (t : PTime) (hus : t.microsecond < 1000000) :
    parseIsoDatetime ⟨isoTimeChars t⟩ = some ⟨defaultDate, t⟩ := by
  have e := parseTimePart_iso t hus [] (by intro c hc; simp at hc)
  rw [List.append_nil] at e
  unfold parseIsoDatetime
  have htl : (⟨isoTimeChars t⟩ : String).toList = isoTimeChars t := rfl
  rw [htl]
  simp only [parseDatePart_timeChars_none t, e]
  rfl

theorem parseIso_isoDatetime (dt : PDatetime) (hus : dt.time.microsecond < 1000000) :
    parseIsoDatetime ⟨isoDatetimeChars dt⟩ = some dt := by
  obtain ⟨d, t⟩ := dt
  have e1 := parseDatePart_iso d ('T' :: isoTimeChars t)
    (head_cons_not_digit (by decide) _)
  have e2 := parseTimePart_iso t hus [] (by intro c hc; simp at hc)
  rw [List.append_nil] at e2
  unfold parseIsoDatetime
  have htl : (⟨isoDatetimeChars ⟨d, t⟩⟩ : String).toList =
      isoDateChars d ++ 'T' :: isoTimeChars t := rfl
  rw [htl]
  simp only [e1, e2, if_pos rfl]
  rfl

/-! ## MD5 and the column-name derivation

field_name_to_column_name hashes a non-primary-key field name with
hashlib.md5(field.encode("utf-8")).hexdigest() (database.py).  MD5 is
implemented here per RFC 1321 over byte lists, with 32-bit arithmetic
carried out on Nat modulo 2^32. -/

/-- Truncation to a 32-bit word. -/
def w32 (n : Nat) : Nat := n % 4294967296

/-- 32-bit left rotation. -/
def rotl32 (x s : Nat) : Nat := w32 (Nat.lor (x <<< s) (x >>> (32 - s)))

/-- 32-bit complement. -/
def not32 (x : Nat) : Nat := 4294967295 - x

/-- The 64 sine-derived constants of MD5. -/
def md5K : List Nat :=
  [0xd76aa478, 0xe8c7b756, 0x242070db, 0xc1bdceee,
   0xf57c0faf, 0x4787c62a, 0xa8304613, 0xfd469501,
   0x698098d8, 0x8b44f7af, 0xffff5bb1, 0x895cd7be,
   0x6b901122, 0xfd987193, 0xa679438e, 0x49b40821,
   0xf61e2562, 0xc040b340, 0x265e5a51, 0xe9b6c7aa,
   0xd62f105d, 0x02441453, 0xd8a1e681, 0xe7d3fbc8,
   0x21e1cde6, 0xc33707d6, 0xf4d50d87, 0x455a14ed,
   0xa9e3e905, 0xfcefa3f8, 0x676f02d9, 0x8d2a4c8a,
   0xfffa3942, 0x8771f681, 0x6d9d6122, 0xfde5380c,
   0xa4beea44, 0x4bdecfa9, 0xf6bb4b60, 0xbebfbc70,
   0x289b7ec6, 0xeaa127fa, 0xd4ef3085, 0x04881d05,
   0xd9d4d039, 0xe6db99e5, 0x1fa27cf8, 0xc4ac5665,
   0xf4292244, 0x432aff97, 0xab9423a7, 0xfc93a039,
   0x655b59c3, 0x8f0ccc92, 0xffeff47d, 0x85845dd1,
   0x6fa87e4f, 0xfe2ce6e0, 0xa3014314, 0x4e0811a1,
   0xf7537e82, 0xbd3af235, 0x2ad7d2bb, 0xeb86d391]

/-- The per-step rotation amounts of MD5. -/
def md5S : List Nat :=
  [7, 12, 17, 22, 7, 12, 17, 22, 7, 12, 17, 22, 7, 12, 17, 22,
   5, 9, 14, 20, 5, 9, 14, 20, 5, 9, 14, 20, 5, 9, 14, 20,
   4, 11, 16, 23, 4, 11, 16, 23, 4, 11, 16, 23, 4, 11, 16, 23,
   6, 10, 15, 21, 6, 10, 15, 21, 6, 10, 15, 21, 6, 10, 15, 21]

/-- The round mixing function of step i. -/
def md5F (i b c d : Nat) : Nat :=
  if i < 16 then Nat.lor (Nat.land b c) (Nat.land (not32 b) d)
  else if i < 32 then Nat.lor (Nat.land d b) (Nat.land (not32 d) c)
  else if i < 48 then Nat.xor b (Nat.xor c d)
  else Nat.xor c (Nat.lor b (not32 d))

/-- The message-word index of step i. -/
def md5G (i : Nat) : Nat :=
  if i < 16 then i
  else if i < 32 then (5 * i + 1) % 16
  else if i < 48 then (3 * i + 5) % 16
  else (7 * i) % 16

/-- Little-endian bytes of a number, k bytes wide. -/
def leBytes : Nat → Nat → List Nat
  | 0, _ => []
  | k + 1, n => (n % 256) :: leBytes k (n / 256)

/-- Little-endian 32-bit words of a byte list. -/
def toLEWords : List Nat → List Nat
  | b0 :: b1 :: b2 :: b3 :: rest =>
      (b0 + 256 * (b1 + 256 * (b2 + 256 * b3))) :: toLEWords rest
  | _ => []

/-- RFC 1321 padding: a 0x80 byte, zeros to 56 mod 64, then the bit
length in 8 little-endian bytes. -/
def md5Pad (msg : List Nat) : List Nat :=
  msg ++ 128 :: List.replicate ((120 - ((msg.length + 1) % 64)) % 64) 0 ++
    leBytes 8 ((msg.length * 8) % 18446744073709551616)

/-- Split into 64-byte chunks (each step consumes at least one byte,
so the length of the list is enough fuel). -/
def chunks64Fuel : Nat → List Nat → List (List Nat)
  | 0, _ => []
  | _, [] => []
  | fuel + 1, a :: l => ((a :: l).take 64) :: chunks64Fuel fuel ((a :: l).drop 64)

/-- Split into 64-byte chunks. -/
def chunks64 (l : List Nat) : List (List Nat) := chunks64Fuel l.length l

/-- One of the 64 steps of an MD5 chunk. -/
def md5Round (M : List Nat) (st : Nat × Nat × Nat × Nat) (i : Nat) :
    Nat × Nat × Nat × Nat :=
  let f := w32 (md5F i st.2.1 st.2.2.1 st.2.2.2 + st.1 + md5K.getD i 0 +
                M.getD (md5G i) 0)
  (st.2.2.2, w32 (st.2.1 + rotl32 f (md5S.getD i 0)), st.2.1, st.2.2.1)

/-- Process one 64-byte chunk. -/
def md5ProcessChunk (st : Nat × Nat × Nat × Nat) (chunk : List Nat) :
    Nat × Nat × Nat × Nat :=
  let r := (List.range 64).foldl (md5Round (toLEWords chunk)) st
  (w32 (st.1 + r.1), w32 (st.2.1 + r.2.1), w32 (st.2.2.1 + r.2.2.1),
   w32 (st.2.2.2 + r.2.2.2))

/-- Serialize the final state little-endian. -/
def md5Final (st : Nat × Nat × Nat × Nat) : List Nat :=
  leBytes 4 st.1 ++ leBytes 4 st.2.1 ++ leBytes 4 st.2.2.1 ++ leBytes 4 st.2.2.2

/-- The 16 digest bytes of a byte message. -/
def md5Bytes (msg : List Nat) : List Nat :=
  md5Final ((chunks64 (md5Pad msg)).foldl md5ProcessChunk
    (0x67452301, 0xefcdab89, 0x98badcfe, 0x10325476))

/-- Lower-case hexadecimal digit. -/
def hexDigitChar (d : Nat) : Char :=
  if d < 10 then digitChar d else Char.ofNat (87 + d)

/-- Lower-case hex characters of the digest. -/
def md5hexChars (msg : List Nat) : List Char :=
  (md5Bytes msg).foldr (fun b acc => hexDigitChar (b / 16) :: hexDigitChar (b % 16) :: acc) []

/-- Model of hashlib.md5(bytes).hexdigest(). -/
def md5hex (msg : List Nat) : String := ⟨md5hexChars msg⟩

/-- UTF-8 bytes of one code point. -/
def utf8Char (n : Nat) : List Nat :=
  if n < 128 then [n]
  else if n < 2048 then [192 + n / 64, 128 + n % 64]
  else if n < 65536 then [224 + n / 4096, 128 + (n / 64) % 64, 128 + n % 64]
  else [240 + n / 262144, 128 + (n / 4096) % 64, 128 + (n / 64) % 64, 128 + n % 64]

/-- Model of str.encode("utf-8"). -/
def utf8Bytes (s : String) : List Nat :=
  s.toList.foldr (fun c acc => utf8Char c.toNat ++ acc) []

/-- The pure column-name derivation of
Database.field_name_to_column_name: the field name itself for the
primary key, else the MD5 hex digest of the field name. -/
def fieldToColumn (primary_key field : String) : String :=
  if field = primary_key then field else md5hex (utf8Bytes field)

/-! ## Field type constants and check_type_value

Modelled from the spec: database_model.py is not among the sources.
The type enumeration follows the spec (section 6) and the names
imported by database.py: seven scalar types and seven list types
(json appears in neither the imports nor check_type_value). -/

def FIELD_TYPE_STRING : String := "string"

def FIELD_TYPE_INTEGER : String := "integer"

def FIELD_TYPE_FLOAT : String := "float"

def FIELD_TYPE_BOOLEAN : String := "boolean"

def FIELD_TYPE_DATE : String := "date"

def FIELD_TYPE_DATETIME : String := "datetime"

def FIELD_TYPE_TIME : String := "time"

def FIELD_TYPE_LIST_STRING : String := "list_string"

def FIELD_TYPE_LIST_INTEGER : String := "list_integer"

def FIELD_TYPE_LIST_FLOAT : String := "list_float"

def FIELD_TYPE_LIST_BOOLEAN : String := "list_boolean"

def FIELD_TYPE_LIST_DATE : String := "list_date"

def FIELD_TYPE_LIST_DATETIME : String := "list_datetime"

def FIELD_TYPE_LIST_TIME : String := "list_time"

/-- Modelled from the spec: the list of list types of
database_model.py. -/
def LIST_TYPES : List String :=
  [FIELD_TYPE_LIST_STRING, FIELD_TYPE_LIST_INTEGER, FIELD_TYPE_LIST_FLOAT,
   FIELD_TYPE_LIST_BOOLEAN, FIELD_TYPE_LIST_DATE, FIELD_TYPE_LIST_DATETIME,
   FIELD_TYPE_LIST_TIME]

/-- Modelled from the spec: the list of all field types of
database_model.py. -/
def ALL_TYPES : List String :=
  [FIELD_TYPE_STRING, FIELD_TYPE_INTEGER, FIELD_TYPE_FLOAT, FIELD_TYPE_BOOLEAN,
   FIELD_TYPE_DATE, FIELD_TYPE_DATETIME, FIELD_TYPE_TIME] ++ LIST_TYPES

/-- Model of Python str.replace (replace every non-overlapping
occurrence, scanning left to right); each step consumes at least one
character, so the input length is enough fuel. -/
def replaceFuel (old new : List Char) : Nat → List Char → List Char
  | 0, input => input
  | fuel + 1, input =>
    match input with
    | [] => []
    | c :: r =>
      if old.isPrefixOf (c :: r) then
        new ++ replaceFuel old new fuel ((c :: r).drop old.length)
      else c :: replaceFuel old new fuel r

/-- Model of Python str.replace on strings. -/
def pyReplace (s old new : String) : String :=
  ⟨replaceFuel old.toList new.toList s.toList.length s.toList⟩

/-- Model of str.startswith. -/
def pyStartsWith (s pfx : String) : Bool := pfx.toList.isPrefixOf s.toList

/-- The scalar fragment of Database.check_type_value: the chain of
type tests of the source in order (None is valid for every type; the
integer type and the float type both accept an int; every other
scalar type requires the exactly matching runtime type).  A scalar
never has runtime type list, so the source's list branch is
unreachable here. -/
def check_scalar (value : PyScalar) (valid_type : String) : Bool :=
  if value = .none then true
  else if valid_type = FIELD_TYPE_INTEGER ∧ pyTypeOf (.scalar value) = .tInt then true
  else if valid_type = FIELD_TYPE_FLOAT ∧ pyTypeOf (.scalar value) = .tInt then true
  else if valid_type = FIELD_TYPE_FLOAT ∧ pyTypeOf (.scalar value) = .tFloat then true
  else if valid_type = FIELD_TYPE_BOOLEAN ∧ pyTypeOf (.scalar value) = .tBool then true
  else if valid_type = FIELD_TYPE_STRING ∧ pyTypeOf (.scalar value) = .tStr then true
  else if valid_type = FIELD_TYPE_DATETIME ∧ pyTypeOf (.scalar value) = .tDatetime then true
  else if valid_type = FIELD_TYPE_TIME ∧ pyTypeOf (.scalar value) = .tTime then true
  else if valid_type = FIELD_TYPE_DATE ∧ pyTypeOf (.scalar value) = .tDate then true
  else false

/-- Model of Database.check_type_value.  The source recurses on the
elements of a list value with
check_type_value(element, valid_type.replace("list_", "")); list
elements are scalars in this domain, so the recursive call is the
scalar fragment (a scalar value fails the list branch and a list
value fails every scalar branch, exactly as in the source's single
chain of tests). -/
def check_type_value (value : PyValue) (valid_type : String) : Bool :=
  match value with
  | .scalar s => check_scalar s valid_type
  | .list xs =>
    if valid_type ∈ LIST_TYPES then
      xs.all fun x => check_scalar x (pyReplace valid_type "list_" "")
    else false

/-! ## The value codec of database.py -/

/-- Model of x.isoformat() (raises on values without the method,
such as None). -/
def isoformatScalar (x : PyScalar) : Option PyScalar :=
  match x with
  | .date d => some (.str ⟨isoDateChars d⟩)
  | .time t => some (.str ⟨isoTimeChars t⟩)
  | .datetime dt => some (.str ⟨isoDatetimeChars dt⟩)
  | _ => none

/-- Model of Database._list_item_to_string: the serializer for list
items, present only for the three date-like list types. -/
def list_item_to_string (column_type : String) : Option (PyScalar → Option PyScalar) :=
  if column_type = FIELD_TYPE_LIST_DATE ∨ column_type = FIELD_TYPE_LIST_DATETIME ∨
      column_type = FIELD_TYPE_LIST_TIME then
    some isoformatScalar
  else none

/-- Model of dateutil.parser.parse(x).date() on a list item. -/
def strToDateItem (x : PyScalar) : Option PyScalar :=
  match x with
  | .str s => (parseIsoDatetime s).map fun dt => .date dt.date
  | _ => none

/-- Model of dateutil.parser.parse(x) on a list item. -/
def strToDatetimeItem (x : PyScalar) : Option PyScalar :=
  match x with
  | .str s => (parseIsoDatetime s).map fun dt => .datetime dt
  | _ => none

/-- Model of dateutil.parser.parse(x).time() on a list item. -/
def strToTimeItem (x : PyScalar) : Option PyScalar :=
  match x with
  | .str s => (parseIsoDatetime s).map fun dt => .time dt.time
  | _ => none

/-- Model of Database._string_to_list_item. -/
def string_to_list_item (column_type : String) : Option (PyScalar → Option PyScalar) :=
  if column_type = FIELD_TYPE_LIST_DATE then some strToDateItem
  else if column_type = FIELD_TYPE_LIST_DATETIME then some strToDatetimeItem
  else if column_type = FIELD_TYPE_LIST_TIME then some strToTimeItem
  else none

/-- Model of the comprehension [converter(i) for i in value], which
propagates an exception of the converter. -/
def mapMO (f : PyScalar → Option PyScalar) : List PyScalar → Option (List PyScalar)
  | [] => some []
  | x :: xs =>
    match f x with
    | Option.none => none
    | some y =>
      match mapMO f xs with
      | Option.none => none
      | some ys => some (y :: ys)

/-- Model of Database.list_to_column. -/
def list_to_column (column_type : String) (value : List PyScalar) : Option PyScalar :=
  match list_item_to_string column_type with
  | Option.none => some (.str (reprPyList value))
  | some conv =>
    match mapMO conv value with
    | Option.none => none
    | some converted => some (.str (reprPyList converted))

/-- Model of Database.python_to_column (dispatch on
isinstance(value, list)). -/
def python_to_column (column_type : String) (value : PyValue) : Option PyScalar :=
  match value with
  | .list xs => list_to_column column_type xs
  | .scalar s => some s

/-- Model of Database.column_to_list. -/
def column_to_list (column_type : String) (value : PyScalar) : Option PyValue :=
  match value with
  | .none => some (.scalar .none)
  | .str s =>
    match literalEvalList s with
    | Option.none => none
    | some list_value =>
      match string_to_list_item column_type with
      | Option.none => some (.list list_value)
      | some conv =>
        match mapMO conv list_value with
        | Option.none => none
        | some xs => some (.list xs)
  | _ => none

/-- Model of Database.column_to_python (dispatch on
column_type.startswith("list_")). -/
def column_to_python (column_type : String) (value : PyScalar) : Option PyValue :=
  if pyStartsWith column_type "list_" then column_to_list column_type value
  else some (.scalar value)

/-- Validity of a full value (constructible in Python). -/
def ValidPyValue : PyValue → Prop
  | .scalar s => ValidScalar s
  | .list xs => ∀ x ∈ xs, ValidScalar x

instance : DecidablePred ValidPyValue := fun v => by
  cases v <;> simp [ValidPyValue] <;> infer_instance

theorem mapMO_map_of (f : PyScalar → Option PyScalar) (g : PyScalar → PyScalar)
    (xs : List PyScalar) (h : ∀ x ∈ xs, f x = some (g x)) :
    mapMO f xs = some (xs.map g) := by
  induction xs with
  | nil => rfl
  | cons x xs ih =>
    have hx := h x (List.mem_cons_self x xs)
    have ih2 := ih fun z hz => h z (List.mem_cons_of_mem _ hz)
    simp [mapMO, hx, ih2]

theorem mapMO_map_inv (f : PyScalar → Option PyScalar) (g : PyScalar → PyScalar)
    (xs : List PyScalar) (h : ∀ x ∈ xs, f (g x) = some x) :
    mapMO f (xs.map g) = some xs := by
  induction xs with
  | nil => rfl
  | cons x xs ih =>
    have hx := h x (List.mem_cons_self x xs)
    have ih2 := ih fun z hz => h z (List.mem_cons_of_mem _ hz)
    simp [mapMO, hx, ih2]

theorem strToDateItem_iso (d : PDate) :
    strToDateItem (.str ⟨isoDateChars d⟩) = some (.date d) := by
  simp [strToDateItem, parseIso_isoDate]

theorem strToTimeItem_iso (t : PTime) (h : t.microsecond < 1000000) :
    strToTimeItem (.str ⟨isoTimeChars t⟩) = some (.time t) := by
  simp [strToTimeItem, parseIso_isoTime t h]

theorem strToDatetimeItem_iso (dt : PDatetime) (h : dt.time.microsecond < 1000000) :
    strToDatetimeItem (.str ⟨isoDatetimeChars dt⟩) = some (.datetime dt) := by
  simp [strToDatetimeItem, parseIso_isoDatetime dt h]

theorem roundtrip_scalar_none (t : String) (hl : pyStartsWith t "list_" = true) :
    (python_to_column t (.scalar .none)).bind (column_to_python t) =
      some (.scalar .none) := by
  simp [python_to_column, column_to_python, hl, column_to_list]

theorem roundtrip_scalar_nonlist (t : String) (hl : pyStartsWith t "list_" = false)
    (s : PyScalar) :
    (python_to_column t (.scalar s)).bind (column_to_python t) = some (.scalar s) := by
  simp [python_to_column, column_to_python, hl]

theorem roundtrip_plain_list (t : String) (hl : pyStartsWith t "list_" = true)
    (hconv : list_item_to_string t = none) (hconv2 : string_to_list_item t = none)
    (xs : List PyScalar) (hall : ∀ x ∈ xs, Printable x ∧ ValidScalar x) :
    (python_to_column t (.list xs)).bind (column_to_python t) = some (.list xs) := by
  simp [python_to_column, list_to_column, hconv, column_to_python, hl, column_to_list,
        literalEval_reprPyList xs hall, hconv2]

theorem roundtrip_conv_list (t : String) (hl : pyStartsWith t "list_" = true)
    (conv back : PyScalar → Option PyScalar)
    (hconv : list_item_to_string t = some conv) (hback : string_to_list_item t = some back)
    (g : PyScalar → PyScalar) (xs : List PyScalar)
    (hfwd : ∀ x ∈ xs, conv x = some (g x))
    (hbwd : ∀ x ∈ xs, back (g x) = some x)
    (hprint : ∀ x ∈ xs, Printable (g x) ∧ ValidScalar (g x)) :
    (python_to_column t (.list xs)).bind (column_to_python t) = some (.list xs) := by
  have h1 := mapMO_map_of conv g xs hfwd
  have h2 := mapMO_map_inv back g xs hbwd
  have h3 : ∀ y ∈ xs.map g, Printable y ∧ ValidScalar y := by
    intro y hy
    simp only [List.mem_map] at hy
    obtain ⟨x, hx, rfl⟩ := hy
    exact hprint x hx
  simp [python_to_column, list_to_column, hconv, h1, column_to_python, hl, column_to_list,
        literalEval_reprPyList _ h3, hback, h2]

/-- Values on which the encoder does not raise: a None element inside
a date/time/datetime list makes the isoformat converter raise. -/
def EncodableValue (t : String) (v : PyValue) : Prop :=
  match v with
  | .list xs =>
    (t = FIELD_TYPE_LIST_DATE ∨ t = FIELD_TYPE_LIST_DATETIME ∨ t = FIELD_TYPE_LIST_TIME) →
      ∀ x ∈ xs, x ≠ .none
  | .scalar _ => True

instance : ∀ t v, Decidable (EncodableValue t v) := fun t v => by
  cases v <;> simp [EncodableValue] <;> infer_instance

theorem check_list_not_listtype {ty : String} (h : ¬(ty ∈ LIST_TYPES))
    (xs : List PyScalar) : check_type_value (.list xs) ty = false := by
  simp [check_type_value, h]

theorem check_scalar_eq_none {ty : String} (x : PyScalar)
    (hne : ty ∉ ([FIELD_TYPE_STRING, FIELD_TYPE_INTEGER, FIELD_TYPE_FLOAT,
        FIELD_TYPE_BOOLEAN, FIELD_TYPE_DATE, FIELD_TYPE_DATETIME,
        FIELD_TYPE_TIME] : List String))
    (h : check_scalar x ty = true) : x = .none := by
  by_contra hx
  simp only [List.mem_cons, List.not_mem_nil, or_false, not_or] at hne
  obtain ⟨h1, h2, h3, h4, h5, h6, h7⟩ := hne
  simp [check_scalar, hx, h1, h2, h3, h4, h5, h6, h7] at h

theorem check_scalar_printable (x : PyScalar)
    (h : check_scalar x FIELD_TYPE_STRING = true ∨ check_scalar x FIELD_TYPE_INTEGER = true ∨
         check_scalar x FIELD_TYPE_FLOAT = true ∨ check_scalar x FIELD_TYPE_BOOLEAN = true) :
    Printable x := by
  cases x <;> try trivial
  all_goals
    rcases h with h | h | h | h <;>
      simp [check_scalar, pyTypeOf, FIELD_TYPE_STRING, FIELD_TYPE_INTEGER, FIELD_TYPE_FLOAT,
        FIELD_TYPE_BOOLEAN, FIELD_TYPE_DATE, FIELD_TYPE_DATETIME, FIELD_TYPE_TIME] at h

theorem check_scalar_date_elem (x : PyScalar) (h : check_scalar x FIELD_TYPE_DATE = true) :
    x = .none ∨ ∃ d, x = .date d := by
  cases x with
  | none => exact Or.inl rfl
  | date d => exact Or.inr ⟨d, rfl⟩
  | bool b => exfalso; simp [check_scalar, pyTypeOf, FIELD_TYPE_STRING, FIELD_TYPE_INTEGER, FIELD_TYPE_FLOAT, FIELD_TYPE_BOOLEAN, FIELD_TYPE_DATE, FIELD_TYPE_DATETIME, FIELD_TYPE_TIME] at h
  | int n => exfalso; simp [check_scalar, pyTypeOf, FIELD_TYPE_STRING, FIELD_TYPE_INTEGER, FIELD_TYPE_FLOAT, FIELD_TYPE_BOOLEAN, FIELD_TYPE_DATE, FIELD_TYPE_DATETIME, FIELD_TYPE_TIME] at h
  | float f => exfalso; simp [check_scalar, pyTypeOf, FIELD_TYPE_STRING, FIELD_TYPE_INTEGER, FIELD_TYPE_FLOAT, FIELD_TYPE_BOOLEAN, FIELD_TYPE_DATE, FIELD_TYPE_DATETIME, FIELD_TYPE_TIME] at h
  | str s => exfalso; simp [check_scalar, pyTypeOf, FIELD_TYPE_STRING, FIELD_TYPE_INTEGER, FIELD_TYPE_FLOAT, FIELD_TYPE_BOOLEAN, FIELD_TYPE_DATE, FIELD_TYPE_DATETIME, FIELD_TYPE_TIME] at h
  | time t => exfalso; simp [check_scalar, pyTypeOf, FIELD_TYPE_STRING, FIELD_TYPE_INTEGER, FIELD_TYPE_FLOAT, FIELD_TYPE_BOOLEAN, FIELD_TYPE_DATE, FIELD_TYPE_DATETIME, FIELD_TYPE_TIME] at h
  | datetime dt => exfalso; simp [check_scalar, pyTypeOf, FIELD_TYPE_STRING, FIELD_TYPE_INTEGER, FIELD_TYPE_FLOAT, FIELD_TYPE_BOOLEAN, FIELD_TYPE_DATE, FIELD_TYPE_DATETIME, FIELD_TYPE_TIME] at h

theorem check_scalar_time_elem (x : PyScalar) (h : check_scalar x FIELD_TYPE_TIME = true) :
    x = .none ∨ ∃ t, x = .time t := by
  cases x with
  | none => exact Or.inl rfl
  | time t => exact Or.inr ⟨t, rfl⟩
  | bool b => exfalso; simp [check_scalar, pyTypeOf, FIELD_TYPE_STRING, FIELD_TYPE_INTEGER, FIELD_TYPE_FLOAT, FIELD_TYPE_BOOLEAN, FIELD_TYPE_DATE, FIELD_TYPE_DATETIME, FIELD_TYPE_TIME] at h
  | int n => exfalso; simp [check_scalar, pyTypeOf, FIELD_TYPE_STRING, FIELD_TYPE_INTEGER, FIELD_TYPE_FLOAT, FIELD_TYPE_BOOLEAN, FIELD_TYPE_DATE, FIELD_TYPE_DATETIME, FIELD_TYPE_TIME] at h
  | float f => exfalso; simp [check_scalar, pyTypeOf, FIELD_TYPE_STRING, FIELD_TYPE_INTEGER, FIELD_TYPE_FLOAT, FIELD_TYPE_BOOLEAN, FIELD_TYPE_DATE, FIELD_TYPE_DATETIME, FIELD_TYPE_TIME] at h
  | str s => exfalso; simp [check_scalar, pyTypeOf, FIELD_TYPE_STRING, FIELD_TYPE_INTEGER, FIELD_TYPE_FLOAT, FIELD_TYPE_BOOLEAN, FIELD_TYPE_DATE, FIELD_TYPE_DATETIME, FIELD_TYPE_TIME] at h
  | date d => exfalso; simp [check_scalar, pyTypeOf, FIELD_TYPE_STRING, FIELD_TYPE_INTEGER, FIELD_TYPE_FLOAT, FIELD_TYPE_BOOLEAN, FIELD_TYPE_DATE, FIELD_TYPE_DATETIME, FIELD_TYPE_TIME] at h
  | datetime dt => exfalso; simp [check_scalar, pyTypeOf, FIELD_TYPE_STRING, FIELD_TYPE_INTEGER, FIELD_TYPE_FLOAT, FIELD_TYPE_BOOLEAN, FIELD_TYPE_DATE, FIELD_TYPE_DATETIME, FIELD_TYPE_TIME] at h

theorem check_scalar_datetime_elem (x : PyScalar)
    (h : check_scalar x FIELD_TYPE_DATETIME = true) :
    x = .none ∨ ∃ dt, x = .datetime dt := by
  cases x with
  | none => exact Or.inl rfl
  | datetime dt => exact Or.inr ⟨dt, rfl⟩
  | bool b => exfalso; simp [check_scalar, pyTypeOf, FIELD_TYPE_STRING, FIELD_TYPE_INTEGER, FIELD_TYPE_FLOAT, FIELD_TYPE_BOOLEAN, FIELD_TYPE_DATE, FIELD_TYPE_DATETIME, FIELD_TYPE_TIME] at h
  | int n => exfalso; simp [check_scalar, pyTypeOf, FIELD_TYPE_STRING, FIELD_TYPE_INTEGER, FIELD_TYPE_FLOAT, FIELD_TYPE_BOOLEAN, FIELD_TYPE_DATE, FIELD_TYPE_DATETIME, FIELD_TYPE_TIME] at h
  | float f => exfalso; simp [check_scalar, pyTypeOf, FIELD_TYPE_STRING, FIELD_TYPE_INTEGER, FIELD_TYPE_FLOAT, FIELD_TYPE_BOOLEAN, FIELD_TYPE_DATE, FIELD_TYPE_DATETIME, FIELD_TYPE_TIME] at h
  | str s => exfalso; simp [check_scalar, pyTypeOf, FIELD_TYPE_STRING, FIELD_TYPE_INTEGER, FIELD_TYPE_FLOAT, FIELD_TYPE_BOOLEAN, FIELD_TYPE_DATE, FIELD_TYPE_DATETIME, FIELD_TYPE_TIME] at h
  | date d => exfalso; simp [check_scalar, pyTypeOf, FIELD_TYPE_STRING, FIELD_TYPE_INTEGER, FIELD_TYPE_FLOAT, FIELD_TYPE_BOOLEAN, FIELD_TYPE_DATE, FIELD_TYPE_DATETIME, FIELD_TYPE_TIME] at h
  | time t => exfalso; simp [check_scalar, pyTypeOf, FIELD_TYPE_STRING, FIELD_TYPE_INTEGER, FIELD_TYPE_FLOAT, FIELD_TYPE_BOOLEAN, FIELD_TYPE_DATE, FIELD_TYPE_DATETIME, FIELD_TYPE_TIME] at h

theorem codec_roundtrip (t : String) (ht : t ∈ ALL_TYPES) (v : PyValue)
    (hchk : check_type_value v t = true) (hvalid : ValidPyValue v)
    (henc : EncodableValue t v) :
    (python_to_column t v).bind (column_to_python t) = some v := by
  simp only [ALL_TYPES, LIST_TYPES, List.mem_append, List.mem_cons, List.not_mem_nil,
    or_false] at ht
  rcases ht with (rfl | rfl | rfl | rfl | rfl | rfl | rfl) |
    (rfl | rfl | rfl | rfl | rfl | rfl | rfl)
  · cases v with
    | scalar s => exact roundtrip_scalar_nonlist _ (by decide) s
    | list xs =>
      rw [check_list_not_listtype (by decide) xs] at hchk
      exact absurd hchk (by simp)
  · cases v with
    | scalar s => exact roundtrip_scalar_nonlist _ (by decide) s
    | list xs =>
      rw [check_list_not_listtype (by decide) xs] at hchk
      exact absurd hchk (by simp)
  · cases v with
    | scalar s => exact roundtrip_scalar_nonlist _ (by decide) s
    | list xs =>
      rw [check_list_not_listtype (by decide) xs] at hchk
      exact absurd hchk (by simp)
  · cases v with
    | scalar s => exact roundtrip_scalar_nonlist _ (by decide) s
    | list xs =>
      rw [check_list_not_listtype (by decide) xs] at hchk
      exact absurd hchk (by simp)
  · cases v with
    | scalar s => exact roundtrip_scalar_nonlist _ (by decide) s
    | list xs =>
      rw [check_list_not_listtype (by decide) xs] at hchk
      exact absurd hchk (by simp)
  · cases v with
    | scalar s => exact roundtrip_scalar_nonlist _ (by decide) s
    | list xs =>
      rw [check_list_not_listtype (by decide) xs] at hchk
      exact absurd hchk (by simp)
  · cases v with
    | scalar s => exact roundtrip_scalar_nonlist _ (by decide) s
    | list xs =>
      rw [check_list_not_listtype (by decide) xs] at hchk
      exact absurd hchk (by simp)
  · cases v with
    | scalar s =>
      have hs := @check_scalar_eq_none FIELD_TYPE_LIST_STRING s (by decide) hchk
      subst hs
      exact roundtrip_scalar_none _ (by decide)
    | list xs =>
      have helems : ∀ x ∈ xs, check_scalar x FIELD_TYPE_STRING = true := by
        have h2 : pyReplace FIELD_TYPE_LIST_STRING "list_" "" = FIELD_TYPE_STRING := by decide
        have h3 : FIELD_TYPE_LIST_STRING ∈ LIST_TYPES := by decide
        simp only [check_type_value, if_pos h3, h2, List.all_eq_true] at hchk
        exact hchk
      refine roundtrip_plain_list _ (by decide) (by rfl) (by rfl) xs ?_
      intro x hx
      exact ⟨check_scalar_printable x (Or.inl (helems x hx)), hvalid x hx⟩
  · cases v with
    | scalar s =>
      have hs := @check_scalar_eq_none FIELD_TYPE_LIST_INTEGER s (by decide) hchk
      subst hs
      exact roundtrip_scalar_none _ (by decide)
    | list xs =>
      have helems : ∀ x ∈ xs, check_scalar x FIELD_TYPE_INTEGER = true := by
        have h2 : pyReplace FIELD_TYPE_LIST_INTEGER "list_" "" = FIELD_TYPE_INTEGER := by decide
        have h3 : FIELD_TYPE_LIST_INTEGER ∈ LIST_TYPES := by decide
        simp only [check_type_value, if_pos h3, h2, List.all_eq_true] at hchk
        exact hchk
      refine roundtrip_plain_list _ (by decide) (by rfl) (by rfl) xs ?_
      intro x hx
      exact ⟨check_scalar_printable x (Or.inr <| Or.inl (helems x hx)), hvalid x hx⟩
  · cases v with
    | scalar s =>
      have hs := @check_scalar_eq_none FIELD_TYPE_LIST_FLOAT s (by decide) hchk
      subst hs
      exact roundtrip_scalar_none _ (by decide)
    | list xs =>
      have helems : ∀ x ∈ xs, check_scalar x FIELD_TYPE_FLOAT = true := by
        have h2 : pyReplace FIELD_TYPE_LIST_FLOAT "list_" "" = FIELD_TYPE_FLOAT := by decide
        have h3 : FIELD_TYPE_LIST_FLOAT ∈ LIST_TYPES := by decide
        simp only [check_type_value, if_pos h3, h2, List.all_eq_true] at hchk
        exact hchk
      refine roundtrip_plain_list _ (by decide) (by rfl) (by rfl) xs ?_
      intro x hx
      exact ⟨check_scalar_printable x (Or.inr <| Or.inr <| Or.inl (helems x hx)), hvalid x hx⟩
  · cases v with
    | scalar s =>
      have hs := @check_scalar_eq_none FIELD_TYPE_LIST_BOOLEAN s (by decide) hchk
      subst hs
      exact roundtrip_scalar_none _ (by decide)
    | list xs =>
      have helems : ∀ x ∈ xs, check_scalar x FIELD_TYPE_BOOLEAN = true := by
        have h2 : pyReplace FIELD_TYPE_LIST_BOOLEAN "list_" "" = FIELD_TYPE_BOOLEAN := by decide
        have h3 : FIELD_TYPE_LIST_BOOLEAN ∈ LIST_TYPES := by decide
        simp only [check_type_value, if_pos h3, h2, List.all_eq_true] at hchk
        exact hchk
      refine roundtrip_plain_list _ (by decide) (by rfl) (by rfl) xs ?_
      intro x hx
      exact ⟨check_scalar_printable x (Or.inr <| Or.inr <| Or.inr (helems x hx)), hvalid x hx⟩
  · cases v with
    | scalar s =>
      have hs := @check_scalar_eq_none FIELD_TYPE_LIST_DATE s (by decide) hchk
      subst hs
      exact roundtrip_scalar_none _ (by decide)
    | list xs =>
      have helems : ∀ x ∈ xs, check_scalar x FIELD_TYPE_DATE = true := by
        have h2 : pyReplace FIELD_TYPE_LIST_DATE "list_" "" = FIELD_TYPE_DATE := by decide
        have h3 : FIELD_TYPE_LIST_DATE ∈ LIST_TYPES := by decide
        simp only [check_type_value, if_pos h3, h2, List.all_eq_true] at hchk
        exact hchk
      have hnn : ∀ x ∈ xs, x ≠ .none := henc (Or.inl rfl)
      have helem2 : ∀ x ∈ xs, ∃ d, x = .date d := by
        intro x hx
        rcases check_scalar_date_elem x (helems x hx) with rfl | hd
        · exact absurd rfl (hnn _ hx)
        · exact hd
      refine roundtrip_conv_list _ (by decide) isoformatScalar strToDateItem (by rfl) (by rfl)
        (fun x => match x with | .date d => .str ⟨isoDateChars d⟩ | y => y) xs ?_ ?_ ?_
      · intro x hx
        obtain ⟨d, rfl⟩ := helem2 x hx
        rfl
      · intro x hx
        obtain ⟨d, rfl⟩ := helem2 x hx
        exact strToDateItem_iso d
      · intro x hx
        obtain ⟨d, rfl⟩ := helem2 x hx
        exact ⟨trivial, trivial⟩
  · cases v with
    | scalar s =>
      have hs := @check_scalar_eq_none FIELD_TYPE_LIST_DATETIME s (by decide) hchk
      subst hs
      exact roundtrip_scalar_none _ (by decide)
    | list xs =>
      have helems : ∀ x ∈ xs, check_scalar x FIELD_TYPE_DATETIME = true := by
        have h2 : pyReplace FIELD_TYPE_LIST_DATETIME "list_" "" = FIELD_TYPE_DATETIME := by decide
        have h3 : FIELD_TYPE_LIST_DATETIME ∈ LIST_TYPES := by decide
        simp only [check_type_value, if_pos h3, h2, List.all_eq_true] at hchk
        exact hchk
      have hnn : ∀ x ∈ xs, x ≠ .none := henc (Or.inr (Or.inl rfl))
      have helem2 : ∀ x ∈ xs, ∃ d, x = .datetime d := by
        intro x hx
        rcases check_scalar_datetime_elem x (helems x hx) with rfl | hd
        · exact absurd rfl (hnn _ hx)
        · exact hd
      refine roundtrip_conv_list _ (by decide) isoformatScalar strToDatetimeItem (by rfl) (by rfl)
        (fun x => match x with | .datetime d => .str ⟨isoDatetimeChars d⟩ | y => y) xs ?_ ?_ ?_
      · intro x hx
        obtain ⟨d, rfl⟩ := helem2 x hx
        rfl
      · intro x hx
        obtain ⟨d, rfl⟩ := helem2 x hx
        exact strToDatetimeItem_iso d (hvalid _ hx)
      · intro x hx
        obtain ⟨d, rfl⟩ := helem2 x hx
        exact ⟨trivial, trivial⟩
  · cases v with
    | scalar s =>
      have hs := @check_scalar_eq_none FIELD_TYPE_LIST_TIME s (by decide) hchk
      subst hs
      exact roundtrip_scalar_none _ (by decide)
    | list xs =>
      have helems : ∀ x ∈ xs, check_scalar x FIELD_TYPE_TIME = true := by
        have h2 : pyReplace FIELD_TYPE_LIST_TIME "list_" "" = FIELD_TYPE_TIME := by decide
        have h3 : FIELD_TYPE_LIST_TIME ∈ LIST_TYPES := by decide
        simp only [check_type_value, if_pos h3, h2, List.all_eq_true] at hchk
        exact hchk
      have hnn : ∀ x ∈ xs, x ≠ .none := henc (Or.inr (Or.inr rfl))
      have helem2 : ∀ x ∈ xs, ∃ d, x = .time d := by
        intro x hx
        rcases check_scalar_time_elem x (helems x hx) with rfl | hd
        · exact absurd rfl (hnn _ hx)
        · exact hd
      refine roundtrip_conv_list _ (by decide) isoformatScalar strToTimeItem (by rfl) (by rfl)
        (fun x => match x with | .time d => .str ⟨isoTimeChars d⟩ | y => y) xs ?_ ?_ ?_
      · intro x hx
        obtain ⟨d, rfl⟩ := helem2 x hx
        rfl
      · intro x hx
        obtain ⟨d, rfl⟩ := helem2 x hx
        exact strToTimeItem_iso d (hvalid _ hx)
      · intro x hx
        obtain ⟨d, rfl⟩ := helem2 x hx
        exact ⟨trivial, trivial⟩

/-! ## The database state and the schema/document operations

The Database class is embedded as explicit state passing: the two
catalog tables (collections and fields), one physical table per
collection, and the optional caches.  The SQL backend's DDL/DML
calls become list manipulations with standard SQL semantics. -/

/-- A row of the collection catalog table. -/
structure CollRec where
  name : String
  primary_key : String
deriving DecidableEq, Repr

/-- A row of the field catalog table. -/
structure FieldRec where
  collection : String
  name : String
  ftype : String
  description : Option String
deriving DecidableEq, Repr

/-- A document row: the stored scalar of each column (an absent
column reads as NULL). -/
abbrev RowData := List (String × PyScalar)

/-- A physical table: column names and rows. -/
structure TableData where
  columns : List String
  rows : List RowData
deriving DecidableEq, Repr

/-- The caches of a Database opened with caches=True. -/
structure CacheState where
  documents : List (String × List (String × Option RowData))
  fieldsC : List (String × List (String × Option FieldRec))
  names : List (String × List (String × String))
  collectionsC : List (String × Option CollRec)
deriving Repr

/-- The embedded state of a Database handle. -/
structure DBState where
  collections : List CollRec
  fields : List FieldRec
  tables : List (String × TableData)
  caches : Option CacheState
deriving Repr

/-- Names of the two catalog tables (modelled from the spec; the
exact strings live in the absent database_model.py). -/
def COLLECTION_TABLE : String := "collection"

/-- Name of the field catalog table (modelled from the spec). -/
def FIELD_TABLE : String := "field"

/-- Insert or replace in an association list. -/
def aset {α : Type} (k : String) (v : α) : List (String × α) → List (String × α)
  | [] => [(k, v)]
  | (k2, v2) :: r => if k2 = k then (k, v) :: r else (k2, v2) :: aset k v r

/-- The stored value of a column in a row (NULL when absent). -/
def rowGet (row : RowData) (col : String) : PyScalar :=
  (List.lookup col row).getD .none

/-- Model of Python `a in b` on strings (substring test). -/
def strInfix (needle hay : String) : Bool :=
  hay.toList.tails.any fun t => needle.toList.isPrefixOf t

/-- Model of Database.get_collection (the uncached query path: the
first collection catalog row with the given name). -/
def get_collection (st : DBState) (name : String) : Option CollRec :=
  st.collections.find? fun c => c.name == name

/-- Model of Database.get_field (the uncached query path). -/
def get_field (st : DBState) (collection name : String) : Option FieldRec :=
  st.fields.find? fun f => f.name == name && f.collection == collection

/-- Model of Database.get_fields. -/
def get_fields (st : DBState) (collection : String) : List FieldRec :=
  st.fields.filter fun f => f.collection == collection

/-- Model of Database.get_fields_names. -/
def get_fields_names (st : DBState) (collection : String) : List String :=
  (st.fields.filter fun f => f.collection == collection).map (·.name)

/-- Model of Database.field_name_to_column_name (uncached path):
None for an unknown collection, else the pure derivation from the
primary key and the field name. -/
def field_name_to_column_name (st : DBState) (collection field : String) : Option String :=
  match get_collection st collection with
  | Option.none => none
  | some row => some (fieldToColumn row.primary_key field)

/-- Model of Database.field_name_to_column_name with caches: look the
name up in the names cache, else compute it and record it (creating
the per-collection dictionary on the first KeyError, as the source
does). -/
def cached_column_name (st : DBState) (cache : List (String × List (String × String)))
    (collection field : String) :
    Option String × List (String × List (String × String)) :=
  match get_collection st collection with
  | Option.none => (none, cache)
  | some row =>
    match List.lookup collection cache with
    | some m =>
      match List.lookup field m with
      | some cn => (some cn, cache)
      | Option.none =>
        (some (fieldToColumn row.primary_key field),
         aset collection (aset field (fieldToColumn row.primary_key field) m) cache)
    | Option.none =>
      (some (fieldToColumn row.primary_key field),
       aset collection (aset field (fieldToColumn row.primary_key field) []) cache)

/-- Model of Database.add_collection. -/
def add_collection (st : DBState) (name : String) (primary_key : String) :
    Except String DBState :=
  if (get_collection st name).isSome ∨ (List.lookup name st.tables).isSome ∨
      name = COLLECTION_TABLE ∨ name = FIELD_TABLE then
    Except.error "A collection or table with the name already exists"
  else
    let st1 : DBState :=
      { st with
        collections := st.collections ++ [⟨name, primary_key⟩]
        tables := st.tables ++ [(name, ⟨[primary_key], []⟩)]
        fields := st.fields ++ [⟨name, primary_key, FIELD_TYPE_STRING,
          some ("Primary_key of the document collection " ++ name)⟩] }
    match st1.caches with
    | Option.none => Except.ok st1
    | some c =>
      Except.ok { st1 with caches := some ({ c with
          documents := aset name [] c.documents
          fieldsC := aset name [] c.fieldsC
          names := aset name [] c.names
          collectionsC := aset name (some ⟨name, primary_key⟩) c.collectionsC }) }

/-- Model of Database.add_field: validate, insert the catalog row
(and the fields cache entry), add the column to the live table, and
empty the cached document views of every collection. -/
def add_field (st : DBState) (collection name field_type : String)
    (description : Option String) : Except String DBState :=
  match get_collection st collection with
  | Option.none => Except.error "The collection does not exist"
  | some crow =>
    if (get_field st collection name).isSome then
      Except.error "A field with the name already exists in the collection"
    else if ¬(field_type ∈ ALL_TYPES) then
      Except.error "The field type is not recognized"
    else
      let frec : FieldRec := ⟨collection, name, field_type, description⟩
      let colname := fieldToColumn crow.primary_key name
      let tables1 := st.tables.map fun p =>
        if p.1 = collection then (p.1, ⟨p.2.columns ++ [colname], p.2.rows⟩) else p
      let st1 : DBState := { st with fields := st.fields ++ [frec], tables := tables1 }
      match st1.caches with
      | Option.none => Except.ok st1
      | some c =>
        match List.lookup collection c.fieldsC with
        | Option.none => Except.error "KeyError in the fields cache"
        | some m =>
          Except.ok { st1 with caches := some ({ c with
              fieldsC := aset collection (aset name (some frec) m) c.fieldsC
              documents := c.documents.map fun p => (p.1, []) }) }

/-- Model of Database.remove_field.  The source filters columns with
Python substring tests: the select/insert column lists keep the
columns c with `field_name not in c.name`, while the backup table is
built from the columns whose qualified name str(column) =
"collection.name" does not contain field_name.  Removal is the
shadow-table sequence: create the backup table, copy the rows, drop
the original, recreate it from the backup's columns, copy back, drop
the backup, delete the catalog row, clear the caches, and finally
call update_table_classes, which re-automaps every table of the
metadata: automap maps no class for a table without a primary key, so
when the rebuilt table's columns no longer contain the primary-key
column (the filters dropped it, or the primary-key field itself was
removed) the trailing getattr on base.classes raises
AttributeError. -/
def remove_field (st : DBState) (collection field : String) : Except String DBState :=
  match get_collection st collection with
  | Option.none => Except.error "The collection does not exist"
  | some crow =>
    match get_field st collection field with
    | Option.none => Except.error "The field does not exist in the collection"
    | some _ =>
      let field_name := fieldToColumn crow.primary_key field
      match List.lookup collection st.tables with
      | Option.none => Except.error "no such table"
      | some tdata =>
        let remaining := tdata.columns.filter fun c => ¬(strInfix field_name c = true)
        let backupCols := tdata.columns.filter fun c =>
          ¬(strInfix field_name (collection ++ "." ++ c) = true)
        if (List.lookup (collection ++ "_backup") st.tables).isSome then
          Except.error "the backup table already exists"
        else if ¬(remaining.all fun c => backupCols.contains c) then
          Except.error "insert into the backup table failed"
        else
          let backupRows := tdata.rows.map fun r => remaining.map fun c => (c, rowGet r c)
          let backupSel := backupCols.filter fun c => ¬(strInfix field_name c = true)
          if backupSel.length ≠ remaining.length then
            Except.error "insert into the rebuilt table failed"
          else
            let newRows := backupRows.map fun r =>
              remaining.zip (backupSel.map fun c => rowGet r c)
            let tables1 := st.tables.map fun p =>
              if p.1 = collection then (p.1, ⟨backupCols, newRows⟩) else p
            let fields1 := st.fields.eraseP fun f =>
              f.name == field && f.collection == collection
            let st1 : DBState := { st with tables := tables1, fields := fields1 }
            match st1.caches with
            | Option.none =>
              if backupCols.contains crow.primary_key then Except.ok st1
              else Except.error "AttributeError: automap has no class for the rebuilt table"
            | some c =>
              match List.lookup collection c.fieldsC with
              | Option.none => Except.error "KeyError in the fields cache"
              | some m =>
                if backupCols.contains crow.primary_key then
                  Except.ok { st1 with caches := some ({ c with
                    documents := c.documents.map fun p => (p.1, [])
                    fieldsC := aset collection (m.filter fun p => ¬(p.1 = field)) c.fieldsC }) }
                else Except.error "AttributeError: automap has no class for the rebuilt table"

/-- Model of the document query of Database.get_document (the row of
the collection table whose primary-key column equals the name). -/
def get_document_nc (st : DBState) (collection document : String) : Option RowData :=
  match get_collection st collection with
  | Option.none => none
  | some crow =>
    match List.lookup collection st.tables with
    | Option.none => none
    | some t => t.rows.find? fun r => rowGet r crow.primary_key == PyScalar.str document

/-- Model of Database.get_document with caches: a cache hit returns
the cached view (which may be a cached absent document); a miss
queries, records the result and returns it; an unknown collection
returns None without touching the cache. -/
def get_document (st : DBState) (collection document : String) :
    Option RowData × DBState :=
  match st.caches with
  | Option.none => (get_document_nc st collection document, st)
  | some c =>
    match List.lookup collection c.documents with
    | some m =>
      match List.lookup document m with
      | some cached => (cached, st)
      | Option.none =>
        match get_collection st collection with
        | Option.none => (none, st)
        | some _ =>
          let row := get_document_nc st collection document
          let c2 := { c with documents := aset collection (aset document row m) c.documents }
          (row, { st with caches := some c2 })
    | Option.none =>
      match get_collection st collection with
      | Option.none => (none, st)
      | some _ =>
        let row := get_document_nc st collection document
        let c2 := { c with documents := aset collection (aset document row []) c.documents }
        (row, { st with caches := some c2 })

/-- Model of FieldRow attribute access.  Python attribute lookup
finds the FieldRow's own instance attributes (database, collection,
row — set in its constructor) before calling the getattr fallback, so
a field of one of those names reads the instance attribute, never a
stored value (modelled as an error result carrying that fact; the
source returns the foreign object).  Otherwise: the raw stored value
when the requested name is itself a column of the table, else the
value of the MD5-hashed column decoded by the field's declared type
(AttributeError when neither column exists, and the source's error
when the decode raises). -/
def fieldRowGet (st : DBState) (collection : String) (cols : List String)
    (row : RowData) (name : String) : Except String PyValue :=
  if name = "database" ∨ name = "collection" ∨ name = "row" then
    Except.error "FieldRow instance attribute shadows the field"
  else if cols.contains name then Except.ok (.scalar (rowGet row name))
  else if cols.contains (md5hex (utf8Bytes name)) then
    match get_field st collection name with
    | Option.none => Except.error "AttributeError"
    | some frow =>
      match column_to_python frow.ftype (rowGet row (md5hex (utf8Bytes name))) with
      | Option.none => Except.error "decode raised"
      | some v => Except.ok v
  else Except.error "AttributeError"

/-- Model of Database.get_value (caches off): None when collection,
field or document is unknown, else the FieldRow access by field
name. -/
def get_value (st : DBState) (collection document field : String) :
    Except String PyValue :=
  match get_collection st collection with
  | Option.none => Except.ok (.scalar .none)
  | some _ =>
    match get_field st collection field with
    | Option.none => Except.ok (.scalar .none)
    | some _ =>
      match get_document_nc st collection document with
      | Option.none => Except.ok (.scalar .none)
      | some row =>
        match List.lookup collection st.tables with
        | Option.none => Except.error "no such table"
        | some t => fieldRowGet st collection t.columns row field

/-- Replace the stored value of one column of one document. -/
def updateRowValue (st : DBState) (collection pk document col : String) (v : PyScalar) :
    DBState :=
  { st with tables := st.tables.map fun p =>
      if p.1 = collection then
        (p.1, ⟨p.2.columns, p.2.rows.map fun r =>
          if rowGet r pk == PyScalar.str document then aset col v r else r⟩)
      else p }

/-- Model of Database.set_value (caches off): validate collection,
field, document and value type, then store the encoded value. -/
def set_value (st : DBState) (collection document field : String) (new_value : PyValue) :
    Except String DBState :=
  match get_collection st collection with
  | Option.none => Except.error "The collection does not exist"
  | some crow =>
    match get_field st collection field with
    | Option.none => Except.error "The field does not exist for the collection"
    | some frow =>
      match get_document_nc st collection document with
      | Option.none => Except.error "The document does not exist"
      | some _ =>
        if check_type_value new_value frow.ftype = false then
          Except.error "The value is invalid"
        else
          match python_to_column frow.ftype new_value with
          | Option.none => Except.error "the encoder raised"
          | some enc =>
            Except.ok (updateRowValue st collection crow.primary_key document
              (fieldToColumn crow.primary_key field) enc)

/-- Model of Database.new_value with checks enabled (caches off):
validate, then read database_value = getattr(document_row, column)
through the document's FieldRow — a shadowed column name reads the
(non-None) instance attribute and so falls to the already-has-a-value
error; a genuine column reads its raw value; an absent column falls
back to its own MD5-hashed column (decoded, AttributeError when that
is absent too, mirroring FieldRow.__getattr__ re-raising) — and store
the encoded value only when the read value is None, else raise.  In
the hashed-fallback store case the source's setattr writes a
non-column attribute of the ORM row, which no UPDATE persists, so the
state is returned unchanged. -/
def new_value (st : DBState) (collection document field : String) (value : PyValue) :
    Except String DBState :=
  match get_collection st collection with
  | Option.none => Except.error "The collection does not exist"
  | some crow =>
    match get_field st collection field with
    | Option.none => Except.error "The field does not exist in the collection"
    | some frow =>
      match get_document_nc st collection document with
      | Option.none => Except.error "The document does not exist in the collection"
      | some row =>
        if check_type_value value frow.ftype = false then
          Except.error "The value is invalid"
        else
          match List.lookup collection st.tables with
          | Option.none => Except.error "no such table"
          | some tdata =>
            if fieldToColumn crow.primary_key field = "database" ∨
                fieldToColumn crow.primary_key field = "collection" ∨
                fieldToColumn crow.primary_key field = "row" then
              Except.error "The tuple already has a value for the collection"
            else if tdata.columns.contains (fieldToColumn crow.primary_key field) then
              if rowGet row (fieldToColumn crow.primary_key field) = .none then
                match value with
                | .scalar .none => Except.ok st
                | _ =>
                  match python_to_column frow.ftype value with
                  | Option.none => Except.error "the encoder raised"
                  | some enc =>
                    Except.ok (updateRowValue st collection crow.primary_key document
                      (fieldToColumn crow.primary_key field) enc)
              else Except.error "The tuple already has a value for the collection"
            else if tdata.columns.contains
                (md5hex (utf8Bytes (fieldToColumn crow.primary_key field))) then
              match get_field st collection (fieldToColumn crow.primary_key field) with
              | Option.none => Except.error "AttributeError"
              | some f2 =>
                match column_to_python f2.ftype (rowGet row
                    (md5hex (utf8Bytes (fieldToColumn crow.primary_key field)))) with
                | Option.none => Except.error "decode raised"
                | some dbval =>
                  if dbval = .scalar .none then
                    match value with
                    | .scalar .none => Except.ok st
                    | _ =>
                      match python_to_column frow.ftype value with
                      | Option.none => Except.error "the encoder raised"
                      | some _ => Except.ok st
                  else Except.error "The tuple already has a value for the collection"
            else Except.error "AttributeError"

/-- The document argument of add_document: the primary-key value
alone, or a mapping of field name to value (primary-key values are
strings, as document names are throughout the API). -/
inductive DocArg where
  | name (pk : String)
  | dict (m : List (String × PyValue))
deriving Repr

/-- Append a row to a collection table. -/
def insertRow (st : DBState) (collection : String) (row : RowData) : DBState :=
  { st with tables := st.tables.map fun p =>
      if p.1 = collection then (p.1, ⟨p.2.columns, p.2.rows ++ [row]⟩) else p }

/-- Encode the entries of a document mapping: each field name is
resolved to its column name and its value encoded by the field's
declared type (an unknown field raises, because the source reads
field_row.type from a None row; no type validation is performed). -/
def encodeDocEntries (st : DBState) (collection pk : String) :
    List (String × PyValue) → Except String RowData
  | [] => Except.ok []
  | (fname, v) :: rest =>
    match get_field st collection fname with
    | Option.none => Except.error "AttributeError on a missing field"
    | some frow =>
      match python_to_column frow.ftype v with
      | Option.none => Except.error "the encoder raised"
      | some enc =>
        match encodeDocEntries st collection pk rest with
        | Except.error e => Except.error e
        | Except.ok tail => Except.ok ((fieldToColumn pk fname, enc) :: tail)

/-- Model of Database.add_document with checks enabled (caches off):
validate the collection and the absence of the document, then encode
each supplied value by its field's declared type and insert the row.
The source performs no check_type_value validation here. -/
def add_document (st : DBState) (collection : String) (document : DocArg) :
    Except String DBState :=
  match get_collection st collection with
  | Option.none => Except.error "The collection does not exist"
  | some crow =>
    match (match document with
           | .dict m =>
             match List.lookup crow.primary_key m with
             | some (.scalar (.str n)) => Except.ok n
             | some _ => Except.error "the primary key value is not a string"
             | Option.none => Except.error "KeyError on the primary key"
           | .name n => Except.ok n : Except String String) with
    | Except.error e => Except.error e
    | Except.ok docname =>
      if (get_document_nc st collection docname).isSome then
        Except.error "A document with the name already exists"
      else
        match document with
        | .name n => Except.ok (insertRow st collection [(crow.primary_key, .str n)])
        | .dict m =>
          match encodeDocEntries st collection crow.primary_key m with
          | Except.error e => Except.error e
          | Except.ok row => Except.ok (insertRow st collection row)

/-! ## The filter DSL and its compilation

Modelled from the spec: filter.py (filter_parser, FilterToQuery) is
not among the sources.  The AST below is the parse of a syntactically
valid filter string over the grammar of the spec; the compiler splits
the top-level conjunction into a push-down predicate on scalar
columns and a residual predicate evaluated on fully decoded
documents, as the spec describes.  Database.filter_documents itself
is in the sources and is modelled faithfully below. -/

/-- Comparison operators of the filter grammar. -/
inductive CmpOp where
  | eq
  | ne
  | lt
  | le
  | gt
  | ge
deriving DecidableEq, Repr

/-- The filter AST (parse of a valid filter string). -/
inductive FilterAst where
  | allDocs
  | cmp (op : CmpOp) (field : String) (lit : PyScalar)
  | inList (field : String) (lits : List PyScalar)
  | inField (lit : PyScalar) (field : String)
  | like (field : String) (pattern : String) (insensitive : Bool)
  | notE (a : FilterAst)
  | andE (a b : FilterAst)
  | orE (a b : FilterAst)
deriving DecidableEq, Repr

/-- Rational value of a numeric scalar (Python compares bool, int and
float numerically across types). -/
def numVal : PyScalar → Option ℚ
  | .int n => some (n : ℚ)
  | .float f =>
    some ((if f.neg then (-1 : ℚ) else 1) *
      ((f.ip : ℚ) + (Nat.ofDigits 10 f.fr.reverse : ℚ) / ((10 : ℚ) ^ f.fr.length)))
  | .bool b => some (if b then 1 else 0)
  | _ => none

/-- Equality of two literals/stored scalars (numeric kinds compare by
value; other kinds require equal type and value; None equals only
None). -/
def litEq (a b : PyScalar) : Bool :=
  match numVal a, numVal b with
  | some x, some y => x == y
  | _, _ =>
    match a, b with
    | .str s1, .str s2 => s1 == s2
    | .date d1, .date d2 => d1 == d2
    | .time t1, .time t2 => t1 == t2
    | .datetime d1, .datetime d2 => d1 == d2
    | .none, .none => true
    | _, _ => false

/-- Chronological key of a date (agrees with date order on the valid
ranges of the fields). -/
def dateKey (d : PDate) : Nat := (d.year * 32 + d.month) * 32 + d.day

/-- Chronological key of a time. -/
def timeKey (t : PTime) : Nat :=
  ((t.hour * 60 + t.minute) * 60 + t.second) * 1000000 + t.microsecond

/-- Strict order on two scalars of comparable kinds (None when the
kinds are incomparable: such comparisons select nothing). -/
def litLt (a b : PyScalar) : Option Bool :=
  match numVal a, numVal b with
  | some x, some y => some (decide (x < y))
  | _, _ =>
    match a, b with
    | .str s1, .str s2 => some (decide (s1 < s2))
    | .date d1, .date d2 => some (decide (dateKey d1 < dateKey d2))
    | .time t1, .time t2 => some (decide (timeKey t1 < timeKey t2))
    | .datetime d1, .datetime d2 =>
      some (decide (dateKey d1.date * 86400000000 + timeKey d1.time <
                    dateKey d2.date * 86400000000 + timeKey d2.time))
    | _, _ => none

/-- One comparison on two non-null scalars (shared by the push-down
and the residual evaluation, so that both agree by construction). -/
def litCmp (op : CmpOp) (a b : PyScalar) : Bool :=
  match op with
  | .eq => litEq a b
  | .ne => !litEq a b
  | .lt => (litLt a b).getD false
  | .le => (litLt b a).map (fun r => !r) |>.getD false
  | .gt => (litLt b a).getD false
  | .ge => (litLt a b).map (fun r => !r) |>.getD false

/-- Semantics of a comparison atom on a decoded value, modelled from
the spec: `== null` and `!= null` test presence of a value; every
other comparison with a null operand selects nothing. -/
def evalCmpNull (op : CmpOp) (v : PyValue) (lit : PyScalar) : Bool :=
  if lit = .none then
    match op with
    | .eq => v == .scalar .none
    | .ne => !(v == .scalar .none)
    | _ => false
  else
    match v with
    | .scalar .none => false
    | .scalar s => litCmp op s lit
    | .list _ => false

/-- SQL LIKE/ILIKE matching (backtracking on the percent wildcard);
each step shortens pattern plus input, so their combined length is
enough fuel. -/
def likeMatchFuel : Nat → List Char → List Char → Bool
  | 0, _, _ => false
  | fuel + 1, pat, s =>
    match pat with
    | [] => s.isEmpty
    | c :: p =>
      if c = '%' then
        likeMatchFuel fuel p s ||
          (match s with
           | [] => false
           | _ :: s2 => likeMatchFuel fuel ('%' :: p) s2)
      else if c = '_' then
        match s with
        | [] => false
        | _ :: s2 => likeMatchFuel fuel p s2
      else
        match s with
        | [] => false
        | c2 :: s2 => c == c2 && likeMatchFuel fuel p s2

/-- LIKE matching on strings. -/
def likeMatch (pat s : String) : Bool :=
  likeMatchFuel (pat.toList.length + s.toList.length + 1) pat.toList s.toList

/-- ASCII lowercasing for ILIKE. -/
def toLowerStr (s : String) : String := ⟨s.toList.map Char.toLower⟩

/-- Semantics of LIKE/ILIKE on a decoded value (text values only; the
case_sensitive_like pragma of database.py makes LIKE case
sensitive). -/
def likeSem (ins : Bool) (pat : String) (v : PyValue) : Bool :=
  match v with
  | .scalar (.str s) =>
    if ins then likeMatch (toLowerStr pat) (toLowerStr s) else likeMatch pat s
  | _ => false

/-- Semantics of `field IN [literals]` on a decoded value. -/
def inListSem (v : PyValue) (lits : List PyScalar) : Bool :=
  match v with
  | .scalar .none => false
  | .scalar s => lits.any fun l => !(l == .none) && litEq s l
  | .list _ => false

/-- Semantics of `literal IN field` on a decoded list value (Python
membership, where None is a member of a list containing None). -/
def inFieldSem (l : PyScalar) (v : PyValue) : Bool :=
  match v with
  | .list xs => xs.any fun x => litEq x l
  | _ => false

/-- The naive evaluation of the full AST on a decoded document, with
no push-down (a reference to a field absent from the document selects
nothing). -/
def evalAst (a : FilterAst) (doc : String → Option PyValue) : Bool :=
  match a with
  | .allDocs => true
  | .cmp op f l =>
    match doc f with
    | some v => evalCmpNull op v l
    | Option.none => false
  | .inList f ls =>
    match doc f with
    | some v => inListSem v ls
    | Option.none => false
  | .inField l f =>
    match doc f with
    | some v => inFieldSem l v
    | Option.none => false
  | .like f p ins =>
    match doc f with
    | some v => likeSem ins p v
    | Option.none => false
  | .notE a => !evalAst a doc
  | .andE a b => evalAst a doc && evalAst b doc
  | .orE a b => evalAst a doc || evalAst b doc

/-- The push-down predicate language (the SQL WHERE fragment the
compiler emits). -/
inductive SqlPred where
  | tru
  | fls
  | isNull (col : String)
  | isNotNull (col : String)
  | cmp (op : CmpOp) (col : String) (lit : PyScalar)
  | inList (col : String) (lits : List PyScalar)
  | like (col : String) (pattern : String) (insensitive : Bool)
  | andP (a b : SqlPred)
  | orP (a b : SqlPred)
deriving DecidableEq, Repr

/-- SQL three-valued truth. -/
inductive Tri where
  | t
  | f
  | u
deriving DecidableEq, Repr

/-- SQL AND. -/
def triAnd : Tri → Tri → Tri
  | .t, x => x
  | .f, _ => .f
  | .u, .t => .u
  | .u, .f => .f
  | .u, .u => .u

/-- SQL OR. -/
def triOr : Tri → Tri → Tri
  | .t, _ => .t
  | .f, x => x
  | .u, .t => .t
  | .u, .f => .u
  | .u, .u => .u

/-- Model of the backend's evaluation of the push-down predicate on a
raw row, with SQL three-valued logic for NULL operands (a WHERE
clause keeps the rows on which the predicate is true). -/
def sqlEval (p : SqlPred) (row : RowData) : Tri :=
  match p with
  | .tru => .t
  | .fls => .f
  | .isNull c => if rowGet row c = .none then .t else .f
  | .isNotNull c => if rowGet row c = .none then .f else .t
  | .cmp op c l =>
    if rowGet row c = .none then .u
    else if litCmp op (rowGet row c) l then .t else .f
  | .inList c ls =>
    if rowGet row c = .none then .u
    else if ls.any (fun l => !(l == .none) && litEq (rowGet row c) l) then .t
    else if ls.any (fun l => l == .none) then .u
    else .f
  | .like c pat ins =>
    match rowGet row c with
    | .none => .u
    | .str s =>
      if (if ins then likeMatch (toLowerStr pat) (toLowerStr s) else likeMatch pat s)
      then .t else .f
    | _ => .f
  | .andP a b => triAnd (sqlEval a row) (sqlEval b row)
  | .orP a b => triOr (sqlEval a row) (sqlEval b row)

/-- The fields referenced by an AST. -/
def astFields : FilterAst → List String
  | .allDocs => []
  | .cmp _ f _ => [f]
  | .inList f _ => [f]
  | .inField _ f => [f]
  | .like f _ _ => [f]
  | .notE a => astFields a
  | .andE a b => astFields a ++ astFields b
  | .orE a b => astFields a ++ astFields b

/-- Whether a field is scalar-typed (push-down is possible only on
scalar columns, since the backend cannot interpret an encoded
list). -/
def fieldIsScalar (st : DBState) (collection f : String) : Bool :=
  match get_field st collection f with
  | some frow => !(decide (frow.ftype ∈ LIST_TYPES))
  | Option.none => false

/-- The sub-ASTs the compiler can push down entirely. -/
def pushable (st : DBState) (collection : String) : FilterAst → Bool
  | .allDocs => true
  | .cmp _ f _ => fieldIsScalar st collection f
  | .inList f _ => fieldIsScalar st collection f
  | .inField _ _ => false
  | .like f _ _ => fieldIsScalar st collection f
  | .notE _ => false
  | .andE a b => pushable st collection a && pushable st collection b
  | .orE a b => pushable st collection a && pushable st collection b

/-- Translation of a pushable sub-AST to the SQL fragment. -/
def toSql (st : DBState) (collection : String) : FilterAst → SqlPred
  | .allDocs => .tru
  | .cmp op f l =>
    if l = .none then
      match op with
      | .eq => .isNull ((field_name_to_column_name st collection f).getD f)
      | .ne => .isNotNull ((field_name_to_column_name st collection f).getD f)
      | _ => .fls
    else .cmp op ((field_name_to_column_name st collection f).getD f) l
  | .inList f ls => .inList ((field_name_to_column_name st collection f).getD f) ls
  | .like f p ins => .like ((field_name_to_column_name st collection f).getD f) p ins
  | .inField _ _ => .fls
  | .notE _ => .fls
  | .andE a b => .andP (toSql st collection a) (toSql st collection b)
  | .orE a b => .orP (toSql st collection a) (toSql st collection b)

/-- The top-level conjuncts of an AST. -/
def toConj : FilterAst → List FilterAst
  | .andE a b => toConj a ++ toConj b
  | .allDocs => [.allDocs]
  | .cmp op f l => [.cmp op f l]
  | .inList f ls => [.inList f ls]
  | .inField l f => [.inField l f]
  | .like f p ins => [.like f p ins]
  | .notE a => [.notE a]
  | .orE a b => [.orE a b]

/-- Conjunction of a list of ASTs. -/
def bigAnd : List FilterAst → FilterAst
  | [] => .allDocs
  | [x] => x
  | x :: y :: r => .andE x (bigAnd (y :: r))

/-- The compiled form of a filter, mirroring the values
filter_documents dispatches on: None, a Python function, a (SQL
condition, Python function) pair, or a SQL condition. -/
inductive FilterQuery where
  | noneQ
  | pyOnly (resid : FilterAst)
  | both (sql : SqlPred) (resid : FilterAst)
  | sqlOnly (sql : SqlPred)
deriving DecidableEq, Repr

/-- Modelled from the spec: Database.filter_query =
FilterToQuery.transform of the parsed filter.  A filter referencing
an unknown field is a compile-time error; the top-level conjunction
splits into its pushable conjuncts (emitted as SQL) and the residual
conjuncts (evaluated in process on decoded documents); ALL compiles
to None. -/
def filter_query (st : DBState) (collection : String) (ast : FilterAst) :
    Except String FilterQuery :=
  if ¬((astFields ast).all fun f => (get_field st collection f).isSome) then
    Except.error "a filter referenced an unknown field"
  else if ast = .allDocs then Except.ok .noneQ
  else
    match (toConj ast).filter (pushable st collection),
        (toConj ast).filter (fun c => !(pushable st collection c)) with
    | [], [] => Except.ok .noneQ
    | ps, [] => Except.ok (.sqlOnly (toSql st collection (bigAnd ps)))
    | [], rs => Except.ok (.pyOnly (bigAnd rs))
    | ps, rs => Except.ok (.both (toSql st collection (bigAnd ps)) (bigAnd rs))

/-- Decode the listed fields of a row (the decoded, field-addressable
document view). -/
def decodeFields (pk : String) (row : RowData) :
    List FieldRec → Except String (List (String × PyValue))
  | [] => Except.ok []
  | fr :: rest =>
    match column_to_python fr.ftype (rowGet row (fieldToColumn pk fr.name)) with
    | Option.none => Except.error "decode raised"
    | some v =>
      match decodeFields pk row rest with
      | Except.error e => Except.error e
      | Except.ok tail => Except.ok ((fr.name, v) :: tail)

/-- The fully decoded document of a row: every field of the
collection decoded by its declared type. -/
def decodeDoc (st : DBState) (collection : String) (row : RowData) :
    Except String (List (String × PyValue)) :=
  match get_collection st collection with
  | Option.none => Except.error "the collection does not exist"
  | some crow => decodeFields crow.primary_key row (get_fields st collection)

/-- Field lookup in a decoded document. -/
def docLookup (doc : List (String × PyValue)) (f : String) : Option PyValue :=
  List.lookup f doc

/-- The backend's row selection for a WHERE clause. -/
def rowsFilterSql (sql : SqlPred) (rows : List RowData) : List RowData :=
  rows.filter fun r => sqlEval sql r == Tri.t

/-- Row-by-row application of the residual predicate on decoded
documents (a decode failure raises out of the iteration). -/
def rowsFilterResid (st : DBState) (collection : String) (resid : FilterAst) :
    List RowData → Except String (List RowData)
  | [] => Except.ok []
  | r :: rest =>
    match decodeDoc st collection r with
    | Except.error e => Except.error e
    | Except.ok doc =>
      match rowsFilterResid st collection resid rest with
      | Except.error e => Except.error e
      | Except.ok tail =>
        Except.ok (if evalAst resid (docLookup doc) then r :: tail else tail)

/-- Model of Database.filter_documents given a compiled query: the
dispatch of the source on the four query forms, a backend select with
the push-down condition, and the residual python_filter applied to
each yielded row. -/
def filter_documents (st : DBState) (collection : String) (q : FilterQuery) :
    Except String (List RowData) :=
  match List.lookup collection st.tables with
  | Option.none => Except.error "no such table"
  | some t =>
    match q with
    | .noneQ => Except.ok t.rows
    | .pyOnly resid => rowsFilterResid st collection resid t.rows
    | .both sql resid => rowsFilterResid st collection resid (rowsFilterSql sql t.rows)
    | .sqlOnly sql => Except.ok (rowsFilterSql sql t.rows)

/-- The naive reference evaluation: the full AST evaluated directly
against every decoded document of the collection, with no push-down
at all. -/
def naive_filter (st : DBState) (collection : String) (ast : FilterAst) :
    Except String (List RowData) :=
  match List.lookup collection st.tables with
  | Option.none => Except.error "no such table"
  | some t => rowsFilterResid st collection ast t.rows

/-- A Python generator over document rows, as filter_documents
returns one: the items not yet yielded. -/
structure PyGen where
  items : List RowData
deriving Repr

/-- Yield the pending items one by one. -/
def consumeList : List RowData → List RowData × PyGen
  | [] => ([], ⟨[]⟩)
  | x :: r =>
    let p := consumeList r
    (x :: p.1, p.2)

/-- Iterating a generator to exhaustion: the yielded items, and the
generator left in its exhausted state. -/
def consumeAll (g : PyGen) : List RowData × PyGen := consumeList g.items

/-- Model of calling filter_documents: a fresh generator over the
selected rows. -/
def filter_documents_gen (st : DBState) (collection : String) (q : FilterQuery) :
    Except String PyGen :=
  (filter_documents st collection q).map PyGen.mk

/-! ## Shared lemmas about the state model -/

theorem aset_lookup_self {α : Type} (k : String) (v : α) (l : List (String × α)) :
    List.lookup k (aset k v l) = some v := by
  induction l with
  | nil => simp [aset, List.lookup]
  | cons p r ih =>
    obtain ⟨k2, v2⟩ := p
    by_cases h : k2 = k
    · subst h
      simp [aset, List.lookup]
    · have hb : (k == k2) = false := beq_eq_false_iff_ne.2 (Ne.symm h)
      simp [aset, h, List.lookup, hb, ih]

theorem aset_lookup_other {α : Type} (k k2 : String) (hne : k2 ≠ k) (v : α)
    (l : List (String × α)) : List.lookup k2 (aset k v l) = List.lookup k2 l := by
  have hb : (k2 == k) = false := beq_eq_false_iff_ne.2 hne
  induction l with
  | nil => simp [aset, List.lookup, hb]
  | cons p r ih =>
    obtain ⟨k3, v3⟩ := p
    by_cases h : k3 = k
    · subst h
      simp [aset, List.lookup, hb]
    · cases hb2 : (k2 == k3) <;> simp [aset, h, List.lookup, hb2, ih]

theorem lookup_map_clear {α β : Type} (f : β) (l : List (String × α)) (k : String) :
    List.lookup k (l.map fun p => (p.1, f)) = (List.lookup k l).map fun _ => f := by
  induction l with
  | nil => rfl
  | cons p r ih =>
    obtain ⟨k2, v2⟩ := p
    cases hb : (k == k2) <;> simp [List.lookup, hb, ih]

/-- Claim C9 (amended): check_type_value rejects a boolean for the
integer and float types (type() equality in the source distinguishes
bool from int), and set_value and new_value raise a validation error
on such a value; add_document, however, performs no type validation. -/
theorem C9_bool_rejected_for_numeric :
    (∀ b : Bool,
      check_type_value (.scalar (.bool b)) FIELD_TYPE_INTEGER = false ∧
      check_type_value (.scalar (.bool b)) FIELD_TYPE_FLOAT = false) ∧
    (∀ (st : DBState) (collection document field : String) (b : Bool) (crow : CollRec)
        (frow : FieldRec),
      get_collection st collection = some crow →
      get_field st collection field = some frow →
      (get_document_nc st collection document).isSome →
      (frow.ftype = FIELD_TYPE_INTEGER ∨ frow.ftype = FIELD_TYPE_FLOAT) →
      set_value st collection document field (.scalar (.bool b)) =
          Except.error "The value is invalid" ∧
        new_value st collection document field (.scalar (.bool b)) =
          Except.error "The value is invalid") := by
  constructor
  · intro b
    cases b <;> exact ⟨rfl, rfl⟩
  · intro st collection document field b crow frow hc hf hd hty
    obtain ⟨row, hrow⟩ := Option.isSome_iff_exists.mp hd
    have hchk : check_type_value (.scalar (.bool b)) frow.ftype = false := by
      rcases hty with h | h <;> rw [h] <;> cases b <;> rfl
    constructor
    · unfold set_value
      rw [hc, hf, hrow]
      simp [hchk]
    · unfold new_value
      rw [hc, hf, hrow]
      simp [hchk]

/-- Claim C9, the boolean stored by add_document: an integer field
accepts no boolean per check_type_value, yet add_document stores one
(and get_value returns it), refuting the claim that add_document
raises a validation error here. -/
theorem C9_add_document_stores_bool :
    (add_collection ⟨[], [], [], none⟩ "c" "name" >>= fun s1 =>
     add_field s1 "c" "i" FIELD_TYPE_INTEGER none >>= fun s2 =>
     add_document s2 "c"
       (.dict [("name", .scalar (.str "d")), ("i", .scalar (.bool true))]) >>= fun s3 =>
     get_value s3 "c" "d" "i") = Except.ok (.scalar (.bool true)) ∧
    check_type_value (.scalar (.bool true)) FIELD_TYPE_INTEGER = false := by
  exact ⟨by rfl, by rfl⟩

/-- The scalar typing rule in the words of the spec: the runtime type
must match the declared scalar type exactly, except that an int is
acceptable for a float field; None is valid for every field. -/
def scalarRuleSpec (x : PyScalar) (t : String) : Prop :=
  match x with
  | .none => True
  | .int _ => t = FIELD_TYPE_INTEGER ∨ t = FIELD_TYPE_FLOAT
  | .float _ => t = FIELD_TYPE_FLOAT
  | .bool _ => t = FIELD_TYPE_BOOLEAN
  | .str _ => t = FIELD_TYPE_STRING
  | .date _ => t = FIELD_TYPE_DATE
  | .time _ => t = FIELD_TYPE_TIME
  | .datetime _ => t = FIELD_TYPE_DATETIME

/-- The scalar type of each list type, in the words of the spec. -/
def elemTypeSpec (t : String) : String :=
  if t = FIELD_TYPE_LIST_STRING then FIELD_TYPE_STRING
  else if t = FIELD_TYPE_LIST_INTEGER then FIELD_TYPE_INTEGER
  else if t = FIELD_TYPE_LIST_FLOAT then FIELD_TYPE_FLOAT
  else if t = FIELD_TYPE_LIST_BOOLEAN then FIELD_TYPE_BOOLEAN
  else if t = FIELD_TYPE_LIST_DATE then FIELD_TYPE_DATE
  else if t = FIELD_TYPE_LIST_DATETIME then FIELD_TYPE_DATETIME
  else if t = FIELD_TYPE_LIST_TIME then FIELD_TYPE_TIME
  else t

/-- The full validation rule in the words of the spec. -/
def checkSpecValue (v : PyValue) (t : String) : Prop :=
  match v with
  | .scalar s => scalarRuleSpec s t
  | .list xs => t ∈ LIST_TYPES ∧ ∀ x ∈ xs, scalarRuleSpec x (elemTypeSpec t)

theorem check_scalar_iff (s : PyScalar) (t : String) :
    check_scalar s t = true ↔ scalarRuleSpec s t := by
  cases s <;> simp [check_scalar, scalarRuleSpec, pyTypeOf]

/-- Claim C5 (amended): check_type_value accepts a value exactly when
the spec's rule does (None always; exact scalar type with the
int-for-float exception; a list type with every element satisfying
the corresponding scalar rule), and set_value and new_value reject a
failing value with a validation error.  add_document performs no such
validation. -/
theorem C5_type_validation :
    (∀ (v : PyValue) (t : String), t ∈ ALL_TYPES →
      (check_type_value v t = true ↔ checkSpecValue v t)) ∧
    (∀ (st : DBState) (collection document field : String) (v : PyValue)
        (crow : CollRec) (frow : FieldRec),
      get_collection st collection = some crow →
      get_field st collection field = some frow →
      (get_document_nc st collection document).isSome →
      check_type_value v frow.ftype = false →
      set_value st collection document field v = Except.error "The value is invalid" ∧
        new_value st collection document field v = Except.error "The value is invalid") := by
  constructor
  · intro v t ht
    cases v with
    | scalar s => exact check_scalar_iff s t
    | list xs =>
      by_cases hl : t ∈ LIST_TYPES
      · have hrep : pyReplace t "list_" "" = elemTypeSpec t := by
          simp only [LIST_TYPES, List.mem_cons, List.not_mem_nil, or_false] at hl
          rcases hl with rfl | rfl | rfl | rfl | rfl | rfl | rfl <;> decide
        simp only [check_type_value, if_pos hl, checkSpecValue, hrep, List.all_eq_true]
        constructor
        · intro h
          exact ⟨hl, fun x hx => (check_scalar_iff x _).1 (h x hx)⟩
        · intro h x hx
          exact (check_scalar_iff x _).2 (h.2 x hx)
      · simp only [check_type_value, if_neg hl, checkSpecValue]
        constructor
        · intro h
          exact absurd h (by simp)
        · intro h
          exact absurd h.1 hl
  · intro st collection document field v crow frow hc hf hd hchk
    obtain ⟨row, hrow⟩ := Option.isSome_iff_exists.mp hd
    constructor
    · unfold set_value
      rw [hc, hf, hrow]
      simp [hchk]
    · unfold new_value
      rw [hc, hf, hrow]
      simp [hchk]

/-- Claim C5, the missing validation in add_document: a string value
stored into an integer field through add_document succeeds (and
get_value returns the raw string), although check_type_value rejects
it. -/
theorem C5_add_document_no_validation :
    (add_collection ⟨[], [], [], none⟩ "c" "name" >>= fun s1 =>
     add_field s1 "c" "i" FIELD_TYPE_INTEGER none >>= fun s2 =>
     add_document s2 "c"
       (.dict [("name", .scalar (.str "d")), ("i", .scalar (.str "oops"))]) >>= fun s3 =>
     get_value s3 "c" "d" "i") = Except.ok (.scalar (.str "oops")) ∧
    check_type_value (.scalar (.str "oops")) FIELD_TYPE_INTEGER = false := by
  exact ⟨by rfl, by rfl⟩

/-- Claim C6: the pure lookups degrade to None/empty on unknown
names: get_collection yields None for an unknown collection,
get_field for an unknown field or collection, get_fields and
get_fields_names yield the empty list for an unknown collection, and
get_value yields None when the collection, the field or the document
is unknown. -/
theorem C6_unknown_lookups (st : DBState) (collection document field name : String) :
    ((∀ c ∈ st.collections, ¬(c.name = name)) → get_collection st name = none) ∧
    ((∀ f ∈ st.fields, ¬(f.name = field ∧ f.collection = collection)) →
      get_field st collection field = none) ∧
    ((∀ f ∈ st.fields, ¬(f.collection = collection)) →
      get_fields st collection = [] ∧ get_fields_names st collection = []) ∧
    (get_collection st collection = none →
      get_value st collection document field = Except.ok (.scalar .none)) ∧
    (get_field st collection field = none →
      get_value st collection document field = Except.ok (.scalar .none)) ∧
    (get_document_nc st collection document = none →
      get_value st collection document field = Except.ok (.scalar .none)) := by
  refine ⟨?_, ?_, ?_, ?_, ?_, ?_⟩
  · intro h
    unfold get_collection
    rw [List.find?_eq_none]
    intro c hc
    simp [h c hc]
  · intro h
    unfold get_field
    rw [List.find?_eq_none]
    intro f hf
    have := h f hf
    simp only [Bool.and_eq_true, beq_iff_eq]
    intro hcontra
    exact this ⟨hcontra.1, hcontra.2⟩
  · intro h
    constructor
    · unfold get_fields
      rw [List.filter_eq_nil]
      intro f hf
      simp [h f hf]
    · unfold get_fields_names
      rw [show st.fields.filter (fun f => f.collection == collection) = [] by
        rw [List.filter_eq_nil]
        intro f hf
        simp [h f hf]]
      rfl
  · intro h
    unfold get_value
    rw [h]
  · intro h
    unfold get_value
    cases hgc : get_collection st collection with
    | none => rfl
    | some crow => rw [h]
  · intro h
    unfold get_value
    cases hgc : get_collection st collection with
    | none => rfl
    | some crow =>
      cases hgf : get_field st collection field with
      | none => rfl
      | some frow => rw [h]

/-- Witness for C6 on a concrete empty store. -/
theorem C6_unknown_lookups_witness :
    get_collection ⟨[], [], [], none⟩ "x" = none ∧
    get_value ⟨[], [], [], none⟩ "x" "d" "f" = Except.ok (.scalar .none) := by
  refine ⟨?_, ?_⟩
  · exact (C6_unknown_lookups ⟨[], [], [], none⟩ "x" "d" "f" "x").1 (by simp)
  · exact (C6_unknown_lookups ⟨[], [], [], none⟩ "x" "d" "f" "x").2.2.2.1 (by rfl)

theorem get_document_fresh (st : DBState) (c : CacheState) (hc : st.caches = some c)
    (hempty : ∀ k m, List.lookup k c.documents = some m → m = []) :
    ∀ coll doc, (get_document st coll doc).1 = get_document_nc st coll doc := by
  intro coll doc
  unfold get_document
  rw [hc]
  cases hm : List.lookup coll c.documents with
  | none =>
    cases hgc : get_collection st coll with
    | none => simp [hm, hgc, get_document_nc]
    | some crow => simp [hm, hgc]
  | some m =>
    rw [hempty coll m hm] at hm
    cases hgc : get_collection st coll with
    | none => simp [hm, hgc, get_document_nc, List.lookup]
    | some crow => simp [hm, hgc, List.lookup]

/-- Claim C10: a successful add_field or remove_field with caches on
empties the cached document views of every collection (the source
loops over every key of the documents cache), so a subsequent
get_document always re-queries instead of returning a view cached
before the schema change. -/
theorem C10_schema_change_clears_document_caches
    (st : DBState) (collection name field_type : String) (description : Option String)
    (st' : DBState) (c' : CacheState)
    (h : add_field st collection name field_type description = Except.ok st' ∨
         remove_field st collection name = Except.ok st')
    (hc : st'.caches = some c') :
    (∀ k m, List.lookup k c'.documents = some m → m = []) ∧
    (∀ coll2 doc2, (get_document st' coll2 doc2).1 = get_document_nc st' coll2 doc2) := by
  have hemp : ∀ k m, List.lookup k c'.documents = some m → m = [] := by
    rcases h with h | h
    · simp only [add_field] at h
      split at h
      · simp at h
      · split at h
        · simp at h
        · split at h
          · simp at h
          · split at h
            · next hnone =>
              obtain rfl : _ = st' := by simpa using h
              rw [hnone] at hc
              simp at hc
            · next c0 hsome =>
              split at h
              · simp at h
              · next m0 hm0 =>
                obtain rfl : _ = st' := by simpa using h
                simp only at hc
                obtain rfl : _ = c' := by simpa using hc
                intro k m hkm
                simp only at hkm
                rw [lookup_map_clear] at hkm
                cases hl : List.lookup k c0.documents with
                | none => rw [hl] at hkm; simp at hkm
                | some m2 =>
                  rw [hl] at hkm
                  simp at hkm
                  exact hkm
    · simp only [remove_field] at h
      split at h
      · simp at h
      · split at h
        · simp at h
        · split at h
          · simp at h
          · split at h
            · simp at h
            · split at h
              · simp at h
              · split at h
                · simp at h
                · split at h
                  · next hnone =>
                    split at h
                    · obtain rfl : _ = st' := by simpa using h
                      rw [hnone] at hc
                      simp at hc
                    · simp at h
                  · next c0 hsome =>
                    split at h
                    · simp at h
                    · next m0 hm0 =>
                      split at h
                      · obtain rfl : _ = st' := by simpa using h
                        simp only at hc
                        obtain rfl : _ = c' := by simpa using hc
                        intro k m hkm
                        simp only at hkm
                        rw [lookup_map_clear] at hkm
                        cases hl : List.lookup k c0.documents with
                        | none => rw [hl] at hkm; simp at hkm
                        | some m2 =>
                          rw [hl] at hkm
                          simp at hkm
                          exact hkm
                      · simp at h
  exact ⟨hemp, get_document_fresh st' c' hc hemp⟩

/-- Witness state for C10: a cached store with one collection. -/
def c10s1 : DBState :=
  (add_collection ⟨[], [], [], some ⟨[], [], [], []⟩⟩ "c" "name").toOption.getD
    ⟨[], [], [], none⟩

/-- Witness state for C10 after a schema change. -/
def c10s2 : DBState :=
  (add_field c10s1 "c" "f" FIELD_TYPE_STRING none).toOption.getD ⟨[], [], [], none⟩

/-- Witness cache for C10. -/
def c10cache : CacheState := c10s2.caches.getD ⟨[], [], [], []⟩

/-- Witness for C10 on a concrete cached store. -/
theorem C10_schema_change_clears_document_caches_witness :
    List.lookup "c" c10cache.documents = some [] ∧
    (get_document c10s2 "c" "d").1 = get_document_nc c10s2 "c" "d" := by
  have happ := C10_schema_change_clears_document_caches c10s1 "c" "f" FIELD_TYPE_STRING none
    c10s2 c10cache (Or.inl (by rfl)) (by rfl)
  exact ⟨by rfl, happ.2 "c" "d"⟩

theorem consumeAll_spec (rows : List RowData) : consumeAll ⟨rows⟩ = (rows, ⟨[]⟩) := by
  unfold consumeAll
  induction rows with
  | nil => rfl
  | cons r rest ih => simp [consumeList, ih]

/-- Claim C8 (amended): each call of filter_documents returns a fresh
generator that yields exactly the selected rows once; after
exhaustion, iterating the same generator again yields nothing (a
Python generator is one-shot), and only re-invoking filter_documents
restarts the stream. -/
theorem C8_generator_one_shot (st : DBState) (collection : String) (q : FilterQuery)
    (rows : List RowData) (h : filter_documents st collection q = Except.ok rows) :
    filter_documents_gen st collection q = Except.ok ⟨rows⟩ ∧
    consumeAll ⟨rows⟩ = (rows, ⟨[]⟩) ∧
    (consumeAll (consumeAll ⟨rows⟩).2).1 = [] := by
  refine ⟨by simp [filter_documents_gen, h, Except.map], consumeAll_spec rows, ?_⟩
  rw [consumeAll_spec rows]
  rfl

/-- Witness store for C8: one collection holding one document. -/
def c8st : DBState :=
  ((add_collection ⟨[], [], [], none⟩ "c" "name").toOption.getD ⟨[], [], [], none⟩
    |> fun s1 => (add_document s1 "c" (.name "d")).toOption.getD ⟨[], [], [], none⟩)

/-- Witness for C8 on a concrete store with one document. -/
theorem C8_generator_one_shot_witness :
    filter_documents_gen c8st "c" FilterQuery.noneQ =
      Except.ok ⟨[[("name", PyScalar.str "d")]]⟩ ∧
    consumeAll ⟨[[("name", PyScalar.str "d")]]⟩ = ([[("name", PyScalar.str "d")]], ⟨[]⟩) ∧
    (consumeAll (consumeAll (⟨[[("name", PyScalar.str "d")]]⟩ : PyGen)).2).1 = [] :=
  C8_generator_one_shot c8st "c" FilterQuery.noneQ [[("name", PyScalar.str "d")]] (by rfl)

/-- The second consumption of the generator of filter_documents
yields nothing, refuting re-iterability of a single returned stream:
the first pass yields the document, the second pass yields the empty
list. -/
theorem C8_counterexample :
    ((add_collection ⟨[], [], [], none⟩ "c" "name" >>= fun s1 =>
      add_document s1 "c" (.name "d") >>= fun s2 =>
      filter_documents_gen s2 "c" FilterQuery.noneQ).map fun g =>
        ((consumeAll g).1, (consumeAll (consumeAll g).2).1))
    = Except.ok ([[("name", PyScalar.str "d")]], ([] : List RowData)) ∧
    ([[("name", PyScalar.str "d")]] : List RowData) ≠ [] := by
  exact ⟨by rfl, by simp⟩

theorem leBytes_length (k : Nat) : ∀ n, (leBytes k n).length = k := by
  induction k with
  | zero => intro n; rfl
  | succ k ih => intro n; simp [leBytes, ih]

theorem md5hexChars_length (msg : List Nat) : (md5hexChars msg).length = 32 := by
  have hfold : ∀ l : List Nat,
      (l.foldr (fun b acc => hexDigitChar (b / 16) :: hexDigitChar (b % 16) :: acc)
        []).length = 2 * l.length := by
    intro l
    induction l with
    | nil => rfl
    | cons b r ih => simp [List.foldr, ih]; omega
  have h16 : (md5Bytes msg).length = 16 := by
    show (md5Final _).length = 16
    simp [md5Final, leBytes_length]
  unfold md5hexChars
  rw [hfold, h16]

theorem md5hex_length (msg : List Nat) : (md5hex msg).length = 32 :=
  md5hexChars_length msg

/-- Consistency of the names cache: every recorded entry equals the
pure derivation for an existing collection. -/
def NamesCacheConsistent (st : DBState)
    (cache : List (String × List (String × String))) : Prop :=
  ∀ coll m, List.lookup coll cache = some m →
    ∀ f cn, List.lookup f m = some cn →
      ∃ crow, get_collection st coll = some crow ∧ cn = fieldToColumn crow.primary_key f

theorem cached_column_name_correct (st : DBState)
    (cache : List (String × List (String × String))) (coll field : String)
    (h : NamesCacheConsistent st cache) :
    (cached_column_name st cache coll field).1 = field_name_to_column_name st coll field ∧
    NamesCacheConsistent st (cached_column_name st cache coll field).2 := by
  cases hgc : get_collection st coll with
  | none =>
    constructor
    · simp [cached_column_name, field_name_to_column_name, hgc]
    · have h2 : (cached_column_name st cache coll field).2 = cache := by
        simp [cached_column_name, hgc]
      rw [h2]
      exact h
  | some crow =>
    cases hm : List.lookup coll cache with
    | some m =>
      cases hf : List.lookup field m with
      | some cn =>
        obtain ⟨crow2, hc2, hcn⟩ := h coll m hm field cn hf
        rw [hgc] at hc2
        obtain rfl : crow2 = crow := by simpa using hc2.symm
        constructor
        · simp [cached_column_name, field_name_to_column_name, hgc, hm, hf, hcn]
        · have h2 : (cached_column_name st cache coll field).2 = cache := by
            simp [cached_column_name, hgc, hm, hf]
          rw [h2]
          exact h
      | none =>
        constructor
        · simp [cached_column_name, field_name_to_column_name, hgc, hm, hf]
        · have h2 : (cached_column_name st cache coll field).2 =
              aset coll (aset field (fieldToColumn crow.primary_key field) m) cache := by
            simp [cached_column_name, hgc, hm, hf]
          rw [h2]
          intro coll2 m2 hm2 f2 cn2 hf2
          by_cases hcc : coll2 = coll
          · subst hcc
            rw [aset_lookup_self] at hm2
            obtain rfl : aset field (fieldToColumn crow.primary_key field) m = m2 := by
              simpa using hm2
            by_cases hff : f2 = field
            · subst hff
              rw [aset_lookup_self] at hf2
              exact ⟨crow, hgc, by simpa using hf2.symm⟩
            · rw [aset_lookup_other _ _ hff] at hf2
              exact h coll2 m hm f2 cn2 hf2
          · rw [aset_lookup_other _ _ hcc] at hm2
            exact h coll2 m2 hm2 f2 cn2 hf2
    | none =>
      constructor
      · simp [cached_column_name, field_name_to_column_name, hgc, hm]
      · have h2 : (cached_column_name st cache coll field).2 =
            aset coll (aset field (fieldToColumn crow.primary_key field) []) cache := by
          simp [cached_column_name, hgc, hm]
        rw [h2]
        intro coll2 m2 hm2 f2 cn2 hf2
        by_cases hcc : coll2 = coll
        · subst hcc
          rw [aset_lookup_self] at hm2
          obtain rfl : aset field (fieldToColumn crow.primary_key field) [] = m2 := by
            simpa using hm2
          by_cases hff : f2 = field
          · subst hff
            rw [aset_lookup_self] at hf2
            exact ⟨crow, hgc, by simpa using hf2.symm⟩
          · rw [aset_lookup_other _ _ hff] at hf2
            simp [List.lookup] at hf2
        · rw [aset_lookup_other _ _ hcc] at hm2
          exact h coll2 m2 hm2 f2 cn2 hf2

/-- Claim C3 (amended): the column name is a pure function of the
primary key name and the field name (so repeated calls, cached or
not, and fresh processes agree): the field name itself for the
primary key, else its fixed-width (32 hex characters) MD5 digest,
which differs from the primary key column name whenever the digest
differs from the primary key name (a digest colliding with the
primary key name is the residual hash-collision risk); the names
cache is consistent and transparent. -/
theorem C3_column_name (st : DBState) (collection field : String) (crow : CollRec)
    (hc : get_collection st collection = some crow) :
    field_name_to_column_name st collection field =
      some (fieldToColumn crow.primary_key field) ∧
    (field = crow.primary_key → fieldToColumn crow.primary_key field = field) ∧
    (field ≠ crow.primary_key →
      fieldToColumn crow.primary_key field = md5hex (utf8Bytes field) ∧
      (md5hex (utf8Bytes field)).length = 32 ∧
      (md5hex (utf8Bytes field) ≠ crow.primary_key →
        fieldToColumn crow.primary_key field ≠ crow.primary_key)) ∧
    (∀ cache, NamesCacheConsistent st cache →
      (cached_column_name st cache collection field).1 =
        field_name_to_column_name st collection field ∧
      NamesCacheConsistent st (cached_column_name st cache collection field).2) := by
  refine ⟨?_, ?_, ?_, fun cache hcons => cached_column_name_correct st cache collection field hcons⟩
  · unfold field_name_to_column_name
    rw [hc]
  · intro hpk
    simp [fieldToColumn, hpk]
  · intro hpk
    refine ⟨by simp [fieldToColumn, hpk], md5hex_length _, ?_⟩
    intro hne
    simp only [fieldToColumn, if_neg hpk]
    exact hne

/-- Witness for C3 on a concrete collection. -/
theorem C3_column_name_witness :
    field_name_to_column_name c8st "c" "f" = some (md5hex (utf8Bytes "f")) ∧
    (md5hex (utf8Bytes "f")).length = 32 := by
  have happ := C3_column_name c8st "c" "f" ⟨"c", "name"⟩ (by rfl)
  have hne : ("f" : String) ≠ "name" := by decide
  refine ⟨?_, (happ.2.2.1 hne).2.1⟩
  rw [happ.1, (happ.2.2.1 hne).1]

/-- A field whose MD5 digest equals the primary key name receives the
primary key's column name, refuting the unconditional distinctness of
hashed column names from the primary key column name (the digest of
"a" is the chosen primary key name). -/
theorem C3_counterexample :
    ((add_collection ⟨[], [], [], none⟩ "c" "0cc175b9c0f1b6a831c399e269772661" >>=
        fun s1 => pure (field_name_to_column_name s1 "c" "a") :
      Except String (Option String))
      = Except.ok (some "0cc175b9c0f1b6a831c399e269772661")) ∧
    ("a" : String) ≠ "0cc175b9c0f1b6a831c399e269772661" := by
  exact ⟨by rfl, by decide⟩

/-- Claim C2 (amended): for every field type and well-typed,
structurally valid value, decoding the encoded value restores it
exactly — column_to_python (t, python_to_column (t, v)) = v —
including list-of-date/time/datetime through the ISO-8601 element
conversion, provided no element of a date/time/datetime list is None
(the isoformat converter raises on None, so such values cannot be
encoded at all). -/
theorem C2_codec_roundtrip (t : String) (ht : t ∈ ALL_TYPES) (v : PyValue)
    (hchk : check_type_value v t = true) (hvalid : ValidPyValue v)
    (henc : EncodableValue t v) :
    (python_to_column t v).bind (column_to_python t) = some v :=
  codec_roundtrip t ht v hchk hvalid henc

/-- Witness for C2 on a concrete list of dates. -/
theorem C2_codec_roundtrip_witness :
    check_type_value (.list [.date ⟨2018, 5, 23⟩, .date ⟨1899, 12, 31⟩])
        FIELD_TYPE_LIST_DATE = true ∧
    (python_to_column FIELD_TYPE_LIST_DATE
        (.list [.date ⟨2018, 5, 23⟩, .date ⟨1899, 12, 31⟩])).bind
      (column_to_python FIELD_TYPE_LIST_DATE) =
      some (.list [.date ⟨2018, 5, 23⟩, .date ⟨1899, 12, 31⟩]) := by
  refine ⟨by decide, ?_⟩
  exact C2_codec_roundtrip FIELD_TYPE_LIST_DATE (by decide) _ (by decide) (by decide)
    (by decide)

/-- A list-of-date value whose element is None passes
check_type_value, yet encoding it raises (None has no isoformat), so
the round trip fails on this well-typed value as the claim is
stated. -/
theorem C2_counterexample :
    check_type_value (.list [.none]) FIELD_TYPE_LIST_DATE = true ∧
    python_to_column FIELD_TYPE_LIST_DATE (.list [.none]) = none ∧
    (python_to_column FIELD_TYPE_LIST_DATE (.list [.none])).bind
        (column_to_python FIELD_TYPE_LIST_DATE) ≠ some (.list [.none]) := by
  exact ⟨by decide, by rfl, by decide⟩

/-! ## Lemmas for the single-value write path -/

theorem rowGet_aset_self (r : RowData) (c : String) (v : PyScalar) :
    rowGet (aset c v r) c = v := by
  unfold rowGet
  rw [aset_lookup_self]
  rfl

theorem rowGet_aset_other (r : RowData) (c c2 : String) (v : PyScalar) (h : c2 ≠ c) :
    rowGet (aset c v r) c2 = rowGet r c2 := by
  unfold rowGet
  rw [aset_lookup_other c c2 h]

theorem lookup_map_ite {α : Type} (coll : String) (g : α → α) (l : List (String × α)) :
    List.lookup coll (l.map fun p => if p.1 = coll then (p.1, g p.2) else p) =
      (List.lookup coll l).map g := by
  induction l with
  | nil => rfl
  | cons p r ih =>
    obtain ⟨k, v⟩ := p
    simp only [List.map_cons]
    by_cases h : k = coll
    · subst h
      rw [if_pos rfl]
      simp [List.lookup, ih]
    · rw [if_neg h]
      have hb : (coll == k) = false := beq_eq_false_iff_ne.2 (Ne.symm h)
      simp [List.lookup, hb, ih]

theorem lookup_map_ite_other {α : Type} (coll k : String) (g : α → α)
    (l : List (String × α)) (hne : k ≠ coll) :
    List.lookup k (l.map fun p => if p.1 = coll then (p.1, g p.2) else p) =
      List.lookup k l := by
  induction l with
  | nil => rfl
  | cons p r ih =>
    obtain ⟨k2, v⟩ := p
    simp only [List.map_cons]
    by_cases h : k2 = coll
    · subst h
      have hb : (k == k2) = false := beq_eq_false_iff_ne.2 hne
      rw [if_pos rfl]
      simp [List.lookup, hb, ih]
    · rw [if_neg h]
      cases hb : (k == k2) <;> simp [List.lookup, hb, ih]

theorem find?_cons_pos {α : Type} (p : α → Bool) (a : α) (l : List α)
    (h : p a = true) : (a :: l).find? p = some a := by
  simp [List.find?, h]

theorem find?_cons_neg {α : Type} (p : α → Bool) (a : α) (l : List α)
    (h : p a = false) : (a :: l).find? p = l.find? p := by
  simp [List.find?, h]

theorem find?_map_update (pk doc colname : String) (enc : PyScalar)
    (rows : List RowData) (hne : colname ≠ pk) (row : RowData)
    (hfind : rows.find? (fun r => rowGet r pk == PyScalar.str doc) = some row) :
    (rows.map fun r =>
        if rowGet r pk == PyScalar.str doc then aset colname enc r else r).find?
      (fun r => rowGet r pk == PyScalar.str doc) = some (aset colname enc row) := by
  induction rows with
  | nil => simp at hfind
  | cons r rest ih =>
    cases hpred : (rowGet r pk == PyScalar.str doc) with
    | true =>
      rw [find?_cons_pos (fun x => rowGet x pk == PyScalar.str doc) r rest hpred] at hfind
      obtain rfl : r = row := by simpa using hfind
      have hpred2 : (rowGet (aset colname enc r) pk == PyScalar.str doc) = true := by
        rw [rowGet_aset_other r colname pk enc (Ne.symm hne)]
        exact hpred
      have hmap : ((r :: rest).map fun x =>
          if rowGet x pk == PyScalar.str doc then aset colname enc x else x) =
          aset colname enc r ::
            (rest.map fun x =>
              if rowGet x pk == PyScalar.str doc then aset colname enc x else x) := by
        simp only [List.map_cons]
        rw [if_pos hpred]
      rw [hmap]
      exact find?_cons_pos (fun x => rowGet x pk == PyScalar.str doc) _ _ hpred2
    | false =>
      rw [find?_cons_neg (fun x => rowGet x pk == PyScalar.str doc) r rest hpred] at hfind
      have hmap : ((r :: rest).map fun x =>
          if rowGet x pk == PyScalar.str doc then aset colname enc x else x) =
          r :: (rest.map fun x =>
              if rowGet x pk == PyScalar.str doc then aset colname enc x else x) := by
        simp only [List.map_cons]
        rw [if_neg (by simp [hpred])]
      rw [hmap]
      rw [find?_cons_neg (fun x => rowGet x pk == PyScalar.str doc) r _ hpred]
      exact ih hfind

theorem column_to_python_none (t : String) :
    column_to_python t .none = some (.scalar .none) := by
  unfold column_to_python column_to_list
  split <;> rfl

theorem ne_of_string_length {s t : String} (h : s.length ≠ t.length) : s ≠ t :=
  fun he => h (by rw [he])

/-- Claim C7 (amended): new_value raises the source's validation
errors when the collection, field or document is unknown, when the
value fails the declared-type check, and when the read-back of the
field's column finds a value already present; when the stored value
is absent, the field's column (the MD5 hash of a non-primary-key
field name) is a genuine column of the table, the field name itself
is neither a column nor one of the FieldRow instance-attribute names
database/collection/row — so the read is not aliased or shadowed — a
successful call stores the value and get_value returns it, for every
structurally valid, encodable value. -/
theorem C7_new_value (st : DBState) (collection document field : String)
    (value : PyValue) :
    (get_collection st collection = none →
      new_value st collection document field value =
        Except.error "The collection does not exist") ∧
    (∀ crow, get_collection st collection = some crow →
      get_field st collection field = none →
      new_value st collection document field value =
        Except.error "The field does not exist in the collection") ∧
    (∀ crow frow, get_collection st collection = some crow →
      get_field st collection field = some frow →
      get_document_nc st collection document = none →
      new_value st collection document field value =
        Except.error "The document does not exist in the collection") ∧
    (∀ crow frow row, get_collection st collection = some crow →
      get_field st collection field = some frow →
      get_document_nc st collection document = some row →
      check_type_value value frow.ftype = false →
      new_value st collection document field value =
        Except.error "The value is invalid") ∧
    (∀ crow frow row tdata, get_collection st collection = some crow →
      get_field st collection field = some frow →
      get_document_nc st collection document = some row →
      List.lookup collection st.tables = some tdata →
      check_type_value value frow.ftype = true →
      ¬(fieldToColumn crow.primary_key field = "database" ∨
        fieldToColumn crow.primary_key field = "collection" ∨
        fieldToColumn crow.primary_key field = "row") →
      tdata.columns.contains (fieldToColumn crow.primary_key field) = true →
      rowGet row (fieldToColumn crow.primary_key field) ≠ .none →
      new_value st collection document field value =
        Except.error "The tuple already has a value for the collection") ∧
    (∀ crow frow row tdata, get_collection st collection = some crow →
      get_field st collection field = some frow →
      get_document_nc st collection document = some row →
      List.lookup collection st.tables = some tdata →
      check_type_value value frow.ftype = true →
      rowGet row (fieldToColumn crow.primary_key field) = .none →
      frow.ftype ∈ ALL_TYPES →
      ValidPyValue value →
      EncodableValue frow.ftype value →
      ¬(field = "database" ∨ field = "collection" ∨ field = "row") →
      tdata.columns.contains field = false →
      tdata.columns.contains (fieldToColumn crow.primary_key field) = true →
      fieldToColumn crow.primary_key field ≠ crow.primary_key →
      ∃ st2, new_value st collection document field value = Except.ok st2 ∧
        get_value st2 collection document field = Except.ok value) := by
  refine ⟨?_, ?_, ?_, ?_, ?_, ?_⟩
  · intro h
    simp [new_value, h]
  · intro crow hc hf
    simp [new_value, hc, hf]
  · intro crow frow hc hf hd
    simp [new_value, hc, hf, hd]
  · intro crow frow row hc hf hd hchk
    simp [new_value, hc, hf, hd, hchk]
  · intro crow frow row tdata hc hf hd hlk hchk hshadow hcolmem hval
    have hmem2 : fieldToColumn crow.primary_key field ∈ tdata.columns := by
      simpa using hcolmem
    simp [new_value, hc, hf, hd, hchk, hlk, hshadow, hmem2, hval]
  · intro crow frow row tdata hc hf hd hlk hchk hnone htype hvalid henc hfsh hnotcol
      hcolmem hcolpk
    have hfpk : field ≠ crow.primary_key := by
      intro h
      apply hcolpk
      rw [h]
      simp [fieldToColumn]
    have hcolname : fieldToColumn crow.primary_key field = md5hex (utf8Bytes field) := by
      simp [fieldToColumn, hfpk]
    have hlen : (fieldToColumn crow.primary_key field).length = 32 := by
      rw [hcolname]
      exact md5hex_length _
    have hshadowcol : ¬(fieldToColumn crow.primary_key field = "database" ∨
        fieldToColumn crow.primary_key field = "collection" ∨
        fieldToColumn crow.primary_key field = "row") := by
      intro h
      rcases h with h | h | h <;> rw [h] at hlen <;> exact absurd hlen (by decide)
    have hrt := codec_roundtrip frow.ftype htype value hchk hvalid henc
    have hfind : tdata.rows.find?
        (fun r => rowGet r crow.primary_key == PyScalar.str document) = some row := by
      simp only [get_document_nc, hc, hlk] at hd
      exact hd
    by_cases hvn : value = PyValue.scalar PyScalar.none
    · subst hvn
      have hmem2 : fieldToColumn crow.primary_key field ∈ tdata.columns := by
        simpa using hcolmem
      refine ⟨st, ?_, ?_⟩
      · simp [new_value, hc, hf, hd, hchk, hlk, hshadowcol, hmem2, hnone]
      · simp only [get_value, hc, hf, hd, hlk]
        simp [fieldRowGet, hfsh, hnotcol, ← hcolname, hcolmem, hf, hnone,
          column_to_python_none]
        have hmem1 : ¬ (field ∈ tdata.columns) := by simpa using hnotcol
        have hmem2 : fieldToColumn crow.primary_key field ∈ tdata.columns := by
          simpa using hcolmem
        rw [if_neg hmem1, if_pos hmem2]
    · cases henc2 : python_to_column frow.ftype value with
      | none =>
        rw [henc2] at hrt
        simp at hrt
      | some enc =>
        rw [henc2] at hrt
        have hrt2 : column_to_python frow.ftype enc = some value := hrt
        have hmem2 : fieldToColumn crow.primary_key field ∈ tdata.columns := by
          simpa using hcolmem
        have hstep : new_value st collection document field value =
            Except.ok (updateRowValue st collection crow.primary_key document
              (fieldToColumn crow.primary_key field) enc) := by
          cases value with
          | scalar s =>
            cases s with
            | none => exact absurd rfl hvn
            | _ =>
              simp [new_value, hc, hf, hd, hchk, hlk, hshadowcol, hmem2, hnone, henc2]
          | list l =>
            simp [new_value, hc, hf, hd, hchk, hlk, hshadowcol, hmem2, hnone, henc2]
        refine ⟨_, hstep, ?_⟩
        have hgc2 : get_collection (updateRowValue st collection crow.primary_key document
            (fieldToColumn crow.primary_key field) enc) collection = some crow := hc
        have hgf2 : get_field (updateRowValue st collection crow.primary_key document
            (fieldToColumn crow.primary_key field) enc) collection field = some frow := hf
        have hlk2 : List.lookup collection (updateRowValue st collection crow.primary_key
            document (fieldToColumn crow.primary_key field) enc).tables =
            some ⟨tdata.columns, tdata.rows.map fun r =>
              if rowGet r crow.primary_key == PyScalar.str document then
                aset (fieldToColumn crow.primary_key field) enc r else r⟩ := by
          show List.lookup collection (st.tables.map fun p =>
              if p.1 = collection then (p.1, ⟨p.2.columns, p.2.rows.map fun r =>
                if rowGet r crow.primary_key == PyScalar.str document then
                  aset (fieldToColumn crow.primary_key field) enc r else r⟩) else p) = _
          rw [lookup_map_ite collection
            (fun t => TableData.mk t.columns (t.rows.map fun r =>
              if rowGet r crow.primary_key == PyScalar.str document then
                aset (fieldToColumn crow.primary_key field) enc r else r)) st.tables,
            hlk]
          rfl
        have hdoc2 : get_document_nc (updateRowValue st collection crow.primary_key document
            (fieldToColumn crow.primary_key field) enc) collection document =
            some (aset (fieldToColumn crow.primary_key field) enc row) := by
          simp only [get_document_nc, hgc2, hlk2]
          exact find?_map_update crow.primary_key document
            (fieldToColumn crow.primary_key field) enc tdata.rows hcolpk row hfind
        simp only [get_value, hgc2, hgf2, hdoc2, hlk2]
        have hmem1 : ¬ (field ∈ tdata.columns) := by simpa using hnotcol
        have hmem2 : fieldToColumn crow.primary_key field ∈ tdata.columns := by
          simpa using hcolmem
        simp [fieldRowGet, hfsh, hmem1, hmem2, ← hcolname, hgf2, rowGet_aset_self, hrt2]

/-- The MD5 hex digest of the field name "f". -/
def c7H : String := "8fa14cdd754f91cc6554c9e71929cce7"

/-- A one-collection store with a string field "f" whose column is
its MD5 digest, and one document "d" with no value for "f". -/
def c7st : DBState :=
  { collections := [⟨"c", "pk"⟩]
    fields := [⟨"c", "pk", "string", Option.none⟩, ⟨"c", "f", "string", Option.none⟩]
    tables := [("c", ⟨["pk", c7H], [[("pk", PyScalar.str "d")]]⟩)]
    caches := Option.none }

/-- Witness for C7: storing "v" into the empty field "f" of document
"d" succeeds and get_value reads it back. -/
theorem C7_new_value_witness :
    ∃ st2, new_value c7st "c" "d" "f" (PyValue.scalar (PyScalar.str "v")) =
        Except.ok st2 ∧
      get_value st2 "c" "d" "f" = Except.ok (PyValue.scalar (PyScalar.str "v")) :=
  (C7_new_value c7st "c" "d" "f" (PyValue.scalar (PyScalar.str "v"))).2.2.2.2.2
    ⟨"c", "pk"⟩ ⟨"c", "f", "string", Option.none⟩ [("pk", PyScalar.str "d")]
    ⟨["pk", c7H], [[("pk", PyScalar.str "d")]]⟩
    (by rfl) (by rfl) (by rfl) (by rfl) (by rfl) (by rfl) (by decide) (by decide)
    (by trivial) (by decide) (by rfl) (by rfl) (by decide)

/-- The MD5 hex digest of the 32-character string c7H itself. -/
def c7H2 : String := "83be264eb452fcf0a1c322f2c7cbf987"

/-- A store where a field is literally named like an MD5 digest and
both that digest and its own digest are columns of the table (the
state add_collection "c", add_field "f", add_field c7H produces): the
digest-named field's reads take the raw-attribute path. -/
def c7bad : DBState :=
  { collections := [⟨"c", "pk"⟩]
    fields := [⟨"c", "pk", "string", Option.none⟩, ⟨"c", "f", "string", Option.none⟩,
      ⟨"c", c7H, "string", Option.none⟩]
    tables := [("c", ⟨["pk", c7H, c7H2], [[("pk", PyScalar.str "d")]]⟩)]
    caches := Option.none }

/-- The store after new_value writes "v" for the digest-named field. -/
def c7bad2 : DBState :=
  updateRowValue c7bad "c" "pk" "d" (fieldToColumn "pk" c7H) (PyScalar.str "v")

/-- new_value on a field whose name is itself a column of the table
succeeds (the getattr read uses the field's own hashed column c7H2,
present and empty, so the value is stored there), but the following
get_value reads the raw column named like the field and returns None,
not the value just stored: the claim's read-back clause fails. -/
theorem C7_counterexample :
    new_value c7bad "c" "d" c7H (PyValue.scalar (PyScalar.str "v")) =
      Except.ok c7bad2 ∧
    get_value c7bad2 "c" "d" c7H = Except.ok (PyValue.scalar PyScalar.none) ∧
    PyValue.scalar PyScalar.none ≠ PyValue.scalar (PyScalar.str "v") := by
  refine ⟨by rfl, by rfl, by decide⟩

/-! ## Lemmas for remove_field -/

theorem tails_any_pfx_append (n p : List Char) :
    ((p ++ n).tails.any fun t => n.isPrefixOf t) = true := by
  apply List.any_eq_true.2
  refine ⟨n, (List.mem_tails n (p ++ n)).2 (List.suffix_append p n), ?_⟩
  have h := isPrefixOf_append_self n []
  rw [List.append_nil] at h
  exact h

theorem strInfix_append_left (p s : String) : strInfix s (p ++ s) = true := by
  unfold strInfix
  have hl : (p ++ s).toList = p.toList ++ s.toList := by
    simp [String.toList, String.data_append]
  rw [hl]
  exact tails_any_pfx_append s.toList p.toList

theorem strInfix_self (s : String) : strInfix s s = true := by
  unfold strInfix
  have h := tails_any_pfx_append s.toList []
  rw [List.nil_append] at h
  exact h

theorem rowGet_proj (cols : List String) (r : RowData) (c : String) (hc : c ∈ cols) :
    rowGet (cols.map fun c2 => (c2, rowGet r c2)) c = rowGet r c := by
  induction cols with
  | nil => exact absurd hc (List.not_mem_nil c)
  | cons a rest ih =>
    by_cases hca : c = a
    · subst hca
      show rowGet ((c, rowGet r c) :: rest.map fun c2 => (c2, rowGet r c2)) c = rowGet r c
      unfold rowGet
      simp [List.lookup]
    · have hcr : c ∈ rest := by
        rcases List.mem_cons.1 hc with h | h
        · exact absurd h hca
        · exact h
      have hb : (c == a) = false := beq_eq_false_iff_ne.2 hca
      show rowGet ((a, rowGet r a) :: rest.map fun c2 => (c2, rowGet r c2)) c = rowGet r c
      unfold rowGet
      simp only [List.lookup, hb]
      exact ih hcr

theorem find?_eraseP_unique {α : Type} (p : α → Bool) (l : List α)
    (hu : (l.filter p).length ≤ 1) : (l.eraseP p).find? p = Option.none := by
  induction l with
  | nil => rfl
  | cons a rest ih =>
    cases hp : p a with
    | true =>
      rw [List.eraseP_cons_of_pos hp]
      rw [List.filter_cons_of_pos hp, List.length_cons] at hu
      have hfl : rest.filter p = [] := List.length_eq_zero.1 (by omega)
      apply List.find?_eq_none.2
      intro x hx
      intro hpx
      have : x ∈ rest.filter p := List.mem_filter.2 ⟨hx, hpx⟩
      rw [hfl] at this
      exact absurd this (List.not_mem_nil x)
    | false =>
      rw [List.eraseP_cons_of_neg (by simp [hp])]
      rw [find?_cons_neg p a _ hp]
      apply ih
      rw [List.filter_cons_of_neg (by simp [hp])] at hu
      exact hu

theorem find?_eraseP_disjoint {α : Type} (q r : α → Bool) (l : List α)
    (hd : ∀ a, q a = true → r a = false) : (l.eraseP q).find? r = l.find? r := by
  induction l with
  | nil => rfl
  | cons a rest ih =>
    cases hq : q a with
    | true =>
      rw [List.eraseP_cons_of_pos hq]
      rw [find?_cons_neg r a rest (hd a hq)]
    | false =>
      rw [List.eraseP_cons_of_neg (by simp [hq])]
      cases hr : r a with
      | true =>
        rw [find?_cons_pos r a _ hr, find?_cons_pos r a _ hr]
      | false =>
        rw [find?_cons_neg r a _ hr, find?_cons_neg r a _ hr]
        exact ih

theorem strInfix_mono_left (n c p : String) (h : strInfix n c = true) :
    strInfix n (p ++ c) = true := by
  unfold strInfix at h ⊢
  have hl : (p ++ c).toList = p.toList ++ c.toList := by
    simp [String.toList, String.data_append]
  rw [hl]
  rcases List.any_eq_true.1 h with ⟨t, ht, hpfx⟩
  refine List.any_eq_true.2 ⟨t, ?_, hpfx⟩
  rw [List.mem_tails] at ht ⊢
  exact ht.trans (List.suffix_append p.toList c.toList)

theorem strInfix_eq_of_length (n h2 : String) (hin : strInfix n h2 = true)
    (hlen : n.length = h2.length) : n = h2 := by
  unfold strInfix at hin
  rcases List.any_eq_true.1 hin with ⟨t, ht, hpfx⟩
  rw [List.mem_tails] at ht
  have hp : n.toList <+: t := List.isPrefixOf_iff_prefix.1 hpfx
  have hlen2 : n.toList.length = h2.toList.length := hlen
  have h1 := hp.length_le
  have h2l := ht.length_le
  have htl : t = h2.toList := ht.eq_of_length (by omega)
  have hnl : n.toList = t := hp.eq_of_length (by omega)
  have hnh : n.toList = h2.toList := by rw [hnl, htl]
  cases n with
  | mk d1 =>
    cases h2 with
    | mk d2 =>
      have hd : d1 = d2 := by simpa [String.toList] using hnh
      rw [hd]

theorem filter_eq_filter_of_imp {α : Type} [BEq α] [LawfulBEq α] (p q : α → Bool) (l : List α)
    (himp : ∀ c ∈ l, q c = true → p c = true)
    (hall : ((l.filter p).all fun c => (l.filter q).contains c) = true) :
    l.filter p = l.filter q := by
  apply List.filter_congr
  intro c hc
  cases hq : q c with
  | true => rw [himp c hc hq]
  | false =>
    cases hp : p c with
    | false => rfl
    | true =>
      have hmem : c ∈ l.filter p := List.mem_filter.2 ⟨hc, hp⟩
      have h2 := List.all_eq_true.1 hall c hmem
      have hcq : c ∈ l.filter q := by simpa using h2
      have hqt := (List.mem_filter.1 hcq).2
      rw [hqt] at hq
      exact Bool.noConfusion hq

theorem zip_proj_rows (F : List String) (r : RowData) :
    F.zip (F.map fun c => rowGet (F.map fun c2 => (c2, rowGet r c2)) c) =
      F.map fun c2 => (c2, rowGet r c2) := by
  have h1 : (F.map fun c => rowGet (F.map fun c2 => (c2, rowGet r c2)) c) =
      F.map fun c => rowGet r c :=
    List.map_congr_left fun c hcm => rowGet_proj F r c hcm
  rw [h1]
  have h2 := List.zip_map' id (fun c => rowGet r c) F
  rw [List.map_id] at h2
  simpa using h2

/-- The frame conclusions of a successful remove_field, from the
facts the success branch establishes. -/
theorem C4_core (st : DBState) (collection field : String) (crow : CollRec)
    (tdata : TableData) (st2 : DBState)
    (heqc : get_collection st collection = some crow)
    (heqt : List.lookup collection st.tables = some tdata)
    (hallc : ((tdata.columns.filter fun c =>
        ¬(strInfix (fieldToColumn crow.primary_key field) c = true)).all fun c =>
      (tdata.columns.filter fun c =>
        ¬(strInfix (fieldToColumn crow.primary_key field)
            (collection ++ "." ++ c) = true)).contains c) = true)
    (hpk : (tdata.columns.filter fun c =>
        ¬(strInfix (fieldToColumn crow.primary_key field)
            (collection ++ "." ++ c) = true)).contains crow.primary_key = true)
    (hu : (st.fields.filter fun f =>
      f.name == field && f.collection == collection).length ≤ 1)
    (h2coll : st2.collections = st.collections)
    (h2fields : st2.fields =
      st.fields.eraseP fun f => f.name == field && f.collection == collection)
    (h2tab : st2.tables = st.tables.map fun p => if p.1 = collection then
      (p.1, TableData.mk
        (tdata.columns.filter fun c =>
          ¬(strInfix (fieldToColumn crow.primary_key field)
              (collection ++ "." ++ c) = true))
        ((tdata.rows.map fun r =>
            (tdata.columns.filter fun c =>
              ¬(strInfix (fieldToColumn crow.primary_key field) c = true)).map
              fun c => (c, rowGet r c)).map
          fun r => (tdata.columns.filter fun c =>
              ¬(strInfix (fieldToColumn crow.primary_key field) c = true)).zip
            (((tdata.columns.filter fun c =>
                ¬(strInfix (fieldToColumn crow.primary_key field)
                    (collection ++ "." ++ c) = true)).filter fun c =>
                ¬(strInfix (fieldToColumn crow.primary_key field) c = true)).map
              fun c => rowGet r c))) else p) :
    ∃ crow2 tdata2 F,
      get_collection st collection = some crow2 ∧
      List.lookup collection st.tables = some tdata2 ∧
      F = tdata2.columns.filter (fun c =>
        ¬(strInfix (fieldToColumn crow2.primary_key field) c = true)) ∧
      List.lookup collection st2.tables =
        some ⟨F, tdata2.rows.map fun r => F.map fun c => (c, rowGet r c)⟩ ∧
      fieldToColumn crow2.primary_key field ∉ F ∧
      (∀ r ∈ tdata2.rows, ∀ c ∈ F,
        rowGet (F.map fun c2 => (c2, rowGet r c2)) c = rowGet r c) ∧
      crow2.primary_key ∈ F ∧
      (∀ g : String, fieldToColumn crow2.primary_key g ∈ tdata2.columns →
        fieldToColumn crow2.primary_key g ≠ fieldToColumn crow2.primary_key field →
        fieldToColumn crow2.primary_key g ∈ F) ∧
      (∀ k, k ≠ collection → List.lookup k st2.tables = List.lookup k st.tables) ∧
      st2.collections = st.collections ∧
      get_field st2 collection field = Option.none ∧
      (∀ coll2 f2, f2 ≠ field → get_field st2 coll2 f2 = get_field st coll2 f2) := by
  have himp : ∀ c ∈ tdata.columns,
      (¬(strInfix (fieldToColumn crow.primary_key field)
          (collection ++ "." ++ c) = true) : Bool) = true →
      (¬(strInfix (fieldToColumn crow.primary_key field) c = true) : Bool) = true := by
    intro c hcm hq
    simp only [decide_eq_true_eq] at hq ⊢
    intro hin
    exact hq (strInfix_mono_left (fieldToColumn crow.primary_key field) c
      (collection ++ ".") hin)
  have hremeq : (tdata.columns.filter fun c =>
      ¬(strInfix (fieldToColumn crow.primary_key field) c = true)) =
      tdata.columns.filter fun c =>
        ¬(strInfix (fieldToColumn crow.primary_key field)
            (collection ++ "." ++ c) = true) :=
    filter_eq_filter_of_imp _ _ tdata.columns himp hallc
  have hsel : ((tdata.columns.filter fun c =>
      ¬(strInfix (fieldToColumn crow.primary_key field)
          (collection ++ "." ++ c) = true)).filter fun c =>
      ¬(strInfix (fieldToColumn crow.primary_key field) c = true)) =
      tdata.columns.filter fun c =>
        ¬(strInfix (fieldToColumn crow.primary_key field)
            (collection ++ "." ++ c) = true) := by
    apply List.filter_eq_self.2
    intro c hc
    exact himp c (List.mem_filter.1 hc).1 (List.mem_filter.1 hc).2
  have hrows : ((tdata.rows.map fun r =>
        (tdata.columns.filter fun c =>
          ¬(strInfix (fieldToColumn crow.primary_key field) c = true)).map
          fun c => (c, rowGet r c)).map
      fun r => (tdata.columns.filter fun c =>
          ¬(strInfix (fieldToColumn crow.primary_key field) c = true)).zip
        (((tdata.columns.filter fun c =>
            ¬(strInfix (fieldToColumn crow.primary_key field)
                (collection ++ "." ++ c) = true)).filter fun c =>
            ¬(strInfix (fieldToColumn crow.primary_key field) c = true)).map
          fun c => rowGet r c)) =
      tdata.rows.map fun r =>
        (tdata.columns.filter fun c =>
          ¬(strInfix (fieldToColumn crow.primary_key field) c = true)).map
          fun c => (c, rowGet r c) := by
    rw [hsel, ← hremeq, List.map_map]
    apply List.map_congr_left
    intro r hr
    simpa [Function.comp] using zip_proj_rows
      (tdata.columns.filter fun c =>
        ¬(strInfix (fieldToColumn crow.primary_key field) c = true)) r
  have hnotF : fieldToColumn crow.primary_key field ∉
      tdata.columns.filter fun c =>
        ¬(strInfix (fieldToColumn crow.primary_key field) c = true) := by
    intro hmem
    have := (List.mem_filter.1 hmem).2
    simp [strInfix_self] at this
  have hpkF : crow.primary_key ∈ tdata.columns.filter fun c =>
      ¬(strInfix (fieldToColumn crow.primary_key field) c = true) := by
    rw [hremeq]
    simpa using hpk
  refine ⟨crow, tdata,
    tdata.columns.filter (fun c =>
      ¬(strInfix (fieldToColumn crow.primary_key field) c = true)),
    heqc, heqt, rfl, ?_, hnotF, ?_, hpkF, ?_, ?_, h2coll, ?_, ?_⟩
  · rw [h2tab]
    rw [lookup_map_ite collection (fun x => TableData.mk
      (tdata.columns.filter fun c =>
        ¬(strInfix (fieldToColumn crow.primary_key field)
            (collection ++ "." ++ c) = true))
      ((tdata.rows.map fun r =>
          (tdata.columns.filter fun c =>
            ¬(strInfix (fieldToColumn crow.primary_key field) c = true)).map
            fun c => (c, rowGet r c)).map
        fun r => (tdata.columns.filter fun c =>
            ¬(strInfix (fieldToColumn crow.primary_key field) c = true)).zip
          (((tdata.columns.filter fun c =>
              ¬(strInfix (fieldToColumn crow.primary_key field)
                  (collection ++ "." ++ c) = true)).filter fun c =>
              ¬(strInfix (fieldToColumn crow.primary_key field) c = true)).map
            fun c => rowGet r c))) st.tables, heqt]
    rw [hrows, ← hremeq]
    rfl
  · intro r hr c hcm
    exact rowGet_proj _ r c hcm
  · intro g hgcols hgne
    have hpkne : fieldToColumn crow.primary_key field ≠ crow.primary_key := by
      intro he
      have hpred := (List.mem_filter.1 hpkF).2
      rw [he] at hpred
      simp [strInfix_self] at hpred
    by_cases hgp : g = crow.primary_key
    · rw [hgp, show fieldToColumn crow.primary_key crow.primary_key = crow.primary_key
        from by simp [fieldToColumn]]
      exact hpkF
    · have hfpk2 : field ≠ crow.primary_key := by
        intro he
        apply hpkne
        rw [he]
        simp [fieldToColumn]
      have hcol32 : (fieldToColumn crow.primary_key field).length = 32 := by
        rw [show fieldToColumn crow.primary_key field = md5hex (utf8Bytes field)
          from by simp [fieldToColumn, hfpk2]]
        exact md5hex_length _
      have hg32 : (fieldToColumn crow.primary_key g).length = 32 := by
        rw [show fieldToColumn crow.primary_key g = md5hex (utf8Bytes g)
          from by simp [fieldToColumn, hgp]]
        exact md5hex_length _
      refine List.mem_filter.2 ⟨hgcols, ?_⟩
      simp only [decide_eq_true_eq]
      intro hin
      exact hgne (strInfix_eq_of_length (fieldToColumn crow.primary_key field)
        (fieldToColumn crow.primary_key g) hin (by rw [hcol32, hg32])).symm
  · intro k hk
    rw [h2tab]
    exact lookup_map_ite_other collection k (fun x => TableData.mk
      (tdata.columns.filter fun c =>
        ¬(strInfix (fieldToColumn crow.primary_key field)
            (collection ++ "." ++ c) = true))
      ((tdata.rows.map fun r =>
          (tdata.columns.filter fun c =>
            ¬(strInfix (fieldToColumn crow.primary_key field) c = true)).map
            fun c => (c, rowGet r c)).map
        fun r => (tdata.columns.filter fun c =>
            ¬(strInfix (fieldToColumn crow.primary_key field) c = true)).zip
          (((tdata.columns.filter fun c =>
              ¬(strInfix (fieldToColumn crow.primary_key field)
                  (collection ++ "." ++ c) = true)).filter fun c =>
              ¬(strInfix (fieldToColumn crow.primary_key field) c = true)).map
            fun c => rowGet r c))) st.tables hk
  · unfold get_field
    rw [h2fields]
    exact find?_eraseP_unique _ st.fields hu
  · intro coll2 f2 hne
    unfold get_field
    rw [h2fields]
    apply find?_eraseP_disjoint
    intro a hq
    rcases Bool.and_eq_true_iff.1 hq with ⟨hname, -⟩
    have hna : a.name = field := by simpa using hname
    have hnb : (a.name == f2) = false := by
      rw [hna]
      exact beq_eq_false_iff_ne.2 (Ne.symm hne)
    simp [hnb]

/-- Claim C4: remove_field is the shadow-table sequence (backup with
the surviving columns, copy, rebuild, copy back, drop backup, delete
the catalog row), and after every successful call the removed field's
column and stored values are gone while the surviving columns — the
primary key among them, and every other field's column whose name
does not collide with the removed field's MD5 digest — keep the
stored value of every document, other collections' tables are
untouched, and every other field's catalog row is preserved. -/
theorem C4_remove_field (st : DBState) (collection field : String) (st2 : DBState)
    (h : remove_field st collection field = Except.ok st2)
    (hu : (st.fields.filter fun f =>
      f.name == field && f.collection == collection).length ≤ 1) :
    ∃ crow tdata F,
      get_collection st collection = some crow ∧
      List.lookup collection st.tables = some tdata ∧
      F = tdata.columns.filter (fun c =>
        ¬(strInfix (fieldToColumn crow.primary_key field) c = true)) ∧
      List.lookup collection st2.tables =
        some ⟨F, tdata.rows.map fun r => F.map fun c => (c, rowGet r c)⟩ ∧
      fieldToColumn crow.primary_key field ∉ F ∧
      (∀ r ∈ tdata.rows, ∀ c ∈ F,
        rowGet (F.map fun c2 => (c2, rowGet r c2)) c = rowGet r c) ∧
      crow.primary_key ∈ F ∧
      (∀ g : String, fieldToColumn crow.primary_key g ∈ tdata.columns →
        fieldToColumn crow.primary_key g ≠ fieldToColumn crow.primary_key field →
        fieldToColumn crow.primary_key g ∈ F) ∧
      (∀ k, k ≠ collection → List.lookup k st2.tables = List.lookup k st.tables) ∧
      st2.collections = st.collections ∧
      get_field st2 collection field = Option.none ∧
      (∀ coll2 f2, f2 ≠ field → get_field st2 coll2 f2 = get_field st coll2 f2) := by
  simp only [remove_field] at h
  split at h
  · exact Except.noConfusion h
  · rename_i crow heqc
    split at h
    · exact Except.noConfusion h
    · rename_i frow heqf
      split at h
      · exact Except.noConfusion h
      · rename_i tdata heqt
        split at h
        · exact Except.noConfusion h
        · rename_i hbk
          split at h
          · exact Except.noConfusion h
          · rename_i hallc
            split at h
            · exact Except.noConfusion h
            · rename_i hlenc
              split at h
              · rename_i hcache
                split at h
                · rename_i hpk
                  obtain rfl : _ = st2 := Except.ok.inj h
                  exact C4_core st collection field crow tdata _ heqc heqt
                    (not_not.mp hallc) hpk hu rfl rfl rfl
                · exact Except.noConfusion h
              · rename_i c0 hcache
                split at h
                · exact Except.noConfusion h
                · rename_i m0 hm0
                  split at h
                  · rename_i hpk
                    obtain rfl : _ = st2 := Except.ok.inj h
                    exact C4_core st collection field crow tdata _ heqc heqt
                      (not_not.mp hallc) hpk hu rfl rfl rfl
                  · exact Except.noConfusion h

/-- The MD5 hex digest of the field name "g". -/
def c4G : String := "b2f5ff47436671b6e533d8dc3614845d"

/-- A collection with fields name (primary key), f and g, and one
document holding a value for each. -/
def c4st : DBState :=
  { collections := [⟨"c", "name"⟩]
    fields := [⟨"c", "name", "string", Option.none⟩, ⟨"c", "f", "string", Option.none⟩,
      ⟨"c", "g", "string", Option.none⟩]
    tables := [("c", ⟨["name", c7H, c4G],
      [[("name", PyScalar.str "d"), (c7H, PyScalar.str "x"), (c4G, PyScalar.str "y")]]⟩)]
    caches := Option.none }

/-- The store after the witness removal. -/
def c4st2 : DBState := (remove_field c4st "c" "f").toOption.getD c4st

/-- Witness for C4: removing f keeps the name and g columns with
their stored values and deletes only f's catalog row. -/
theorem C4_remove_field_witness :
    remove_field c4st "c" "f" = Except.ok c4st2 ∧
    List.lookup "c" c4st2.tables =
      some ⟨["name", c4G], [[("name", PyScalar.str "d"), (c4G, PyScalar.str "y")]]⟩ ∧
    get_field c4st2 "c" "f" = Option.none ∧
    get_field c4st2 "c" "g" = get_field c4st "c" "g" := by
  obtain ⟨crow, tdata, F, h1, h2, h3, h4, h5, h6, h7, h8, h9, h10, h11, h12⟩ :=
    C4_remove_field c4st "c" "f" c4st2 (by rfl) (by decide)
  obtain rfl : (⟨"c", "name"⟩ : CollRec) = crow := by
    have hcc : get_collection c4st "c" = some ⟨"c", "name"⟩ := by rfl
    simpa using hcc.symm.trans h1
  obtain rfl : (⟨["name", c7H, c4G],
      [[("name", PyScalar.str "d"), (c7H, PyScalar.str "x"),
        (c4G, PyScalar.str "y")]]⟩ : TableData) = tdata := by
    have htt : List.lookup "c" c4st.tables = some ⟨["name", c7H, c4G],
        [[("name", PyScalar.str "d"), (c7H, PyScalar.str "x"),
          (c4G, PyScalar.str "y")]]⟩ := by rfl
    simpa using htt.symm.trans h2
  have hF : F = ["name", c4G] := by
    rw [h3]
    rfl
  rw [hF] at h4
  refine ⟨by rfl, ?_, h11, h12 "c" "g" (by decide)⟩
  rw [h4]
  rfl

/-! ## Lemmas for the filter refinement -/

theorem find?_filter_and {α : Type} (p q : α → Bool) (l : List α) :
    l.find? (fun a => p a && q a) = (l.filter q).find? p := by
  induction l with
  | nil => rfl
  | cons a rest ih =>
    cases hq : q a with
    | true =>
      rw [List.filter_cons_of_pos hq]
      cases hp : p a with
      | true =>
        rw [find?_cons_pos (fun a => p a && q a) a rest (by simp [hp, hq]),
          find?_cons_pos p a _ hp]
      | false =>
        rw [find?_cons_neg (fun a => p a && q a) a rest (by simp [hp]),
          find?_cons_neg p a _ hp]
        exact ih
    | false =>
      rw [List.filter_cons_of_neg (by simp [hq]),
        find?_cons_neg (fun a => p a && q a) a rest (by simp [hq])]
      exact ih

theorem decodeFields_lookup (pk : String) (r : RowData) :
    ∀ (fl : List FieldRec) (doc : List (String × PyValue)),
    decodeFields pk r fl = Except.ok doc →
    ∀ (f : String) (frow : FieldRec), fl.find? (fun fr => fr.name == f) = some frow →
    ∃ v, column_to_python frow.ftype (rowGet r (fieldToColumn pk f)) = some v ∧
      docLookup doc f = some v := by
  intro fl
  induction fl with
  | nil =>
    intro doc hd f frow hf
    simp at hf
  | cons fr rest ih =>
    intro doc hd f frow hf
    cases hdec : column_to_python fr.ftype (rowGet r (fieldToColumn pk fr.name)) with
    | none =>
      simp only [decodeFields, hdec] at hd
      exact Except.noConfusion hd
    | some v =>
      cases hrest : decodeFields pk r rest with
      | error e =>
        simp only [decodeFields, hdec, hrest] at hd
        exact Except.noConfusion hd
      | ok tail =>
        simp only [decodeFields, hdec, hrest, Except.ok.injEq] at hd
        cases hb : (fr.name == f) with
        | true =>
          have hname : fr.name = f := by simpa using hb
          have hfr : frow = fr := by
            rw [find?_cons_pos (fun fr => fr.name == f) fr rest hb] at hf
            simpa using hf.symm
          refine ⟨v, ?_, ?_⟩
          · rw [hfr, ← hname]
            exact hdec
          · rw [← hd]
            simp [docLookup, List.lookup, hname]
        | false =>
          rw [find?_cons_neg (fun fr => fr.name == f) fr rest hb] at hf
          obtain ⟨v2, hv2, hl2⟩ := ih tail hrest f frow hf
          refine ⟨v2, hv2, ?_⟩
          have hne : (f == fr.name) = false := by
            have : fr.name ≠ f := by simpa using hb
            exact beq_eq_false_iff_ne.2 (Ne.symm this)
          rw [← hd]
          simpa [docLookup, List.lookup, hne] using hl2

theorem scalar_not_list_prefix (t : String) (ht : t ∈ ALL_TYPES)
    (hnl : ¬(t ∈ LIST_TYPES)) : pyStartsWith t "list_" = false := by
  simp only [ALL_TYPES, List.mem_append, List.mem_cons, List.not_mem_nil, or_false] at ht
  rcases ht with (rfl | rfl | rfl | rfl | rfl | rfl | rfl) | h
  · decide
  · decide
  · decide
  · decide
  · decide
  · decide
  · decide
  · exact absurd h hnl

theorem triAnd_eq_t (a b : Tri) : triAnd a b = Tri.t ↔ (a = Tri.t ∧ b = Tri.t) := by
  cases a <;> cases b <;> simp [triAnd]

theorem triOr_eq_t (a b : Tri) : triOr a b = Tri.t ↔ (a = Tri.t ∨ b = Tri.t) := by
  cases a <;> cases b <;> simp [triOr]

theorem evalAst_toConj (doc : String → Option PyValue) : ∀ a : FilterAst,
    ((toConj a).all fun c => evalAst c doc) = evalAst a doc := by
  intro a
  induction a with
  | andE a b iha ihb =>
    simp [toConj, evalAst, List.all_append, iha, ihb]
  | allDocs => simp [toConj, evalAst]
  | cmp op f l => simp [toConj]
  | inList f ls => simp [toConj]
  | inField l f => simp [toConj]
  | like f p ins => simp [toConj]
  | notE a ih => simp [toConj]
  | orE a b iha ihb => simp [toConj]

theorem evalAst_bigAnd (doc : String → Option PyValue) : ∀ l : List FilterAst,
    evalAst (bigAnd l) doc = l.all fun c => evalAst c doc := by
  intro l
  induction l with
  | nil => simp [bigAnd, evalAst]
  | cons x r ih =>
    cases r with
    | nil => simp [bigAnd]
    | cons y r2 =>
      show evalAst (.andE x (bigAnd (y :: r2))) doc = _
      simp [evalAst, ih]

theorem pushable_bigAnd (st : DBState) (collection : String) : ∀ l : List FilterAst,
    (l.all fun c => pushable st collection c) = true →
    pushable st collection (bigAnd l) = true := by
  intro l
  induction l with
  | nil => intro h; rfl
  | cons x r ih =>
    intro h
    rw [List.all_cons] at h
    rcases Bool.and_eq_true_iff.1 h with ⟨h1, hr⟩
    cases r with
    | nil => simpa [bigAnd] using h1
    | cons y r2 =>
      show pushable st collection (.andE x (bigAnd (y :: r2))) = true
      simp [pushable, h1, ih hr]

theorem astFields_toConj : ∀ a c, c ∈ toConj a → ∀ f ∈ astFields c, f ∈ astFields a := by
  intro a
  induction a with
  | andE a b iha ihb =>
    intro c hc f hf
    simp only [toConj, List.mem_append] at hc
    simp only [astFields, List.mem_append]
    rcases hc with h | h
    · exact Or.inl (iha c h f hf)
    · exact Or.inr (ihb c h f hf)
  | allDocs =>
    intro c hc f hf
    simp only [toConj, List.mem_cons, List.not_mem_nil, or_false] at hc
    subst hc
    exact hf
  | cmp op fd l =>
    intro c hc f hf
    simp only [toConj, List.mem_cons, List.not_mem_nil, or_false] at hc
    subst hc
    exact hf
  | inList fd ls =>
    intro c hc f hf
    simp only [toConj, List.mem_cons, List.not_mem_nil, or_false] at hc
    subst hc
    exact hf
  | inField l fd =>
    intro c hc f hf
    simp only [toConj, List.mem_cons, List.not_mem_nil, or_false] at hc
    subst hc
    exact hf
  | like fd p ins =>
    intro c hc f hf
    simp only [toConj, List.mem_cons, List.not_mem_nil, or_false] at hc
    subst hc
    exact hf
  | notE a ih =>
    intro c hc f hf
    simp only [toConj, List.mem_cons, List.not_mem_nil, or_false] at hc
    subst hc
    exact hf
  | orE a b iha ihb =>
    intro c hc f hf
    simp only [toConj, List.mem_cons, List.not_mem_nil, or_false] at hc
    subst hc
    exact hf

theorem astFields_bigAnd : ∀ (l : List FilterAst) (f : String),
    f ∈ astFields (bigAnd l) → ∃ c ∈ l, f ∈ astFields c := by
  intro l
  induction l with
  | nil =>
    intro f hf
    simp [bigAnd, astFields] at hf
  | cons x r ih =>
    intro f hf
    cases r with
    | nil =>
      exact ⟨x, List.mem_cons_self .., by simpa [bigAnd] using hf⟩
    | cons y r2 =>
      have hf2 : f ∈ astFields (.andE x (bigAnd (y :: r2))) := hf
      simp only [astFields, List.mem_append] at hf2
      rcases hf2 with h | h
      · exact ⟨x, List.mem_cons_self .., h⟩
      · obtain ⟨c, hc, hfc⟩ := ih f h
        exact ⟨c, List.mem_cons_of_mem _ hc, hfc⟩

theorem toConj_ne_nil : ∀ a : FilterAst, toConj a ≠ [] := by
  intro a
  induction a with
  | andE a b iha ihb =>
    simp only [toConj, ne_eq, List.append_eq_nil]
    intro h
    exact iha h.1
  | allDocs => simp [toConj]
  | cmp op f l => simp [toConj]
  | inList f ls => simp [toConj]
  | inField l f => simp [toConj]
  | like f p ins => simp [toConj]
  | notE a ih => simp [toConj]
  | orE a b iha ihb => simp [toConj]

theorem filter_both_nil {α : Type} (p : α → Bool) (l : List α)
    (h1 : l.filter p = []) (h2 : (l.filter fun a => !(p a)) = []) : l = [] := by
  cases l with
  | nil => rfl
  | cons a r =>
    cases hp : p a with
    | true =>
      rw [List.filter_cons_of_pos hp] at h1
      exact List.noConfusion h1
    | false =>
      rw [List.filter_cons_of_pos (by simp [hp])] at h2
      exact List.noConfusion h2

theorem all_filter_partition {α : Type} (p q : α → Bool) (l : List α) :
    l.all p = ((l.filter q).all p && (l.filter fun a => !(q a)).all p) := by
  rw [Bool.eq_iff_iff]
  simp only [Bool.and_eq_true, List.all_eq_true, List.mem_filter]
  constructor
  · intro h
    exact ⟨fun x hx => h x hx.1, fun x hx => h x hx.1⟩
  · intro ⟨h1, h2⟩ x hx
    cases hqx : q x with
    | true => exact h1 x ⟨hx, hqx⟩
    | false => exact h2 x ⟨hx, by simp [hqx]⟩

theorem rowsFilterSql_tru (rows : List RowData) :
    rowsFilterSql SqlPred.tru rows = rows := by
  simp [rowsFilterSql, sqlEval]

theorem rowsFilterResid_allDocs (st : DBState) (collection : String) :
    ∀ rows : List RowData,
    (∀ r ∈ rows, ∃ doc, decodeDoc st collection r = Except.ok doc) →
    rowsFilterResid st collection .allDocs rows = Except.ok rows := by
  intro rows
  induction rows with
  | nil => intro h; rfl
  | cons r rest ih =>
    intro h
    obtain ⟨doc, hdoc⟩ := h r (List.mem_cons_self ..)
    have hrest := ih fun r2 hr2 => h r2 (List.mem_cons_of_mem _ hr2)
    simp [rowsFilterResid, hdoc, hrest, evalAst]

theorem rowsFilter_combine (st : DBState) (collection : String) (sql : SqlPred)
    (resid fullAst : FilterAst) : ∀ rows : List RowData,
    (∀ r ∈ rows, ∃ doc, decodeDoc st collection r = Except.ok doc ∧
      (sqlEval sql r = Tri.t →
        evalAst fullAst (docLookup doc) = evalAst resid (docLookup doc)) ∧
      (¬(sqlEval sql r = Tri.t) → evalAst fullAst (docLookup doc) = false)) →
    rowsFilterResid st collection resid (rowsFilterSql sql rows) =
      rowsFilterResid st collection fullAst rows := by
  intro rows
  induction rows with
  | nil => intro h; rfl
  | cons r rest ih =>
    intro h
    obtain ⟨doc, hdoc, hEq, hF⟩ := h r (List.mem_cons_self ..)
    have hrest := ih fun r2 hr2 => h r2 (List.mem_cons_of_mem _ hr2)
    by_cases hsql : sqlEval sql r = Tri.t
    · have hfilter : rowsFilterSql sql (r :: rest) = r :: rowsFilterSql sql rest := by
        unfold rowsFilterSql
        rw [List.filter_cons_of_pos (by simp [hsql])]
      rw [hfilter]
      show rowsFilterResid st collection resid (r :: rowsFilterSql sql rest) = _
      simp only [rowsFilterResid, hdoc, hrest]
      rw [hEq hsql]
    · have hfilter : rowsFilterSql sql (r :: rest) = rowsFilterSql sql rest := by
        unfold rowsFilterSql
        rw [List.filter_cons_of_neg (by simp [hsql])]
      rw [hfilter, hrest]
      simp only [rowsFilterResid, hdoc, hF hsql]
      cases hr2 : rowsFilterResid st collection fullAst rest with
      | error e => simp
      | ok tail => simp

theorem sqlEval_isNull_equiv (col : String) (row : RowData) :
    (sqlEval (.isNull col) row = Tri.t ↔
      (PyValue.scalar (rowGet row col) == PyValue.scalar PyScalar.none) = true) := by
  by_cases hs : rowGet row col = PyScalar.none <;> simp [sqlEval, hs, beq_iff_eq]

theorem sqlEval_isNotNull_equiv (col : String) (row : RowData) :
    (sqlEval (.isNotNull col) row = Tri.t ↔
      (!(PyValue.scalar (rowGet row col) == PyValue.scalar PyScalar.none)) = true) := by
  by_cases hs : rowGet row col = PyScalar.none <;> simp [sqlEval, hs, beq_iff_eq]

theorem sqlEval_cmp_equiv (op : CmpOp) (l : PyScalar) (col : String) (row : RowData)
    (hln : l ≠ PyScalar.none) :
    (sqlEval (.cmp op col l) row = Tri.t ↔
      evalCmpNull op (.scalar (rowGet row col)) l = true) := by
  by_cases hs : rowGet row col = PyScalar.none
  · simp [sqlEval, hs, evalCmpNull, hln]
  · have hred : evalCmpNull op (.scalar (rowGet row col)) l = litCmp op (rowGet row col) l := by
      unfold evalCmpNull
      rw [if_neg hln]
      cases hsv : rowGet row col with
      | none => exact absurd hsv hs
      | bool b => rfl
      | int n => rfl
      | float x => rfl
      | str s2 => rfl
      | date d => rfl
      | datetime d => rfl
      | time t => rfl
    rw [hred]
    cases hlit : litCmp op (rowGet row col) l <;> simp [sqlEval, hs, hlit]

theorem sqlEval_inList_equiv (ls : List PyScalar) (col : String) (row : RowData) :
    (sqlEval (.inList col ls) row = Tri.t ↔
      inListSem (.scalar (rowGet row col)) ls = true) := by
  by_cases hs : rowGet row col = PyScalar.none
  · simp [sqlEval, hs, inListSem]
  · have hred : inListSem (.scalar (rowGet row col)) ls =
        ls.any fun l => !(l == PyScalar.none) && litEq (rowGet row col) l := by
      cases hsv : rowGet row col with
      | none => exact absurd hsv hs
      | bool b => rfl
      | int n => rfl
      | float x => rfl
      | str s2 => rfl
      | date d => rfl
      | datetime d => rfl
      | time t => rfl
    rw [hred]
    cases hA : ls.any fun l => !(l == PyScalar.none) && litEq (rowGet row col) l with
    | true => simp [sqlEval, hs, hA]
    | false =>
      by_cases hN : (ls.any fun l => l == PyScalar.none) = true <;>
        simp [sqlEval, hs, hA, hN]

theorem sqlEval_like_equiv (pat : String) (ins : Bool) (col : String) (row : RowData) :
    (sqlEval (.like col pat ins) row = Tri.t ↔
      likeSem ins pat (.scalar (rowGet row col)) = true) := by
  cases hsv : rowGet row col with
  | none => simp [sqlEval, hsv, likeSem]
  | str s =>
    cases hm : (if ins then likeMatch (toLowerStr pat) (toLowerStr s)
        else likeMatch pat s) <;>
      simp [sqlEval, hsv, likeSem, hm]
  | bool b => simp [sqlEval, hsv, likeSem]
  | int n => simp [sqlEval, hsv, likeSem]
  | float x => simp [sqlEval, hsv, likeSem]
  | date d => simp [sqlEval, hsv, likeSem]
  | datetime d => simp [sqlEval, hsv, likeSem]
  | time t => simp [sqlEval, hsv, likeSem]

theorem push_equiv (st : DBState) (collection : String) (crow : CollRec)
    (hc : get_collection st collection = some crow)
    (hWT : ∀ fr ∈ st.fields, fr.ftype ∈ ALL_TYPES)
    (r : RowData) (doc : List (String × PyValue))
    (hdoc : decodeFields crow.primary_key r (get_fields st collection) = Except.ok doc) :
    ∀ a : FilterAst, pushable st collection a = true →
    (∀ f ∈ astFields a, (get_field st collection f).isSome = true) →
    (sqlEval (toSql st collection a) r = Tri.t ↔ evalAst a (docLookup doc) = true) := by
  have hcoln : ∀ f : String, (field_name_to_column_name st collection f).getD f =
      fieldToColumn crow.primary_key f := by
    intro f
    simp [field_name_to_column_name, hc]
  have hdecl : ∀ f frow, get_field st collection f = some frow →
      ¬(frow.ftype ∈ LIST_TYPES) →
      docLookup doc f = some (.scalar (rowGet r (fieldToColumn crow.primary_key f))) := by
    intro f frow hgf hnl
    have hmem : frow ∈ st.fields := List.mem_of_find?_eq_some hgf
    have hpfx := scalar_not_list_prefix frow.ftype (hWT frow hmem) hnl
    have hfind : (get_fields st collection).find? (fun fr => fr.name == f) = some frow := by
      rw [get_fields, ← find?_filter_and (fun fr => fr.name == f)
        (fun fr => fr.collection == collection) st.fields]
      exact hgf
    obtain ⟨v, hv, hl⟩ :=
      decodeFields_lookup crow.primary_key r (get_fields st collection) doc hdoc f frow hfind
    rw [column_to_python, if_neg (by simp [hpfx])] at hv
    have hveq : v = .scalar (rowGet r (fieldToColumn crow.primary_key f)) := by
      simpa using hv.symm
    rw [← hveq]
    exact hl
  intro a
  induction a with
  | allDocs =>
    intro hp hfa
    simp [toSql, sqlEval, evalAst]
  | cmp op f l =>
    intro hp hfa
    simp only [pushable] at hp
    cases hgf : get_field st collection f with
    | none =>
      simp only [fieldIsScalar, hgf] at hp
      exact Bool.noConfusion hp
    | some frow =>
      have hnl : ¬(frow.ftype ∈ LIST_TYPES) := by
        simp only [fieldIsScalar, hgf] at hp
        simpa using hp
      have hl := hdecl f frow hgf hnl
      simp only [evalAst, hl]
      by_cases hln : l = PyScalar.none
      · subst hln
        cases op with
        | eq =>
          have htq : toSql st collection (.cmp CmpOp.eq f PyScalar.none) =
              SqlPred.isNull (fieldToColumn crow.primary_key f) := by
            simp [toSql, hcoln]
          rw [htq, sqlEval_isNull_equiv]
          simp [evalCmpNull]
        | ne =>
          have htq : toSql st collection (.cmp CmpOp.ne f PyScalar.none) =
              SqlPred.isNotNull (fieldToColumn crow.primary_key f) := by
            simp [toSql, hcoln]
          rw [htq, sqlEval_isNotNull_equiv]
          simp [evalCmpNull]
        | lt =>
          have htq : toSql st collection (.cmp CmpOp.lt f PyScalar.none) =
              SqlPred.fls := by
            simp [toSql]
          rw [htq]
          simp [sqlEval, evalCmpNull]
        | le =>
          have htq : toSql st collection (.cmp CmpOp.le f PyScalar.none) =
              SqlPred.fls := by
            simp [toSql]
          rw [htq]
          simp [sqlEval, evalCmpNull]
        | gt =>
          have htq : toSql st collection (.cmp CmpOp.gt f PyScalar.none) =
              SqlPred.fls := by
            simp [toSql]
          rw [htq]
          simp [sqlEval, evalCmpNull]
        | ge =>
          have htq : toSql st collection (.cmp CmpOp.ge f PyScalar.none) =
              SqlPred.fls := by
            simp [toSql]
          rw [htq]
          simp [sqlEval, evalCmpNull]
      · have htq : toSql st collection (.cmp op f l) =
            SqlPred.cmp op (fieldToColumn crow.primary_key f) l := by
          simp [toSql, hln, hcoln]
        rw [htq]
        exact sqlEval_cmp_equiv op l (fieldToColumn crow.primary_key f) r hln
  | inList f ls =>
    intro hp hfa
    simp only [pushable] at hp
    cases hgf : get_field st collection f with
    | none =>
      simp only [fieldIsScalar, hgf] at hp
      exact Bool.noConfusion hp
    | some frow =>
      have hnl : ¬(frow.ftype ∈ LIST_TYPES) := by
        simp only [fieldIsScalar, hgf] at hp
        simpa using hp
      have hl := hdecl f frow hgf hnl
      simp only [evalAst, hl]
      have htq : toSql st collection (.inList f ls) =
          SqlPred.inList (fieldToColumn crow.primary_key f) ls := by
        simp [toSql, hcoln]
      rw [htq]
      exact sqlEval_inList_equiv ls (fieldToColumn crow.primary_key f) r
  | inField l f =>
    intro hp hfa
    simp [pushable] at hp
  | like f p ins =>
    intro hp hfa
    simp only [pushable] at hp
    cases hgf : get_field st collection f with
    | none =>
      simp only [fieldIsScalar, hgf] at hp
      exact Bool.noConfusion hp
    | some frow =>
      have hnl : ¬(frow.ftype ∈ LIST_TYPES) := by
        simp only [fieldIsScalar, hgf] at hp
        simpa using hp
      have hl := hdecl f frow hgf hnl
      simp only [evalAst, hl]
      have htq : toSql st collection (.like f p ins) =
          SqlPred.like (fieldToColumn crow.primary_key f) p ins := by
        simp [toSql, hcoln]
      rw [htq]
      exact sqlEval_like_equiv p ins (fieldToColumn crow.primary_key f) r
  | notE a ih =>
    intro hp hfa
    simp [pushable] at hp
  | andE a b iha ihb =>
    intro hp hfa
    simp only [pushable, Bool.and_eq_true] at hp
    have hfa1 : ∀ f ∈ astFields a, (get_field st collection f).isSome = true := by
      intro f hf
      exact hfa f (by simp only [astFields, List.mem_append]; exact Or.inl hf)
    have hfa2 : ∀ f ∈ astFields b, (get_field st collection f).isSome = true := by
      intro f hf
      exact hfa f (by simp only [astFields, List.mem_append]; exact Or.inr hf)
    have h1 := iha hp.1 hfa1
    have h2 := ihb hp.2 hfa2
    show sqlEval (.andP (toSql st collection a) (toSql st collection b)) r = Tri.t ↔ _
    rw [show sqlEval (.andP (toSql st collection a) (toSql st collection b)) r =
      triAnd (sqlEval (toSql st collection a) r) (sqlEval (toSql st collection b) r) from rfl,
      triAnd_eq_t]
    show _ ↔ (evalAst a (docLookup doc) && evalAst b (docLookup doc)) = true
    rw [Bool.and_eq_true]
    exact and_congr h1 h2
  | orE a b iha ihb =>
    intro hp hfa
    simp only [pushable, Bool.and_eq_true] at hp
    have hfa1 : ∀ f ∈ astFields a, (get_field st collection f).isSome = true := by
      intro f hf
      exact hfa f (by simp only [astFields, List.mem_append]; exact Or.inl hf)
    have hfa2 : ∀ f ∈ astFields b, (get_field st collection f).isSome = true := by
      intro f hf
      exact hfa f (by simp only [astFields, List.mem_append]; exact Or.inr hf)
    have h1 := iha hp.1 hfa1
    have h2 := ihb hp.2 hfa2
    show sqlEval (.orP (toSql st collection a) (toSql st collection b)) r = Tri.t ↔ _
    rw [show sqlEval (.orP (toSql st collection a) (toSql st collection b)) r =
      triOr (sqlEval (toSql st collection a) r) (sqlEval (toSql st collection b) r) from rfl,
      triOr_eq_t]
    show _ ↔ (evalAst a (docLookup doc) || evalAst b (docLookup doc)) = true
    rw [Bool.or_eq_true]
    exact or_congr h1 h2

/-- Claim C1: for every collection, every store whose rows decode, and
every filter over known fields, executing the compiled query — the
push-down condition evaluated by the backend with SQL three-valued
logic, and the residual conjuncts applied in process to each decoded
document — yields exactly the rows selected by evaluating the full AST
naively over every decoded document with no push-down, including null
comparisons and IN against literal lists. -/
theorem C1_filter_refinement (st : DBState) (collection : String) (ast : FilterAst)
    (crow : CollRec) (tdata : TableData) (q : FilterQuery)
    (hc : get_collection st collection = some crow)
    (hlk : List.lookup collection st.tables = some tdata)
    (hWT : ∀ fr ∈ st.fields, fr.ftype ∈ ALL_TYPES)
    (hdec : ∀ r ∈ tdata.rows, ∃ doc, decodeDoc st collection r = Except.ok doc)
    (hq : filter_query st collection ast = Except.ok q) :
    filter_documents st collection q = naive_filter st collection ast := by
  by_cases hall : ast = FilterAst.allDocs
  · subst hall
    have hqn : FilterQuery.noneQ = q := by
      unfold filter_query at hq
      rw [if_neg (by simp [astFields]), if_pos rfl] at hq
      simpa using hq
    rw [← hqn]
    simp only [filter_documents, naive_filter, hlk]
    rw [rowsFilterResid_allDocs st collection tdata.rows hdec]
  · have hfields : ((astFields ast).all fun f => (get_field st collection f).isSome) = true := by
      by_contra hneg
      unfold filter_query at hq
      rw [if_pos hneg] at hq
      exact Except.noConfusion hq
    have hkey : ∀ r ∈ tdata.rows, ∃ doc, decodeDoc st collection r = Except.ok doc ∧
        (sqlEval (toSql st collection
            (bigAnd ((toConj ast).filter (pushable st collection)))) r = Tri.t ↔
          evalAst (bigAnd ((toConj ast).filter (pushable st collection)))
            (docLookup doc) = true) ∧
        evalAst ast (docLookup doc) =
          (evalAst (bigAnd ((toConj ast).filter (pushable st collection)))
              (docLookup doc) &&
            evalAst (bigAnd ((toConj ast).filter fun c => !(pushable st collection c)))
              (docLookup doc)) := by
      intro r hr
      obtain ⟨doc, hdoc⟩ := hdec r hr
      have hdoc2 : decodeFields crow.primary_key r (get_fields st collection) =
          Except.ok doc := by
        simp only [decodeDoc, hc] at hdoc
        exact hdoc
      refine ⟨doc, hdoc, ?_, ?_⟩
      · apply push_equiv st collection crow hc hWT r doc hdoc2
        · apply pushable_bigAnd
          rw [List.all_eq_true]
          intro c hcm
          exact (List.mem_filter.1 hcm).2
        · intro f hf
          obtain ⟨c, hcm, hfc⟩ := astFields_bigAnd _ f hf
          have hct : c ∈ toConj ast := (List.mem_filter.1 hcm).1
          exact (List.all_eq_true.1 hfields) f (astFields_toConj ast c hct f hfc)
      · rw [evalAst_bigAnd, evalAst_bigAnd, ← all_filter_partition, evalAst_toConj]
    have hrows : ∀ r ∈ tdata.rows, ∃ doc, decodeDoc st collection r = Except.ok doc ∧
        (sqlEval (toSql st collection
            (bigAnd ((toConj ast).filter (pushable st collection)))) r = Tri.t →
          evalAst ast (docLookup doc) =
            evalAst (bigAnd ((toConj ast).filter fun c => !(pushable st collection c)))
              (docLookup doc)) ∧
        (¬(sqlEval (toSql st collection
            (bigAnd ((toConj ast).filter (pushable st collection)))) r = Tri.t) →
          evalAst ast (docLookup doc) = false) := by
      intro r hr
      obtain ⟨doc, hdoc, hiff, hpart⟩ := hkey r hr
      refine ⟨doc, hdoc, ?_, ?_⟩
      · intro hsql
        rw [hpart, hiff.1 hsql]
        simp
      · intro hnsql
        have hfalse : evalAst (bigAnd ((toConj ast).filter (pushable st collection)))
            (docLookup doc) = false := by
          cases hb : evalAst (bigAnd ((toConj ast).filter (pushable st collection)))
              (docLookup doc) with
          | true => exact absurd (hiff.2 hb) hnsql
          | false => rfl
        rw [hpart, hfalse]
        simp
    have hcomb := rowsFilter_combine st collection
      (toSql st collection (bigAnd ((toConj ast).filter (pushable st collection))))
      (bigAnd ((toConj ast).filter fun c => !(pushable st collection c)))
      ast tdata.rows hrows
    unfold filter_query at hq
    rw [if_neg (not_not_intro hfields), if_neg hall] at hq
    split at hq
    · rename_i heq1 heq2
      exact absurd (filter_both_nil _ _ heq1 heq2) (toConj_ne_nil ast)
    · rename_i heq1 heq2
      have hqv : FilterQuery.sqlOnly (toSql st collection
          (bigAnd ((toConj ast).filter (pushable st collection)))) = q := by
        simpa using hq
      rw [← hqv]
      simp only [filter_documents, naive_filter, hlk]
      rw [← hcomb, heq1]
      rw [show bigAnd ([] : List FilterAst) = FilterAst.allDocs from rfl]
      rw [rowsFilterResid_allDocs st collection
        (rowsFilterSql (toSql st collection
          (bigAnd ((toConj ast).filter (pushable st collection)))) tdata.rows)
        (fun r hr => hdec r (List.mem_of_mem_filter hr))]
    · rename_i heq0 heq1 heq2
      have hqv : FilterQuery.pyOnly
          (bigAnd ((toConj ast).filter fun c => !(pushable st collection c))) = q := by
        simpa using hq
      rw [← hqv]
      simp only [filter_documents, naive_filter, hlk]
      rw [heq0] at hcomb
      rw [show toSql st collection (bigAnd ([] : List FilterAst)) = SqlPred.tru from rfl,
        rowsFilterSql_tru] at hcomb
      exact hcomb
    · rename_i heq1 heq2
      have hqv : FilterQuery.both (toSql st collection
            (bigAnd ((toConj ast).filter (pushable st collection))))
          (bigAnd ((toConj ast).filter fun c => !(pushable st collection c))) = q := by
        simpa using hq
      rw [← hqv]
      simp only [filter_documents, naive_filter, hlk]
      exact hcomb

/-- First document of the C1 witness store: f = 1, g = [1, 2]. -/
def c1row1 : RowData :=
  [("name", PyScalar.str "d1"), (c7H, PyScalar.int 1),
   (c4G, PyScalar.str "[1, 2]")]

/-- Second document of the C1 witness store: f and g are null. -/
def c1row2 : RowData := [("name", PyScalar.str "d2")]

/-- The C1 witness store: a string pk, an integer field f and a
list_integer field g. -/
def c1st : DBState :=
  { collections := [⟨"c", "name"⟩]
    fields := [⟨"c", "name", "string", Option.none⟩,
      ⟨"c", "f", "integer", Option.none⟩,
      ⟨"c", "g", "list_integer", Option.none⟩]
    tables := [("c", ⟨["name", c7H, c4G], [c1row1, c1row2]⟩)]
    caches := Option.none }

/-- The C1 witness filter: f == 1 AND 2 IN g. -/
def c1ast : FilterAst := .andE (.cmp CmpOp.eq "f" (.int 1)) (.inField (.int 2) "g")

/-- Its compiled form: the comparison pushed down on f's column, the
IN-field conjunct residual. -/
def c1q : FilterQuery := .both (.cmp CmpOp.eq c7H (.int 1)) (.inField (.int 2) "g")

/-- Witness for C1 on a concrete store: the compiled query selects
exactly the naive evaluation's document set. -/
theorem C1_filter_refinement_witness :
    filter_query c1st "c" c1ast = Except.ok c1q ∧
    filter_documents c1st "c" c1q = naive_filter c1st "c" c1ast ∧
    filter_documents c1st "c" c1q = Except.ok [c1row1] := by
  refine ⟨by rfl, ?_, by rfl⟩
  exact C1_filter_refinement c1st "c" c1ast ⟨"c", "name"⟩
    ⟨["name", c7H, c4G], [c1row1, c1row2]⟩ c1q
    (by rfl) (by rfl) (by decide)
    (by intro r hr
        rcases List.mem_cons.1 hr with rfl | hr2
        · exact ⟨_, rfl⟩
        · rcases List.mem_cons.1 hr2 with rfl | hr3
          · exact ⟨_, rfl⟩
          · exact absurd hr3 (List.not_mem_nil r))
    (by rfl)
